import Mathlib

/-!
# ws-chat: a shallow embedding of the chat runtime

Go strings and byte slices are lists of bytes (`Nat` values below 256), so that
`len`, slicing and prefix tests are the ones of the source.  Pointers to
visitors, rooms and list elements are natural numbers into explicit heaps.
Channels are queues with a capacity: a send to a full channel blocks, closing a
closed channel panics.
-/

namespace WsChat

/-- A Go `string` or `[]byte`: its bytes in order. -/
abbrev Bytes := List Nat

/-- The byte `'\n'`. -/
def newline : Nat := 10

/-! ## cmd/wsserver.go: the transport adapter -/

/-- The part of `*websocket.Conn` that `ChatConn.Write` uses: the frames handed
to `WriteMessage` so far, and the results the next calls will report (`true`
is an error; when the list is used up every call succeeds). -/
structure WsConn where
  written : List Bytes
  writeErrs : List Bool

/-- `Conn.WriteMessage(websocket.TextMessage, p)`: `true` when it reports an
error, in which case nothing reaches the peer. -/
def WsConn.WriteMessage (c : WsConn) (p : Bytes) : Bool × WsConn :=
  match c.writeErrs with
  | true :: rest => (true, { c with writeErrs := rest })
  | false :: rest => (false, { written := c.written ++ [p], writeErrs := rest })
  | [] => (false, { c with written := c.written ++ [p] })

/-- `ChatConn` of wsserver.go. -/
structure ChatConn where
  Conn : WsConn
  InputBuffer : Bytes
  OutputBuffer : Bytes

/-- The slice `b[lo:hi]`. -/
def slice (b : Bytes) (lo hi : Nat) : Bytes := (b.drop lo).take (hi - lo)

/-- `ChatConn.MergeOutputBuffer`: with an empty output buffer `newb` itself,
otherwise the buffered bytes (read out of the buffer, which empties it)
followed by `newb`. -/
def ChatConn.MergeOutputBuffer (cc : ChatConn) (newb : Bytes) : Bytes × ChatConn :=
  let old_n := cc.OutputBuffer.length
  if old_n = 0 then (newb, cc)
  else (cc.OutputBuffer ++ newb, { cc with OutputBuffer := [] })

/-- The `for to < n` loop of `ChatConn.Write`; `fuel` bounds the iterations
and the result is the final `from` with the connection. -/
def writeLoop (b : Bytes) (n : Nat) : Nat → Nat → Nat → WsConn → Nat × WsConn
  | 0, from_, _, c => (from_, c)
  | fuel + 1, from_, to_, c =>
    if to_ < n then
      if b.getD to_ 0 = newline then
        if to_ - from_ > 0 then
          match c.WriteMessage (slice b from_ (to_ + 1)) with
          | (true, c1) => (from_, c1)
          | (false, c1) => writeLoop b n fuel (to_ + 1) (to_ + 1) c1
        else writeLoop b n fuel (to_ + 1) (to_ + 1) c
      else writeLoop b n fuel from_ (to_ + 1) c
    else (from_, c)

/-- `ChatConn.Write`: the returned count and the adapter afterwards. -/
def ChatConn.Write (cc : ChatConn) (newb : Bytes) : Nat × ChatConn :=
  let (b, cc1) := cc.MergeOutputBuffer newb
  let n := b.length
  let (from_, c1) := writeLoop b n n 0 0 cc1.Conn
  let cc2 : ChatConn := { cc1 with Conn := c1 }
  let cc3 : ChatConn :=
    if from_ < n then { cc2 with OutputBuffer := cc2.OutputBuffer ++ b.drop from_ } else cc2
  (newb.length, cc3)

/-- The frames `Write` added to the connection: those written afterwards
beyond the ones written before. -/
def framesSent (before after : ChatConn) : List Bytes :=
  after.Conn.written.drop before.Conn.written.length

/-- A byte sequence with its empty lines deleted: every newline that begins
a line is removed; `atStart` tells whether the first byte begins a line. -/
def dropEmptyLines : Bool → Bytes → Bytes
  | _, [] => []
  | atStart, x :: xs =>
    if x = newline then
      if atStart then dropEmptyLines true xs else x :: dropEmptyLines true xs
    else x :: dropEmptyLines false xs

/-- What the scan of `Write` produces from the current partial line `cur`
and the bytes still to scan: the frames sent, and the bytes retained. -/
def scanLines : Bytes → Bytes → List Bytes × Bytes
  | cur, [] => ([], cur)
  | cur, x :: xs =>
    if x = newline then
      if cur = [] then scanLines [] xs
      else ((cur ++ [x]) :: (scanLines [] xs).1, (scanLines [] xs).2)
    else scanLines (cur ++ [x]) xs

/-! ## strings -/

/-- An ASCII literal of the source as bytes. -/
def str (s : String) : Bytes := s.data.map Char.toNat

/-- `strings.HasPrefix`. -/
def HasPrefix (s p : Bytes) : Bool := p.isPrefixOf s

/-- `strings.TrimPrefix`. -/
def TrimPrefix (s p : Bytes) : Bytes := if HasPrefix s p then s.drop p.length else s

/-- Width in bytes of the first rune of a string as Go decodes UTF-8: an
invalid or truncated encoding is one byte wide (it decodes to U+FFFD). -/
def runeWidth : Bytes → Nat
  | [] => 0
  | b0 :: rest =>
    if b0 < 0xC2 then 1
    else if b0 < 0xE0 then
      match rest with
      | b1 :: _ => if 0x80 ≤ b1 ∧ b1 ≤ 0xBF then 2 else 1
      | _ => 1
    else if b0 < 0xF0 then
      match rest with
      | b1 :: b2 :: _ =>
        if (if b0 = 0xE0 then 0xA0 else 0x80) ≤ b1 ∧ b1 ≤ (if b0 = 0xED then 0x9F else 0xBF)
            ∧ 0x80 ≤ b2 ∧ b2 ≤ 0xBF then 3 else 1
      | _ => 1
    else if b0 < 0xF5 then
      match rest with
      | b1 :: b2 :: b3 :: _ =>
        if (if b0 = 0xF0 then 0x90 else 0x80) ≤ b1 ∧ b1 ≤ (if b0 = 0xF4 then 0x8F else 0xBF)
            ∧ 0x80 ≤ b2 ∧ b2 ≤ 0xBF ∧ 0x80 ≤ b3 ∧ b3 ≤ 0xBF then 4 else 1
      | _ => 1
    else 1

/-- Rune count with a bound on the number of runes decoded. -/
def runeCountAux : Nat → Bytes → Nat
  | 0, _ => 0
  | fuel + 1, s => if s = [] then 0 else 1 + runeCountAux fuel (s.drop (runeWidth s))

/-- `len([]rune(s))`. -/
def runeCount (s : Bytes) : Nat := runeCountAux s.length s

/-- `string([]rune(s)[:k])`: the first `k` runes written back as a string.  A
valid encoding is written back as it was; an invalid byte was decoded to
U+FFFD and is written back as its three-byte encoding. -/
def takeRunes : Nat → Bytes → Bytes
  | 0, _ => []
  | k + 1, s =>
    match s with
    | [] => []
    | b0 :: _ =>
      (if runeWidth s = 1 ∧ 0x80 ≤ b0 then [0xEF, 0xBF, 0xBD] else s.take (runeWidth s))
        ++ takeRunes k (s.drop (runeWidth s))

/-! ## constants and library functions -/

/-- Modelled from the spec: the limits of section 6 (max message length, max
and min visitor name length, room capacity, the queue capacities, the lobby
room id and the void room id); the file that declares these constants is not
under src/.  `ToLower` and `TrimSpace` are the functions of Go's `strings`
package. -/
structure Config where
  MaxMessageLength : Nat
  MaxVisitorNameLength : Nat
  MinVisitorNameLength : Nat
  MaxRoomCapacity : Nat
  MaxRoomBufferedMessages : Nat
  MaxVisitorBufferedMessages : Nat
  MaxBufferedChangeRoomRequests : Nat
  MaxBufferedChangeNameRequests : Nat
  LobbyRoomID : Bytes
  VoidRoomID : Bytes
  ToLower : Bytes → Bytes
  TrimSpace : Bytes → Bytes

/-- `strings.ToLower` on ASCII letters. -/
def asciiToLower (s : Bytes) : Bytes := s.map fun b => if 65 ≤ b ∧ b ≤ 90 then b + 32 else b

/-- The ASCII white space `strings.TrimSpace` removes. -/
def isAsciiSpace (b : Nat) : Bool := b = 32 || (9 ≤ b && b ≤ 13)

/-- `strings.TrimSpace` on ASCII white space. -/
def asciiTrimSpace (s : Bytes) : Bytes :=
  ((s.dropWhile isAsciiSpace).reverse.dropWhile isAsciiSpace).reverse

/-- A small configuration used to run the definitions on concrete inputs. -/
def sampleConfig : Config where
  MaxMessageLength := 16
  MaxVisitorNameLength := 6
  MinVisitorNameLength := 2
  MaxRoomCapacity := 2
  MaxRoomBufferedMessages := 2
  MaxVisitorBufferedMessages := 2
  MaxBufferedChangeRoomRequests := 4
  MaxBufferedChangeNameRequests := 4
  LobbyRoomID := str "lobby"
  VoidRoomID := []
  ToLower := asciiToLower
  TrimSpace := asciiTrimSpace

/-! ## outcomes of a piece of actor code -/

/-- How a piece of code ends: it ran to its end, it is stuck on a channel
operation that cannot proceed (a send to a full channel, a receive from an
empty or an open signal channel), or it faulted (close of a closed channel,
index out of range).  Each carries the state at that point. -/
inductive Outcome (σ : Type) where
  | done (s : σ)
  | blocked (s : σ)
  | fault (s : σ)

/-- Sequencing: the second piece runs only when the first ran to its end. -/
def Outcome.andThen {σ τ : Type} (o : Outcome σ) (f : σ → Outcome τ) (g : σ → τ) : Outcome τ :=
  match o with
  | .done s => f s
  | .blocked s => .blocked (g s)
  | .fault s => .fault (g s)

/-- Sequencing on one state type. -/
def Outcome.next {σ : Type} (o : Outcome σ) (f : σ → Outcome σ) : Outcome σ :=
  o.andThen f id

/-- The state an outcome carries. -/
def Outcome.state {σ : Type} : Outcome σ → σ
  | .done s => s
  | .blocked s => s
  | .fault s => s

/-- Whether the code ran to its end. -/
def Outcome.isDone {σ : Type} : Outcome σ → Bool
  | .done _ => true
  | _ => false

/-! ## internal: the data model -/

/-- A `*list.Element` of a room's `Visitors` list: its identity and its
`Value`, the visitor it holds. -/
structure Element where
  id : Nat
  Value : Nat
deriving DecidableEq, Repr

/-- `Visitor` of visitor.go.  Channels that are only ever closed are the
Boolean "has been closed"; `OutputMessages` is the queue of the channel. -/
structure Visitor where
  ConnectionClosed : Bool := false
  OutputMessages : List Bytes := []
  Name : Bytes := []
  NextName : Bytes := []
  RoomElement : Option Element := none
  CurrentRoom : Option Nat := none
  NextRoomID : Bytes := []
  RoomChanged : Bool := false
  ReadClosed : Bool := false
  WriteClosed : Bool := false
  Closed : Bool := false

/-- `Room` of room.go. -/
structure Room where
  ID : Bytes := []
  Name : Bytes := []
  Visitors : List Element := []
  Messages : List Bytes := []
  VisitorLeaveRequests : List Nat := []
  VisitorEnterRequests : List Nat := []

/-- `Server` of server.go with the heap of the visitors and rooms it points
to: `visitorAt v` is the record behind the pointer `v`, `roomAt r` the one
behind `r`; the counters give the next unused pointers. -/
structure Server where
  Rooms : Bytes → Option Nat
  Lobby : Nat
  Visitors : Bytes → Option Nat
  ChangeRoomRequests : List Nat
  ChangeNameRequests : List Nat
  visitorAt : Nat → Visitor
  roomAt : Nat → Room
  numVisitors : Nat
  numRooms : Nat
  numElements : Nat

/-- Update of the record behind a visitor pointer. -/
def Server.setVisitor (s : Server) (v : Nat) (f : Visitor → Visitor) : Server :=
  { s with visitorAt := Function.update s.visitorAt v (f (s.visitorAt v)) }

/-- Update of the record behind a room pointer. -/
def Server.setRoom (s : Server) (r : Nat) (f : Room → Room) : Server :=
  { s with roomAt := Function.update s.roomAt r (f (s.roomAt r)) }

/-! ## channel operations -/

/-- `v.OutputMessages <- m`. -/
def sendOutput (cfg : Config) (v : Nat) (m : Bytes) (s : Server) : Outcome Server :=
  if (s.visitorAt v).OutputMessages.length < cfg.MaxVisitorBufferedMessages then
    .done (s.setVisitor v fun x => { x with OutputMessages := x.OutputMessages ++ [m] })
  else .blocked s

/-- `server.ChangeRoomRequests <- v`. -/
def sendChangeRoomRequest (cfg : Config) (v : Nat) (s : Server) : Outcome Server :=
  if s.ChangeRoomRequests.length < cfg.MaxBufferedChangeRoomRequests then
    .done { s with ChangeRoomRequests := s.ChangeRoomRequests ++ [v] }
  else .blocked s

/-- `server.ChangeNameRequests <- v`. -/
def sendChangeNameRequest (cfg : Config) (v : Nat) (s : Server) : Outcome Server :=
  if s.ChangeNameRequests.length < cfg.MaxBufferedChangeNameRequests then
    .done { s with ChangeNameRequests := s.ChangeNameRequests ++ [v] }
  else .blocked s

/-- `r.VisitorLeaveRequests <- v`. -/
def sendLeaveRequest (cfg : Config) (r v : Nat) (s : Server) : Outcome Server :=
  if (s.roomAt r).VisitorLeaveRequests.length < cfg.MaxRoomCapacity then
    .done (s.setRoom r fun x => { x with VisitorLeaveRequests := x.VisitorLeaveRequests ++ [v] })
  else .blocked s

/-- `r.VisitorEnterRequests <- v`. -/
def sendEnterRequest (cfg : Config) (r v : Nat) (s : Server) : Outcome Server :=
  if (s.roomAt r).VisitorEnterRequests.length < cfg.MaxRoomCapacity then
    .done (s.setRoom r fun x => { x with VisitorEnterRequests := x.VisitorEnterRequests ++ [v] })
  else .blocked s

/-- `r.Messages <- m`. -/
def sendMessage (cfg : Config) (r : Nat) (m : Bytes) (s : Server) : Outcome Server :=
  if (s.roomAt r).Messages.length < cfg.MaxRoomBufferedMessages then
    .done (s.setRoom r fun x => { x with Messages := x.Messages ++ [m] })
  else .blocked s

/-- `close(v.RoomChanged)`. -/
def closeRoomChanged (v : Nat) (s : Server) : Outcome Server :=
  if (s.visitorAt v).RoomChanged then .fault s
  else .done (s.setVisitor v fun x => { x with RoomChanged := true })

/-- `close(v.ReadClosed)`. -/
def closeReadClosed (v : Nat) (s : Server) : Outcome Server :=
  if (s.visitorAt v).ReadClosed then .fault s
  else .done (s.setVisitor v fun x => { x with ReadClosed := true })

/-- `close(v.WriteClosed)`. -/
def closeWriteClosed (v : Nat) (s : Server) : Outcome Server :=
  if (s.visitorAt v).WriteClosed then .fault s
  else .done (s.setVisitor v fun x => { x with WriteClosed := true })

/-! ## internal/server.go -/

/-- `Server.CreateMessage`; `now` is the local time formatted `15:04:05`. -/
def CreateMessage (now who what : Bytes) : Bytes :=
  str "[" ++ now ++ str "] " ++ who ++ str "> " ++ what ++ str "\n"

/-- `Server.NormalizeName`: every match of the expression `[{}]` removed. -/
def NormalizeName (name : Bytes) : Bytes := name.filter fun b => b != 123 && b != 125

/-- Deleting a key of a Go map. -/
def mapDelete (m : Bytes → Option Nat) (k : Bytes) : Bytes → Option Nat :=
  Function.update m k none

/-- Assigning a key of a Go map. -/
def mapSet (m : Bytes → Option Nat) (k : Bytes) (x : Nat) : Bytes → Option Nat :=
  Function.update m k (some x)

/-! ## internal/room.go -/

/-- `Server.createNewRoom`: the new room's pointer and the server afterwards. -/
def createNewRoom (cfg : Config) (id : Bytes) (s : Server) : Nat × Server :=
  let room : Room :=
    { ID := id
      Name := if id = cfg.LobbyRoomID then id else str "Room#" ++ id
      Visitors := []
      Messages := []
      VisitorLeaveRequests := []
      VisitorEnterRequests := [] }
  (s.numRooms,
    { s with
      roomAt := Function.update s.roomAt s.numRooms room
      Rooms := mapSet s.Rooms (cfg.ToLower id) s.numRooms
      numRooms := s.numRooms + 1 })

/-- Modelled from the spec: `Server.newRoom`, which `Server.run` calls and no
file under src/ defines; the Directory "resolves or lazily creates" a room, and
the only constructor of rooms in the source is `createNewRoom`. -/
def newRoom (cfg : Config) (id : Bytes) (s : Server) : Nat × Server :=
  createNewRoom cfg id s

/-- `Room.enterVisitor`: the diagnostic for a visitor that already is in a
room only logs; the assignments follow in every case.  `PushBack` makes a new
element. -/
def enterVisitor (r v : Nat) (s : Server) : Server :=
  let e : Element := { id := s.numElements, Value := v }
  let s1 := s.setVisitor v fun x => { x with CurrentRoom := some r }
  let s2 := s1.setRoom r fun x => { x with Visitors := x.Visitors ++ [e] }
  let s3 := s2.setVisitor v fun x => { x with RoomElement := some e }
  { s3 with numElements := s.numElements + 1 }

/-- `l.Remove(e)` of container/list on the member list of room `r`: the
element leaves the list when it is in it. -/
def listRemove (r : Nat) (e : Element) (s : Server) : Server :=
  s.setRoom r fun x => { x with Visitors := x.Visitors.filter fun y => y.id != e.id }

/-- `Room.leaveVisitor`. -/
def leaveVisitor (r v : Nat) (s : Server) : Server :=
  match (s.visitorAt v).RoomElement, (s.visitorAt v).CurrentRoom with
  | some e, some cur =>
    if cur ≠ r then s
    else
      let s1 := listRemove r e s
      if v ≠ e.Value then s1
      else s1.setVisitor v fun x => { x with RoomElement := none, CurrentRoom := none }
  | _, _ => s

/-! ## internal/visitor.go: room change, name change -/

/-- `Visitor.beginChangingRoom`. -/
def beginChangingRoom (cfg : Config) (v : Nat) (newRoomID : Bytes) (s : Server) : Outcome Server :=
  let s1 := s.setVisitor v fun x => { x with RoomChanged := false }
  let s2 := s1.setVisitor v fun x => { x with NextRoomID := newRoomID }
  sendChangeRoomRequest cfg v s2

/-- `Visitor.endChangingRoom`. -/
def endChangingRoom (cfg : Config) (v : Nat) (s : Server) : Outcome Server :=
  closeRoomChanged v (s.setVisitor v fun x => { x with NextRoomID := cfg.VoidRoomID })

/-- `Visitor.closeConnection`. -/
def closeConnection (v : Nat) (s : Server) : Server :=
  s.setVisitor v fun x => { x with ConnectionClosed := true }

/-- `Server.destroyVisitor`. -/
def destroyVisitor (cfg : Config) (v : Nat) (s : Server) : Server :=
  closeConnection v { s with Visitors := mapDelete s.Visitors (cfg.ToLower (s.visitorAt v).Name) }

/-- `Server.newVisitor`: the new visitor's pointer with the outcome. -/
def newVisitor (cfg : Config) (name : Bytes) (s : Server) : Nat × Outcome Server :=
  let visitor : Visitor :=
    { ConnectionClosed := false
      OutputMessages := []
      Name := name
      NextName := []
      RoomElement := none
      CurrentRoom := none
      NextRoomID := cfg.VoidRoomID
      RoomChanged := false
      ReadClosed := false
      WriteClosed := false
      Closed := false }
  let s1 : Server :=
    { s with
      visitorAt := Function.update s.visitorAt s.numVisitors visitor
      numVisitors := s.numVisitors + 1 }
  let s2 : Server := { s1 with Visitors := mapSet s1.Visitors (cfg.ToLower name) s.numVisitors }
  (s.numVisitors, beginChangingRoom cfg s.numVisitors cfg.LobbyRoomID s2)

/-- The name `changeName` tries to take for the requested `NextName`: cut to
`MaxVisitorNameLength` runes, then normalized. -/
def candidateName (cfg : Config) (nextName : Bytes) : Bytes :=
  NormalizeName
    (if runeCount nextName > cfg.MaxVisitorNameLength
      then takeRunes cfg.MaxVisitorNameLength nextName else nextName)

/-- `Visitor.changeName`. -/
def changeName (cfg : Config) (now : Bytes) (v : Nat) (s : Server) : Outcome Server :=
  if runeCount (s.visitorAt v).NextName < cfg.MinVisitorNameLength then .done s
  else
    let newName := candidateName cfg (s.visitorAt v).NextName
    if newName.length < cfg.MinVisitorNameLength ∨ newName.length > cfg.MaxVisitorNameLength then
      .done s
    else if (s.Visitors (cfg.ToLower newName)).isSome then .done s
    else
      let s1 : Server :=
        { s with Visitors := mapDelete s.Visitors (cfg.ToLower (s.visitorAt v).Name) }
      let s2 := s1.setVisitor v fun x => { x with Name := newName }
      let s3 : Server := { s2 with Visitors := mapSet s2.Visitors (cfg.ToLower newName) v }
      sendOutput cfg v
        (CreateMessage now (str "Server") (str "you changed your name to " ++ newName)) s3

/-! ## internal/room.go: the cases of `Room.run` -/

/-- The case `visitor := <-r.VisitorLeaveRequests` of `Room.run`. -/
def leaveCase (cfg : Config) (now : Bytes) (r : Nat) (s : Server) : Outcome Server :=
  match (s.roomAt r).VisitorLeaveRequests with
  | [] => .blocked s
  | v :: rest =>
    let s1 := s.setRoom r fun x => { x with VisitorLeaveRequests := rest }
    let s2 := leaveVisitor r v s1
    (sendOutput cfg v (CreateMessage now (s2.roomAt r).Name (str "<= you leaved this room.")) s2).next
      (sendChangeRoomRequest cfg v)

/-- The case `visitor := <-r.VisitorEnterRequests` of `Room.run`. -/
def enterCase (cfg : Config) (now : Bytes) (r : Nat) (s : Server) : Outcome Server :=
  match (s.roomAt r).VisitorEnterRequests with
  | [] => .blocked s
  | v :: rest =>
    let s1 := s.setRoom r fun x => { x with VisitorEnterRequests := rest }
    (if (s1.roomAt r).Visitors.length ≥ cfg.MaxRoomCapacity then
      sendOutput cfg v (CreateMessage now (s1.roomAt r).Name (str "Sorry, I am full. :(")) s1
    else
      let s2 := enterVisitor r v s1
      sendOutput cfg v (CreateMessage now (s2.roomAt r).Name (str "<= you entered this room.")) s2).next
      (endChangingRoom cfg v)

/-- The loop over the member list in the `Messages` case: one send a member,
from the front of the list. -/
def broadcast (cfg : Config) (message : Bytes) : List Element → Server → Outcome Server
  | [], s => .done s
  | e :: es, s => (sendOutput cfg e.Value message s).next (broadcast cfg message es)

/-- The case `message := <-r.Messages` of `Room.run`. -/
def messagesCase (cfg : Config) (r : Nat) (s : Server) : Outcome Server :=
  match (s.roomAt r).Messages with
  | [] => .blocked s
  | message :: rest =>
    let s1 := s.setRoom r fun x => { x with Messages := rest }
    broadcast cfg message (s1.roomAt r).Visitors s1

/-! ## internal/server.go: `Server.run` -/

/-- The state `Server.run` sets up before its loop starts: empty maps and
queues, and the lobby. -/
def Server.init (cfg : Config) : Server :=
  let s0 : Server :=
    { Rooms := fun _ => none
      Lobby := 0
      Visitors := fun _ => none
      ChangeRoomRequests := []
      ChangeNameRequests := []
      visitorAt := fun _ => {}
      roomAt := fun _ => {}
      numVisitors := 0
      numRooms := 0
      numElements := 0 }
  let (lobby, s1) := newRoom cfg cfg.LobbyRoomID s0
  { s1 with Lobby := lobby }

/-- The case `conn := <-server.PendingConnections`; `name` is the result of
`CreateRandomVisitorName`. -/
def pendingConnectionCase (cfg : Config) (now name : Bytes) (s : Server) : Outcome Server :=
  let (visitor, o) := newVisitor cfg name s
  o.next fun s1 =>
    sendOutput cfg visitor
      (CreateMessage now (str "Server")
        (str "your name: " ++ (s1.visitorAt visitor).Name
          ++ str ". You can input /name new_name to change your name.")) s1

/-- The case `visitor := <-server.ChangeNameRequests`. -/
def changeNameCase (cfg : Config) (now : Bytes) (s : Server) : Outcome Server :=
  match s.ChangeNameRequests with
  | [] => .blocked s
  | v :: rest => changeName cfg now v { s with ChangeNameRequests := rest }

/-- The `switch` of the case `visitor := <-server.ChangeRoomRequests`. -/
def changeRoom (cfg : Config) (v : Nat) (s : Server) : Outcome Server :=
  match (s.visitorAt v).CurrentRoom with
  | some r => sendLeaveRequest cfg r v s
  | none =>
    if (s.visitorAt v).NextRoomID = cfg.VoidRoomID then
      (endChangingRoom cfg v s).next fun s1 => .done (destroyVisitor cfg v s1)
    else
      match s.Rooms (cfg.ToLower (s.visitorAt v).NextRoomID) with
      | some room => sendEnterRequest cfg room v s
      | none =>
        let (room, s1) := newRoom cfg (s.visitorAt v).NextRoomID s
        sendEnterRequest cfg room v s1

/-- The case `visitor := <-server.ChangeRoomRequests`. -/
def changeRoomCase (cfg : Config) (s : Server) : Outcome Server :=
  match s.ChangeRoomRequests with
  | [] => .blocked s
  | v :: rest => changeRoom cfg v { s with ChangeRoomRequests := rest }

/-! ## internal/visitor.go: the reader -/

/-- The error a read reports: `io.EOF` or another error. -/
inductive ReadErr where
  | eof
  | other
deriving DecidableEq, Repr

/-- What `Visitor.read` keeps besides the visitor record: the bytes the
connection will still deliver and the error it reports after them, the budget
`LimitInput.N` of the limited reader (bytes that `Input` holds in its buffer
count as not yet read), and the local `inReadingLongMessage`. -/
structure Reader where
  input : Bytes
  inputErr : ReadErr
  LimitInputN : Nat
  inReadingLongMessage : Bool

/-- `v.Input.ReadString('\n')`, a `bufio.Reader` over the limited reader: the
line up to and with the first newline when it comes within the budget;
otherwise all the bytes of the budget with `io.EOF` from the limited reader,
or, when the connection ends before that, what is left with the connection's
error. -/
def ReadString (rd : Reader) : Bytes × Option ReadErr × Reader :=
  let window := rd.input.take rd.LimitInputN
  let pre := window.takeWhile fun b => b != newline
  if pre.length < window.length then
    (pre ++ [newline], none,
      { rd with input := rd.input.drop (pre.length + 1), LimitInputN := rd.LimitInputN - (pre.length + 1) })
  else if rd.LimitInputN ≤ rd.input.length then
    (window, some .eof, { rd with input := rd.input.drop rd.LimitInputN, LimitInputN := 0 })
  else
    (rd.input, some rd.inputErr, { rd with input := [], LimitInputN := rd.LimitInputN - rd.input.length })

/-- Mapping the state of an outcome. -/
def Outcome.map {σ τ : Type} (g : σ → τ) : Outcome σ → Outcome τ
  | .done s => .done (g s)
  | .blocked s => .blocked (g s)
  | .fault s => .fault (g s)

/-- The condition `len(rn) > MaxMessageLength || len(rn) == MaxMessageLength &&
line[len(line)-1] != '\n'`; `none` when the index is out of range. -/
def tooLongCond (cfg : Config) (line : Bytes) : Option Bool :=
  if runeCount line > cfg.MaxMessageLength then some true
  else if runeCount line = cfg.MaxMessageLength then line.getLast?.map fun b => b != newline
  else some false

/-- The notice a visitor in the lobby gets for a chat line. -/
def lobbyNotice (now : Bytes) : Bytes :=
  CreateMessage now (str "Server")
    (str "you are current in lobby, please input /room room_name to enter a room")

/-- The last statement of the loop of `Visitor.read`: `if v.CurrentRoom != nil`. -/
def readChat (cfg : Config) (now : Bytes) (v : Nat) (line : Bytes) (s : Server) : Outcome Server :=
  match (s.visitorAt v).CurrentRoom with
  | none => .done s
  | some r =>
    if r = s.Lobby then
      sendOutput cfg v (lobbyNotice now) s
    else sendMessage cfg r (CreateMessage now (s.visitorAt v).Name line) s

/-- The statement `if strings.HasPrefix(line, "/")` of `Visitor.read` with
what follows it in the loop body: the cases `/room` and `/name` end in
`continue`, the case `/exit` and a line no case matches go on to the last
statement. -/
def readCommand (cfg : Config) (now : Bytes) (v : Nat) (line : Bytes) (s : Server) : Outcome Server :=
  if HasPrefix line (str "/") then
    if HasPrefix line (str "/exit") then
      (closeReadClosed v s).next (readChat cfg now v line)
    else if HasPrefix line (str "/room") then
      let arg := cfg.TrimSpace (TrimPrefix line (str "/room"))
      if arg.length = 0 then
        match (s.visitorAt v).CurrentRoom with
        | none => sendOutput cfg v (CreateMessage now (str "Server") (str "you are in lobby now")) s
        | some r =>
          sendOutput cfg v
            (CreateMessage now (str "Server") (str "your are in " ++ (s.roomAt r).Name ++ str " now")) s
      else beginChangingRoom cfg v (NormalizeName arg) s
    else if HasPrefix line (str "/name") then
      let arg := cfg.TrimSpace (TrimPrefix line (str "/name"))
      if arg.length = 0 then
        sendOutput cfg v
          (CreateMessage now (str "Server") (str "your name is " ++ (s.visitorAt v).Name)) s
      else if arg.length ≥ cfg.MinVisitorNameLength ∧ arg.length ≤ cfg.MaxVisitorNameLength then
        sendChangeNameRequest cfg v (s.setVisitor v fun x => { x with NextName := arg })
      else .done s
    else readChat cfg now v line s
  else readChat cfg now v line s

/-- The notice for a line that is too long. -/
def tooLongNotice (now : Bytes) : Bytes :=
  CreateMessage now (str "Server") (str "your message is too long!")

/-- The loop body of `Visitor.read` from `rn := []rune(line)` on. -/
def readLine (cfg : Config) (now : Bytes) (v : Nat) (line : Bytes) (rd : Reader) (s : Server) :
    Outcome (Reader × Server) :=
  match tooLongCond cfg line with
  | none => .fault (rd, s)
  | some true =>
    (if !rd.inReadingLongMessage then
      sendOutput cfg v (tooLongNotice now) s
    else .done s).andThen
      (fun s1 =>
        match line.getLast? with
        | none => .fault (rd, s1)
        | some b => .done ({ rd with inReadingLongMessage := b != newline }, s1))
      (fun s1 => (rd, s1))
  | some false =>
    if rd.inReadingLongMessage then .done ({ rd with inReadingLongMessage := false }, s)
    else (readCommand cfg now v line s).map fun s1 => (rd, s1)

/-- One turn of the loop of `Visitor.read` for the visitor `v`. -/
def readIter (cfg : Config) (now : Bytes) (v : Nat) (st : Reader × Server) :
    Outcome (Reader × Server) :=
  (if (st.2.visitorAt v).WriteClosed || (st.2.visitorAt v).Closed then closeReadClosed v st.2
    else .done st.2).andThen
    (fun s1 =>
      if !(s1.visitorAt v).RoomChanged then .blocked (st.1, s1)
      else
        match ReadString st.1 with
        | (line, err, rd1) =>
          (match err with
            | some e => if e ≠ .eof ∨ line = [] then closeReadClosed v s1 else .done s1
            | none => .done s1).andThen
            (fun s2 =>
              readLine cfg now v line { rd1 with LimitInputN := line.length + rd1.LimitInputN } s2)
            (fun s2 => (rd1, s2)))
    (fun s1 => (st.1, s1))

/-- Several turns of the loop of `Visitor.read`, one for each time stamp. -/
def readIters (cfg : Config) (v : Nat) : List Bytes → Reader × Server → Outcome (Reader × Server)
  | [], st => .done st
  | now :: nows, st => (readIter cfg now v st).andThen (readIters cfg v nows) id

/-- The local `maxNumBytesPerMessage` of `Visitor.read`. -/
def maxNumBytesPerMessage (cfg : Config) : Nat := (cfg.MaxMessageLength <<< 2) + 1

/-- The reader as `Visitor.read` starts it. -/
def Reader.start (cfg : Config) (input : Bytes) (inputErr : ReadErr) : Reader :=
  { input := input
    inputErr := inputErr
    LimitInputN := maxNumBytesPerMessage cfg
    inReadingLongMessage := false }

/-! ## internal/visitor.go: the writer and `Visitor.run` -/

/-- What `Visitor.write` keeps besides the visitor record: whether control is
in the inner loop, and the results the next calls of `Output.WriteString` and
`Output.Flush` report (`true` is an error; none when the list is used up). -/
structure Writer where
  inner : Bool
  ioErrs : List Bool

/-- The next result of a write or flush on `Output`. -/
def Writer.io (w : Writer) : Bool × Writer :=
  match w.ioErrs with
  | e :: rest => (e, { w with ioErrs := rest })
  | [] => (false, w)

/-- The cases of the outer `select` of `Visitor.write`. -/
inductive WriteCase where
  | readClosed
  | closed
  | message
deriving DecidableEq, Repr

/-- `v.closeConnection(); close(v.WriteClosed)`. -/
def failWrite (v : Nat) (s : Server) : Outcome Server :=
  closeWriteClosed v (closeConnection v s)

/-- One turn of `Visitor.write`: of the outer loop, where `pick` is the case
the `select` takes (it must be ready), or of the inner loop. -/
def writeIter (v : Nat) (pick : WriteCase) (st : Writer × Server) : Outcome (Writer × Server) :=
  if st.1.inner then
    match (st.2.visitorAt v).OutputMessages with
    | _ :: rest =>
      let s1 := st.2.setVisitor v fun x => { x with OutputMessages := rest }
      if st.1.io.1 then (failWrite v s1).map fun s2 => (st.1.io.2, s2)
      else .done (st.1.io.2, s1)
    | [] =>
      if st.1.io.1 then (failWrite v st.2).map fun s2 => (st.1.io.2, s2)
      else .done (st.1.io.2, st.2)
  else
    match pick with
    | .readClosed =>
      if (st.2.visitorAt v).ReadClosed then (failWrite v st.2).map fun s2 => (st.1, s2)
      else .blocked st
    | .closed =>
      if (st.2.visitorAt v).Closed then (failWrite v st.2).map fun s2 => (st.1, s2)
      else .blocked st
    | .message =>
      match (st.2.visitorAt v).OutputMessages with
      | _ :: rest =>
        let s1 := st.2.setVisitor v fun x => { x with OutputMessages := rest }
        let w1 : Writer := { st.1.io.2 with inner := true }
        if st.1.io.1 then (failWrite v s1).map fun s2 => (w1, s2)
        else .done (w1, s1)
      | [] => .blocked st

/-- Several turns of `Visitor.write`. -/
def writeIters (v : Nat) : List WriteCase → Writer × Server → Outcome (Writer × Server)
  | [], st => .done st
  | pick :: picks, st => (writeIter v pick st).andThen (writeIters v picks) id

/-- `Visitor.run` after it started the reader and the writer. -/
def Visitor.run (cfg : Config) (v : Nat) (s : Server) : Outcome Server :=
  if !(s.visitorAt v).WriteClosed then .blocked s
  else if !(s.visitorAt v).ReadClosed then .blocked s
  else if (s.visitorAt v).Closed then .fault s
  else beginChangingRoom cfg v cfg.VoidRoomID (s.setVisitor v fun x => { x with Closed := true })

/-! ## concrete states -/

/-- The time stamp used in the concrete runs. -/
def noon : Bytes := str "12:00:00"

/-- The server after `Server.run` set it up and accepted one connection, whose
visitor was named `Bob`. -/
def oneVisitor : Server :=
  (pendingConnectionCase sampleConfig noon (str "Bob") (Server.init sampleConfig)).state

/-- The state `oneVisitor` after Bob's reader took the line `/name` with the
argument `Al` in braces: `NextName` is set and the request is queued. -/
def bobAsksName : Server :=
  (sendChangeNameRequest sampleConfig 0
    (oneVisitor.setVisitor 0 fun x => { x with NextName := [123] ++ str "Al" ++ [125] })).state

/-! ## the actors as a transition system -/

/-- One whole turn of one actor: a case of the `select` of `Server.run` or of
`Room.run`, a turn of the loop of a visitor's reader or writer (with whatever
that role holds of its own at that time), or `Visitor.run` going on after its
two waits.  A turn is taken here without a step of another actor inside it;
the runs of events are therefore some of the schedules of the program, not all
of them.  `Step` below splits the reader's turn. -/
inductive Event where
  | connect (now name : Bytes)
  | changeName (now : Bytes)
  | changeRoom
  | leave (now : Bytes) (r : Nat)
  | enter (now : Bytes) (r : Nat)
  | messages (r : Nat)
  | read (now : Bytes) (v : Nat) (rd : Reader)
  | write (v : Nat) (pick : WriteCase) (w : Writer)
  | run (v : Nat)

/-- The outcome of a whole turn on the server state.  Readers, writers and
`Visitor.run` exist for the visitors `newVisitor` made. -/
def Event.apply (cfg : Config) : Event → Server → Outcome Server
  | .connect now name, s => pendingConnectionCase cfg now name s
  | .changeName now, s => changeNameCase cfg now s
  | .changeRoom, s => changeRoomCase cfg s
  | .leave now r, s => leaveCase cfg now r s
  | .enter now r, s => enterCase cfg now r s
  | .messages r, s => messagesCase cfg r s
  | .read now v rd, s =>
    if v < s.numVisitors then (readIter cfg now v (rd, s)).map Prod.snd else .blocked s
  | .write v pick w, s =>
    if v < s.numVisitors then (writeIter v pick (w, s)).map Prod.snd else .blocked s
  | .run v, s => if v < s.numVisitors then Visitor.run cfg v s else .blocked s

/-- A run of whole turns from a state, stopping at the first that does not run
to its end. -/
def runEvents (cfg : Config) : List Event → Server → Outcome Server
  | [], s => .done s
  | e :: es, s => (e.apply cfg s).next (runEvents cfg es)

/-- The members of a room, as visitors. -/
def members (s : Server) (r : Nat) : List Nat := (s.roomAt r).Visitors.map Element.Value

/-- The request queues of the room-change protocol: the Directory's
`ChangeRoomRequests` and each room's two queues. -/
inductive Loc where
  | crr
  | leave (r : Nat)
  | enter (r : Nat)
deriving DecidableEq, Repr

/-- The content of a request queue. -/
def Server.queue (s : Server) : Loc → List Nat
  | .crr => s.ChangeRoomRequests
  | .leave r => (s.roomAt r).VisitorLeaveRequests
  | .enter r => (s.roomAt r).VisitorEnterRequests

/-- The part of the server state that room membership and the room-change
protocol involve: the member lists, the request queues, every visitor's room
fields, gate, `ReadClosed` and `Closed`, the room map and the allocation
counters. -/
structure Core where
  lists : Nat → List Element
  queue : Loc → List Nat
  cur : Nat → Option Nat
  elem : Nat → Option Element
  next : Nat → Bytes
  gate : Nat → Bool
  rc : Nat → Bool
  closed : Nat → Bool
  rooms : Bytes → Option Nat
  nV : Nat
  nR : Nat
  nE : Nat

/-- The membership part of a server state. -/
def core (s : Server) : Core where
  lists := fun r => (s.roomAt r).Visitors
  queue := s.queue
  cur := fun v => (s.visitorAt v).CurrentRoom
  elem := fun v => (s.visitorAt v).RoomElement
  next := fun v => (s.visitorAt v).NextRoomID
  gate := fun v => (s.visitorAt v).RoomChanged
  rc := fun v => (s.visitorAt v).ReadClosed
  closed := fun v => (s.visitorAt v).Closed
  rooms := s.Rooms
  nV := s.numVisitors
  nR := s.numRooms
  nE := s.numElements

/-! The effect of the pieces of actor code on the membership part. -/

/-- A receive from a request queue. -/
def Core.pop (c : Core) (l : Loc) : Core :=
  { c with queue := Function.update c.queue l (c.queue l).tail }

/-- A send to a request queue. -/
def Core.push (c : Core) (l : Loc) (v : Nat) : Core :=
  { c with queue := Function.update c.queue l (c.queue l ++ [v]) }

/-- The assignments of `beginChangingRoom`. -/
def Core.arm (c : Core) (v : Nat) (id : Bytes) : Core :=
  { c with gate := Function.update c.gate v false, next := Function.update c.next v id }

/-- The effect of `endChangingRoom` when the gate was armed. -/
def Core.fire (c : Core) (void : Bytes) (v : Nat) : Core :=
  { c with gate := Function.update c.gate v true, next := Function.update c.next v void }

/-- The effect of `close(v.ReadClosed)`. -/
def Core.setRc (c : Core) (v : Nat) : Core :=
  { c with rc := Function.update c.rc v true }

/-- The effect of `close(v.Closed)`. -/
def Core.setClosed (c : Core) (v : Nat) : Core :=
  { c with closed := Function.update c.closed v true }

/-- The effect of `enterVisitor`. -/
def Core.enterV (c : Core) (r v : Nat) : Core :=
  { c with
    lists := Function.update c.lists r (c.lists r ++ [⟨c.nE, v⟩])
    cur := Function.update c.cur v (some r)
    elem := Function.update c.elem v (some ⟨c.nE, v⟩)
    nE := c.nE + 1 }

/-- The effect of `leaveVisitor`. -/
def Core.leaveV (c : Core) (r v : Nat) : Core :=
  match c.elem v, c.cur v with
  | some e, some cur =>
    if cur ≠ r then c
    else if v ≠ e.Value then
      { c with lists := Function.update c.lists r ((c.lists r).filter fun y => y.id != e.id) }
    else
      { c with
        lists := Function.update c.lists r ((c.lists r).filter fun y => y.id != e.id)
        cur := Function.update c.cur v none
        elem := Function.update c.elem v none }
  | _, _ => c

/-- The effect of `newRoom` for a room registered under `key`. -/
def Core.newRoom (c : Core) (key : Bytes) : Core :=
  { c with
    lists := Function.update c.lists c.nR []
    queue := Function.update (Function.update c.queue (.leave c.nR) []) (.enter c.nR) []
    rooms := Function.update c.rooms key (some c.nR)
    nR := c.nR + 1 }

/-- The effect of the record `newVisitor` makes. -/
def Core.newVisitor (c : Core) (void : Bytes) : Core :=
  { c with
    cur := Function.update c.cur c.nV none
    elem := Function.update c.elem c.nV none
    next := Function.update c.next c.nV void
    gate := Function.update c.gate c.nV false
    rc := Function.update c.rc c.nV false
    closed := Function.update c.closed c.nV false
    nV := c.nV + 1 }

/-- Every room holds at most `MaxRoomCapacity` members. -/
def WithinCapacity (cfg : Config) (s : Server) : Prop :=
  ∀ r, (s.roomAt r).Visitors.length ≤ cfg.MaxRoomCapacity

/-- The member lists of all rooms are the same in two states. -/
def SameLists (s t : Server) : Prop := ∀ r, (t.roomAt r).Visitors = (s.roomAt r).Visitors

/-- Three visitors connect one after the other; the first two have entered
the lobby, which is then at the capacity of `sampleConfig`, and the enter
request of the third is in the lobby's queue. -/
def lobbyFull : Server :=
  (runEvents sampleConfig
    [.connect noon (str "Ann"), .changeRoom, .enter noon 0,
     .connect noon (str "Bob"), .changeRoom, .enter noon 0,
     .connect noon (str "Cid"), .changeRoom]
    (Server.init sampleConfig)).state

/-- Bob has connected and entered the lobby, and his writer has taken the
first message of his mailbox. -/
def bobInLobby : Server :=
  (runEvents sampleConfig
    [.connect noon (str "Bob"), .changeRoom, .enter noon 0, .write 0 .message ⟨false, []⟩]
    (Server.init sampleConfig)).state

/-- Seventy bytes `a` without newline: more than the window of `sampleConfig`,
which is 65 bytes. -/
def longBody : Bytes := List.replicate 70 97

/-- A reader at the head of its loop whose connection delivers `longBody`, a
newline, and then the line `hi`. -/
def longLineReader : Reader :=
  Reader.start sampleConfig (longBody ++ newline :: str "hi\n") .eof

/-- Ann has connected, entered the lobby and sent `/room cave`; the Directory
and the two rooms have carried the change out, so that Ann is the one member of
the room `cave`, which is room 1.  Her writer took the two messages she had
before she asked. -/
def annInCave : Server :=
  (runEvents sampleConfig
    [.connect noon (str "Ann"), .changeRoom, .enter noon 0,
     .write 0 .message ⟨false, []⟩, .write 0 .message ⟨false, []⟩,
     .read noon 0 (Reader.start sampleConfig (str "/room cave\n") .eof),
     .changeRoom, .leave noon 0, .changeRoom, .enter noon 1]
    (Server.init sampleConfig)).state

/-- Whether the code faulted. -/
def Outcome.isFault {σ : Type} : Outcome σ → Bool
  | .fault _ => true
  | _ => false

/-- Bob has connected and entered the lobby; the welcome and the "entered"
notice are in his mailbox. -/
def bobEntered : Server :=
  (runEvents sampleConfig [.connect noon (str "Bob"), .changeRoom, .enter noon 0]
    (Server.init sampleConfig)).state

/-- A reader whose connection delivers the line `/exit` and then ends. -/
def exitReader : Reader := Reader.start sampleConfig (str "/exit\n") .eof

/-- A writer at the start of `Visitor.write` whose first write succeeds and
whose connection is broken from then on: the buffered writer reports the error
on every later write and flush. -/
def brokenWriter : Writer := { inner := false, ioErrs := [false, true, true] }

/-- Whether a visitor's mailbox has room for one more message. -/
def hasRoom (cfg : Config) (s : Server) (w : Nat) : Bool :=
  decide ((s.visitorAt w).OutputMessages.length < cfg.MaxVisitorBufferedMessages)

/-- The members of a room, in membership order, before the first one whose
mailbox is full. -/
def servedMembers (cfg : Config) (s : Server) (r : Nat) : List Nat :=
  (members s r).takeWhile (hasRoom cfg s)

/-- Ann and then Bob have connected, entered the lobby and moved to the room
`cave` (room 1) with `/room cave`; each one's writer took the two messages of
the lobby before the move, and each mailbox now holds the two notices of the
move, which is the capacity of `sampleConfig`. -/
def twoInCave : Server :=
  (runEvents sampleConfig
    [.connect noon (str "Bob"), .changeRoom, .enter noon 0,
     .write 1 .message ⟨false, []⟩, .write 1 .message ⟨false, []⟩,
     .read noon 1 (Reader.start sampleConfig (str "/room cave\n") .eof),
     .changeRoom, .leave noon 0, .changeRoom, .enter noon 1]
    annInCave).state

/-- From `twoInCave`: Bob's writer takes his two messages, then Bob says
`hi`; the line is in the broadcast queue of `cave`, Ann's mailbox is full. -/
def annFull : Server :=
  (runEvents sampleConfig
    [.write 1 .message ⟨false, []⟩, .write 1 .message ⟨false, []⟩,
     .read noon 1 (Reader.start sampleConfig (str "hi\n") .eof)]
    twoInCave).state

/-- From `twoInCave`: both writers take the two messages of their mailbox. -/
def caveDrained : Server :=
  (runEvents sampleConfig
    [.write 0 .message ⟨false, []⟩, .write 0 .message ⟨false, []⟩,
     .write 1 .message ⟨false, []⟩, .write 1 .message ⟨false, []⟩]
    twoInCave).state

/-- A reader whose connection delivers the line `hello`. -/
def helloReader : Reader := Reader.start sampleConfig (str "hello\n") .eof

/-- The room a target id resolves to in the Directory's dispatch: the room
registered under the lowercased id, or the room `newRoom` makes, which gets
the next unused pointer. -/
def targetRoom (cfg : Config) (s : Server) (id : Bytes) : Nat :=
  match s.Rooms (cfg.ToLower id) with
  | some q => q
  | none => s.numRooms

/-- The turns that carry out one room change of a member of room `r` to the
room `q`: the Directory's dispatch, `r`'s leave case, the dispatch again, and
`q`'s enter case. -/
def roomChange (now1 now2 : Bytes) (r q : Nat) : List Event :=
  [.changeRoom, .leave now1 r, .changeRoom, .enter now2 q]

/-- The first `k` turns of the room change of visitor `v`, a member of room
`r`, to the target id `id`, run from the state right after `v` called
`beginChangingRoom(id)` in the state `s`. -/
def changeRun (cfg : Config) (now1 now2 : Bytes) (v r : Nat) (id : Bytes) (s : Server)
    (k : Nat) : Outcome Server :=
  runEvents cfg ((roomChange now1 now2 r (targetRoom cfg s id)).take k)
    (beginChangingRoom cfg v id s).state

/-- Consistency of membership, on the membership part of a state: an element
of a room's list is the element its visitor points to and the room the
visitor's current room; a visitor with a current room has its element in that
room's list; elements are distinct and come from the counters; rooms not yet
made have no members. -/
structure Core.Members (c : Core) : Prop where
  mem_cur : ∀ r x, x ∈ c.lists r → c.cur x.Value = some r ∧ c.elem x.Value = some x
  cur_mem : ∀ v r, c.cur v = some r → ∃ x, c.elem v = some x ∧ x ∈ c.lists r ∧ x.Value = v
  cur_none : ∀ v, c.cur v = none → c.elem v = none
  nodup : ∀ r, ((c.lists r).map Element.id).Nodup
  ids_lt : ∀ r x, x ∈ c.lists r → x.id < c.nE
  vals_lt : ∀ r x, x ∈ c.lists r → x.Value < c.nV
  lists_alloc : ∀ r, c.nR ≤ r → c.lists r = []

/-- A visitor is in no request queue. -/
def Core.NoToken (c : Core) (v : Nat) : Prop := ∀ l, v ∉ c.queue l

/-- A visitor is in no room's enter queue. -/
def Core.NoEnter (c : Core) (v : Nat) : Prop := ∀ r, v ∉ c.queue (.enter r)

/-- The discipline of the room-change requests.  A visitor waits in at most
one enter queue, once, and is then in no room.  A visitor whose `Closed` is
open has at most one request under way, and none once its gate has fired.  A
visitor whose `Closed` is closed has its `ReadClosed` closed and the void id
as target.  Queues hold visitors that exist, queues of rooms not yet made are
empty, and the room map points to rooms that exist. -/
structure Core.Tokens (c : Core) (void : Bytes) : Prop where
  q_lt : ∀ l v, v ∈ c.queue l → v < c.nV
  q_alloc : ∀ r, c.nR ≤ r → c.queue (.leave r) = [] ∧ c.queue (.enter r) = []
  enter_nodup : ∀ r, (c.queue (.enter r)).Nodup
  enter_unique : ∀ v r r', v ∈ c.queue (.enter r) → v ∈ c.queue (.enter r') → r = r'
  enter_cur : ∀ v r, v ∈ c.queue (.enter r) → c.cur v = none
  open_unique : ∀ v, c.closed v = false → ∀ l l', v ∈ c.queue l → v ∈ c.queue l' → l = l'
  open_count : ∀ v, c.closed v = false → ∀ l, (c.queue l).count v ≤ 1
  gate_open : ∀ v, c.closed v = false → c.gate v = true → c.NoToken v
  closed_next : ∀ v, c.closed v = true → c.next v = void ∧ c.rc v = true
  rooms_lt : ∀ k q, c.rooms k = some q → q < c.nR

/-- The invariant of the runs of whole turns. -/
def Inv (cfg : Config) (s : Server) : Prop :=
  (core s).Members ∧ (core s).Tokens cfg.VoidRoomID

/-- Membership consistency of a server state: no visitor is a member of two
rooms, nor twice of one; a visitor's `CurrentRoom` is `r` exactly when its
`RoomElement` is non-nil and is its element in `r.Visitors`; `CurrentRoom` and
`RoomElement` are both nil or both non-nil. -/
def MembershipConsistent (s : Server) : Prop :=
  (∀ v r1 r2, v ∈ members s r1 → v ∈ members s r2 → r1 = r2)
  ∧ (∀ r, (members s r).Nodup)
  ∧ (∀ v r, (s.visitorAt v).CurrentRoom = some r ↔
      ∃ x, (s.visitorAt v).RoomElement = some x ∧ x ∈ (s.roomAt r).Visitors ∧ x.Value = v)
  ∧ (∀ v, (s.visitorAt v).CurrentRoom = none ↔ (s.visitorAt v).RoomElement = none)

/-! ## a reader's turn in two steps -/

/-- The configuration `sampleConfig` with mailboxes of six messages. -/
def roomyConfig : Config := { sampleConfig with MaxVisitorBufferedMessages := 6 }

/-- The server together with what the readers hold between the two parts of
a turn: for each visitor, the line its reader has taken from the connection
and not yet looked at, with the reader's own state at that point; nothing when
the reader is at the head of its loop. -/
structure System where
  server : Server
  taken : Nat → Option (Bytes × Reader)

/-- The system as `Server.run` sets it up: no visitor, no reader. -/
def System.init (cfg : Config) : System := { server := Server.init cfg, taken := fun _ => none }

/-- The first part of a turn of the loop of `Visitor.read`, from the `select`
to the statement `v.LimitInput.N = int64(len(line)) + v.LimitInput.N`: the
`select` on `WriteClosed` and `Closed`, the wait for the gate, `ReadString` and
the `close` for its error.  The line is then held by the reader. -/
def takeLine (v : Nat) (rd : Reader) (σ : System) : Outcome System :=
  ((if (σ.server.visitorAt v).WriteClosed || (σ.server.visitorAt v).Closed then
      closeReadClosed v σ.server
    else .done σ.server).next
    fun s1 =>
      if !(s1.visitorAt v).RoomChanged then .blocked s1
      else
        match (ReadString rd).2.1 with
        | some e => if e ≠ .eof ∨ (ReadString rd).1 = [] then closeReadClosed v s1 else .done s1
        | none => .done s1).andThen
    (fun s2 =>
      .done
        { server := s2
          taken := Function.update σ.taken v
            (some ((ReadString rd).1,
              { (ReadString rd).2.2 with
                LimitInputN := (ReadString rd).1.length + (ReadString rd).2.2.LimitInputN })) })
    (fun s2 => { σ with server := s2 })

/-- The second part of a turn of the loop of `Visitor.read`, from
`rn := []rune(line)` to the end of the loop body, on the line the reader
holds. -/
def goOn (cfg : Config) (now : Bytes) (v : Nat) (σ : System) : Outcome System :=
  match σ.taken v with
  | none => .blocked σ
  | some (line, rd) =>
    (readLine cfg now v line rd σ.server).andThen
      (fun st => .done { server := st.2, taken := Function.update σ.taken v none })
      (fun st => { σ with server := st.2 })

/-- A step of the system: a whole turn of an actor, or one of the two parts
of a turn of a reader, between which other actors may take steps. -/
inductive Step where
  | turn (e : Event)
  | take (v : Nat) (rd : Reader)
  | go (now : Bytes) (v : Nat)

/-- The reader whose whole turn an event is, if it is one. -/
def Event.reader : Event → Option Nat
  | .read _ v _ => some v
  | _ => none

/-- The outcome of a step.  A reader that holds a line takes no turn from the
head of its loop. -/
def Step.apply (cfg : Config) : Step → System → Outcome System
  | .turn e, σ =>
    match e.reader with
    | some v =>
      if (σ.taken v).isSome then .blocked σ
      else (e.apply cfg σ.server).map fun s => { σ with server := s }
    | none => (e.apply cfg σ.server).map fun s => { σ with server := s }
  | .take v rd, σ =>
    if v < σ.server.numVisitors ∧ (σ.taken v).isNone then takeLine v rd σ else .blocked σ
  | .go now v, σ => goOn cfg now v σ

/-- A run of steps from a state, stopping at the first that does not run to
its end. -/
def runSteps (cfg : Config) : List Step → System → Outcome System
  | [], σ => .done σ
  | st :: sts, σ => (st.apply cfg σ).next (runSteps cfg sts)

/-- Whether the code is stuck on a channel operation. -/
def Outcome.isBlocked {σ : Type} : Outcome σ → Bool
  | .blocked _ => true
  | _ => false

/-- Ann connects and enters the lobby.  Her reader takes the line `/exit`,
which closes `ReadClosed`, and goes on; in its next turn it passes the
`select` and the gate and takes the line `/room den`.  Before it looks at the
line, her writer, in its first `select`, takes the case of `ReadClosed` and
closes `WriteClosed`, and `Visitor.run` goes on after its two waits: it closes
`Closed` and calls `beginChangingRoom` with the void id.  Then the reader goes
on with its line and calls `beginChangingRoom` with `den`.  The Directory and
the rooms handle the two requests: two dispatches to the lobby's leave case,
two leave cases, two dispatches to the enter case of `den` (made by the
first), and the first enter case of `den`. -/
def raceSteps : List Step :=
  [.turn (.connect noon (str "Ann")), .turn .changeRoom, .turn (.enter noon 0),
   .turn (.read noon 0 (Reader.start roomyConfig (str "/exit\n/room den\n") .eof)),
   .take 0 (Reader.start roomyConfig (str "/room den\n") .eof),
   .turn (.write 0 .readClosed ⟨false, []⟩),
   .turn (.run 0),
   .go noon 0,
   .turn .changeRoom, .turn .changeRoom, .turn (.leave noon 0), .turn (.leave noon 0),
   .turn .changeRoom, .turn .changeRoom, .turn (.enter noon 1)]

/-- The system after `raceSteps`. -/
def raceState : System := (runSteps roomyConfig raceSteps (System.init roomyConfig)).state

/-- Ann and Cid connect and enter the lobby.  Cid's reader takes the line
`/exit`, which closes `ReadClosed`, and then the line `/room lobby`.  The
Directory passes Cid's request to the lobby's leave case; Bob connects and is
passed to the lobby's enter case; Cid leaves, Bob enters, and the lobby holds
Ann and Bob, its capacity.  The Directory passes Cid's request to the lobby's
enter case.  Cid's writer, in its first `select`, takes the case of
`ReadClosed` and closes `WriteClosed`; `Visitor.run` goes on, closes `Closed`
and calls `beginChangingRoom` with the void id; the Directory takes that
request in its destroy branch and fires Cid's gate. -/
def cidEvents : List Event :=
  [.connect noon (str "Ann"), .changeRoom, .enter noon 0,
   .connect noon (str "Cid"), .changeRoom, .enter noon 0,
   .read noon 1 (Reader.start roomyConfig (str "/exit\n/room lobby\n") .eof),
   .read noon 1 (Reader.start roomyConfig (str "/room lobby\n") .eof),
   .changeRoom,
   .connect noon (str "Bob"), .changeRoom,
   .leave noon 0, .enter noon 0,
   .changeRoom,
   .write 1 .readClosed ⟨false, []⟩,
   .run 1,
   .changeRoom]

/-- The server after `cidEvents`: the lobby is full, Cid is in no room, his
enter request is at the head of the lobby's queue, and his gate has fired. -/
def cidAtFullLobby : Server := (runEvents roomyConfig cidEvents (Server.init roomyConfig)).state

/-- Bob has connected and entered the lobby, with mailboxes of six
messages. -/
def bobAtEase : Server :=
  (runEvents roomyConfig [.connect noon (str "Bob"), .changeRoom, .enter noon 0]
    (Server.init roomyConfig)).state

/-- A reader whose connection delivers the line `/exit`, then `longBody` and a
newline, then the line `hi`. -/
def exitLongReader : Reader :=
  Reader.start roomyConfig (str "/exit\n" ++ longBody ++ newline :: str "hi\n") .eof

/-- Bob's reader after two turns from `bobAtEase`: it took the line `/exit`
and the first window of the long line. -/
def exitLongTurns : Outcome (Reader × Server) :=
  readIters roomyConfig 0 [noon, noon] (exitLongReader, bobAtEase)

/-- Bob's writer, in its first `select` after those two turns, takes the case
of `ReadClosed`. -/
def exitLongWrite : Outcome (Writer × Server) :=
  writeIter 0 .readClosed (⟨false, []⟩, exitLongTurns.state.2)

/-- The bytes of the name `é` in UTF-8: one rune, two bytes. -/
def eAcute : Bytes := [195, 169]

/-- The state `bobInLobby` after Bob's reader took the line `/name é`: the
length check of the reader, which counts bytes, lets the name pass, `NextName`
is set and the request is queued. -/
def bobAsksAccent : Server :=
  (readIter sampleConfig noon 0
    (Reader.start sampleConfig (str "/name " ++ eAcute ++ [newline]) .eof, bobInLobby)).state.2

/-! # Theorems -/

/-! ## The transport adapter's `Write` -/

theorem slice_snoc (b : Bytes) (lo hi : Nat) (h1 : lo ≤ hi) (h2 : hi < b.length) :
    slice b lo (hi + 1) = slice b lo hi ++ [b.getD hi 0] := by
  unfold slice
  have h3 : hi - lo < (b.drop lo).length := by simp; omega
  have h4 : hi + 1 - lo = (hi - lo) + 1 := by omega
  rw [h4, List.take_succ]
  congr 1
  rw [List.getElem?_drop]
  have h5 : lo + (hi - lo) = hi := by omega
  rw [h5, List.getD_eq_getElem?_getD]
  cases h : b[hi]? with
  | none => simp at h; omega
  | some x => simp

theorem slice_self (b : Bytes) (lo : Nat) : slice b lo lo = [] := by
  simp [slice]

theorem slice_length (b : Bytes) (lo hi : Nat) (h2 : hi ≤ b.length) :
    (slice b lo hi).length = hi - lo := by
  simp [slice]; omega

theorem WriteMessage_ok (c : WsConn) (p : Bytes) (h : ∀ e ∈ c.writeErrs, e = false) :
    (c.WriteMessage p).1 = false ∧ (c.WriteMessage p).2.written = c.written ++ [p]
      ∧ ∀ e ∈ (c.WriteMessage p).2.writeErrs, e = false := by
  unfold WsConn.WriteMessage
  rcases hc : c.writeErrs with _ | ⟨e, rest⟩
  · simp
  · have he : e = false := h e (by simp [hc])
    subst he
    refine ⟨rfl, rfl, ?_⟩
    intro e he
    exact h e (by simp [hc, he])

theorem writeLoop_scan (b : Bytes) :
    ∀ (fuel from_ to_ : Nat) (c : WsConn), from_ ≤ to_ → to_ ≤ b.length → b.length - to_ ≤ fuel →
      (∀ e ∈ c.writeErrs, e = false) →
      b.drop (writeLoop b b.length fuel from_ to_ c).1 = (scanLines (slice b from_ to_) (b.drop to_)).2
      ∧ (writeLoop b b.length fuel from_ to_ c).2.written
          = c.written ++ (scanLines (slice b from_ to_) (b.drop to_)).1 := by
  intro fuel
  induction fuel with
  | zero =>
    intro from_ to_ c h1 h2 h3 _
    have h4 : to_ = b.length := by omega
    subst h4
    simp [writeLoop, scanLines, slice]
  | succ fuel ih =>
    intro from_ to_ c h1 h2 h3 hc
    unfold writeLoop
    by_cases hlt : to_ < b.length
    · have hd : b.drop to_ = b.getD to_ 0 :: b.drop (to_ + 1) := by
        rw [List.drop_eq_getElem_cons hlt]
        simp [List.getD_eq_getElem?_getD, hlt]
      rw [if_pos hlt, hd]
      by_cases hnl : b.getD to_ 0 = newline
      · rw [if_pos hnl]
        by_cases hpos : to_ - from_ > 0
        · rw [if_pos hpos]
          obtain ⟨w1, w2, w3⟩ := WriteMessage_ok c (slice b from_ (to_ + 1)) hc
          have hne : slice b from_ to_ ≠ [] := by
            intro h0
            have := slice_length b from_ to_ h2
            rw [h0] at this
            simp at this
            omega
          rcases hw : c.WriteMessage (slice b from_ (to_ + 1)) with ⟨err, c1⟩
          rw [hw] at w1 w2 w3
          simp only at w1 w2 w3
          subst w1
          simp only
          obtain ⟨i1, i2⟩ := ih (to_ + 1) (to_ + 1) c1 (le_refl _) hlt (by omega) w3
          rw [slice_self] at i1 i2
          rw [scanLines, if_pos hnl, if_neg hne]
          refine ⟨i1, ?_⟩
          rw [i2, w2, slice_snoc b from_ to_ h1 hlt, hnl]
          simp
        · rw [if_neg hpos]
          have hft : from_ = to_ := by omega
          subst hft
          obtain ⟨i1, i2⟩ := ih (from_ + 1) (from_ + 1) c (le_refl _) hlt (by omega) hc
          rw [slice_self] at i1 i2 ⊢
          rw [scanLines, if_pos hnl, if_pos rfl]
          exact ⟨i1, i2⟩
      · rw [if_neg hnl]
        obtain ⟨i1, i2⟩ := ih from_ (to_ + 1) c (by omega) hlt (by omega) hc
        rw [slice_snoc b from_ to_ h1 hlt] at i1 i2
        rw [scanLines, if_neg hnl]
        exact ⟨i1, i2⟩
    · have h4 : to_ = b.length := by omega
      subst h4
      simp [scanLines, slice]

theorem scanLines_join (cur xs : Bytes) :
    (scanLines cur xs).1.flatten ++ (scanLines cur xs).2
      = cur ++ dropEmptyLines (decide (cur = [])) xs := by
  induction xs generalizing cur with
  | nil => simp [scanLines, dropEmptyLines]
  | cons x xs ih =>
    unfold scanLines dropEmptyLines
    by_cases hnl : x = newline
    · by_cases hc : cur = []
      · subst hc
        simpa [hnl] using ih []
      · have := ih []
        simp only [decide_True] at this
        simp [hnl, hc, List.append_assoc]
        simpa using this
    · have := ih (cur ++ [x])
      simp [hnl]
      simpa using this

theorem scanLines_frames (cur xs : Bytes) (hcur : newline ∉ cur) :
    ∀ f ∈ (scanLines cur xs).1, ∃ body, f = body ++ [newline] ∧ body ≠ [] ∧ newline ∉ body := by
  induction xs generalizing cur with
  | nil => simp [scanLines]
  | cons x xs ih =>
    unfold scanLines
    by_cases hnl : x = newline
    · by_cases hc : cur = []
      · simpa [hnl, hc] using ih [] (by simp)
      · simp only [hnl, hc, if_true, if_false]
        intro f hf
        rcases List.mem_cons.mp hf with h | h
        · exact ⟨cur, h, hc, hcur⟩
        · exact ih [] (by simp) f h
    · simp only [hnl, if_false]
      exact ih (cur ++ [x]) (by simp [hcur]; exact fun h => hnl h.symm)

theorem scanLines_rest (cur xs : Bytes) (hcur : newline ∉ cur) :
    newline ∉ (scanLines cur xs).2 := by
  induction xs generalizing cur with
  | nil => simpa [scanLines] using hcur
  | cons x xs ih =>
    unfold scanLines
    by_cases hnl : x = newline
    · by_cases hc : cur = []
      · simpa [hnl, hc] using ih [] (by simp)
      · simp only [hnl, hc, if_true, if_false]
        exact ih [] (by simp)
    · simp only [hnl, if_false]
      exact ih (cur ++ [x]) (by simp [hcur]; exact fun h => hnl h.symm)

theorem Write_scan (cc : ChatConn) (newb : Bytes) (h : ∀ e ∈ cc.Conn.writeErrs, e = false) :
    (cc.Write newb).2.OutputBuffer = (scanLines [] (cc.OutputBuffer ++ newb)).2
    ∧ framesSent cc (cc.Write newb).2 = (scanLines [] (cc.OutputBuffer ++ newb)).1 := by
  have hm : (cc.MergeOutputBuffer newb).1 = cc.OutputBuffer ++ newb
      ∧ (cc.MergeOutputBuffer newb).2.OutputBuffer = []
      ∧ (cc.MergeOutputBuffer newb).2.Conn = cc.Conn := by
    unfold ChatConn.MergeOutputBuffer
    by_cases h0 : cc.OutputBuffer.length = 0
    · have : cc.OutputBuffer = [] := List.length_eq_zero.mp h0
      simp [this]
    · simp [h0]
  obtain ⟨m1, m2, m3⟩ := hm
  have hl := writeLoop_scan (cc.OutputBuffer ++ newb) (cc.OutputBuffer ++ newb).length 0 0 cc.Conn
    (le_refl _) (Nat.zero_le _) (by omega) h
  rw [slice_self] at hl
  simp only [List.drop_zero] at hl
  obtain ⟨l1, l2⟩ := hl
  unfold ChatConn.Write framesSent
  rcases hmm : cc.MergeOutputBuffer newb with ⟨b, cc1⟩
  rw [hmm] at m1 m2 m3
  simp only at m1 m2 m3
  subst m1
  simp only
  rw [m3]
  rcases hw : writeLoop (cc.OutputBuffer ++ newb) (cc.OutputBuffer ++ newb).length
    (cc.OutputBuffer ++ newb).length 0 0 cc.Conn with ⟨from_, c1⟩
  rw [hw] at l1 l2
  simp only at l1 l2
  simp only
  constructor
  · by_cases hf : from_ < (cc.OutputBuffer ++ newb).length
    · rw [if_pos hf]; simp [m2, l1]
    · rw [if_neg hf]
      rw [← l1, m2]
      rw [List.drop_of_length_le (by omega)]
  · by_cases hf : from_ < (cc.OutputBuffer ++ newb).length
    · rw [if_pos hf]; simp [l2]
    · rw [if_neg hf]; simp [l2]

/-- C8 (as stated, refuted): with an empty output buffer and a connection on
which every send succeeds, `Write` of the two bytes `'\n' 'a'` sends no frame
and retains only `'a'`: the frames followed by the retained bytes are not
`old ++ newb`, the newline byte of the empty line is dropped. -/
theorem C8_write_drops_empty_line :
    (∀ e ∈ (ChatConn.mk ⟨[], []⟩ [] []).Conn.writeErrs, e = false)
    ∧ framesSent ⟨⟨[], []⟩, [], []⟩ (ChatConn.Write ⟨⟨[], []⟩, [], []⟩ [newline, 97]).2 = []
    ∧ (ChatConn.Write ⟨⟨[], []⟩, [], []⟩ [newline, 97]).2.OutputBuffer = [97]
    ∧ (framesSent ⟨⟨[], []⟩, [], []⟩ (ChatConn.Write ⟨⟨[], []⟩, [], []⟩ [newline, 97]).2).flatten
        ++ (ChatConn.Write ⟨⟨[], []⟩, [], []⟩ [newline, 97]).2.OutputBuffer
      ≠ (ChatConn.mk ⟨[], []⟩ [] []).OutputBuffer ++ [newline, 97] := by
  decide

/-- C8 (amended): when every frame send succeeds, the frames sent by
`Write(newb)`, in order, followed by the bytes retained in `OutputBuffer`
afterwards, are `old ++ newb` with its empty lines deleted (a newline that
begins a line is neither sent nor retained); every sent frame is a non-empty
run of bytes without newline followed by one newline, the retained bytes
contain no newline, and `Write` reports `len(newb)`. -/
theorem C8_write_keeps_nonempty_lines (cc : ChatConn) (newb : Bytes)
    (h : ∀ e ∈ cc.Conn.writeErrs, e = false) :
    (framesSent cc (cc.Write newb).2).flatten ++ (cc.Write newb).2.OutputBuffer
        = dropEmptyLines true (cc.OutputBuffer ++ newb)
    ∧ (∀ f ∈ framesSent cc (cc.Write newb).2,
        ∃ body, f = body ++ [newline] ∧ body ≠ [] ∧ newline ∉ body)
    ∧ newline ∉ (cc.Write newb).2.OutputBuffer
    ∧ (cc.Write newb).1 = newb.length := by
  obtain ⟨h1, h2⟩ := Write_scan cc newb h
  rw [h1, h2]
  refine ⟨?_, scanLines_frames [] _ (by simp), scanLines_rest [] _ (by simp), rfl⟩
  simpa using scanLines_join [] (cc.OutputBuffer ++ newb)

/-- C8 witness: a retained `a`, then `Write` of `b '\n' '\n' c`. -/
theorem C8_write_keeps_nonempty_lines_witness :
    (framesSent ⟨⟨[], []⟩, [], [97]⟩ (ChatConn.Write ⟨⟨[], []⟩, [], [97]⟩ [98, 10, 10, 99]).2).flatten
        ++ (ChatConn.Write ⟨⟨[], []⟩, [], [97]⟩ [98, 10, 10, 99]).2.OutputBuffer
        = dropEmptyLines true ((ChatConn.mk ⟨[], []⟩ [] [97]).OutputBuffer ++ [98, 10, 10, 99])
    ∧ (∀ f ∈ framesSent ⟨⟨[], []⟩, [], [97]⟩ (ChatConn.Write ⟨⟨[], []⟩, [], [97]⟩ [98, 10, 10, 99]).2,
        ∃ body, f = body ++ [newline] ∧ body ≠ [] ∧ newline ∉ body)
    ∧ newline ∉ (ChatConn.Write ⟨⟨[], []⟩, [], [97]⟩ [98, 10, 10, 99]).2.OutputBuffer
    ∧ (ChatConn.Write ⟨⟨[], []⟩, [], [97]⟩ [98, 10, 10, 99]).1 = [98, 10, 10, 99].length :=
  C8_write_keeps_nonempty_lines ⟨⟨[], []⟩, [], [97]⟩ [98, 10, 10, 99] (by decide)

/-! ## Basic facts on the heap and the channel operations -/

@[simp] theorem setVisitor_visitorAt_same (s : Server) (v : Nat) (f : Visitor → Visitor) :
    (s.setVisitor v f).visitorAt v = f (s.visitorAt v) := by
  simp [Server.setVisitor]

theorem setVisitor_visitorAt_other (s : Server) (v u : Nat) (f : Visitor → Visitor) (h : u ≠ v) :
    (s.setVisitor v f).visitorAt u = s.visitorAt u := by
  simp [Server.setVisitor, Function.update_noteq h]

theorem setVisitor_visitorAt (s : Server) (v u : Nat) (f : Visitor → Visitor) :
    (s.setVisitor v f).visitorAt u = if u = v then f (s.visitorAt v) else s.visitorAt u := by
  by_cases h : u = v
  · subst h; simp
  · simp [h, setVisitor_visitorAt_other]

@[simp] theorem setVisitor_Visitors (s : Server) (v : Nat) (f : Visitor → Visitor) :
    (s.setVisitor v f).Visitors = s.Visitors := rfl

@[simp] theorem setVisitor_Rooms (s : Server) (v : Nat) (f : Visitor → Visitor) :
    (s.setVisitor v f).Rooms = s.Rooms := rfl

@[simp] theorem setVisitor_Lobby (s : Server) (v : Nat) (f : Visitor → Visitor) :
    (s.setVisitor v f).Lobby = s.Lobby := rfl

@[simp] theorem setVisitor_roomAt (s : Server) (v : Nat) (f : Visitor → Visitor) :
    (s.setVisitor v f).roomAt = s.roomAt := rfl

@[simp] theorem setVisitor_ChangeRoomRequests (s : Server) (v : Nat) (f : Visitor → Visitor) :
    (s.setVisitor v f).ChangeRoomRequests = s.ChangeRoomRequests := rfl

@[simp] theorem setVisitor_ChangeNameRequests (s : Server) (v : Nat) (f : Visitor → Visitor) :
    (s.setVisitor v f).ChangeNameRequests = s.ChangeNameRequests := rfl

@[simp] theorem setVisitor_numVisitors (s : Server) (v : Nat) (f : Visitor → Visitor) :
    (s.setVisitor v f).numVisitors = s.numVisitors := rfl

@[simp] theorem setVisitor_numRooms (s : Server) (v : Nat) (f : Visitor → Visitor) :
    (s.setVisitor v f).numRooms = s.numRooms := rfl

@[simp] theorem setVisitor_numElements (s : Server) (v : Nat) (f : Visitor → Visitor) :
    (s.setVisitor v f).numElements = s.numElements := rfl

@[simp] theorem setRoom_roomAt_same (s : Server) (r : Nat) (f : Room → Room) :
    (s.setRoom r f).roomAt r = f (s.roomAt r) := by
  simp [Server.setRoom]

theorem setRoom_roomAt_other (s : Server) (r q : Nat) (f : Room → Room) (h : q ≠ r) :
    (s.setRoom r f).roomAt q = s.roomAt q := by
  simp [Server.setRoom, Function.update_noteq h]

theorem setRoom_roomAt (s : Server) (r q : Nat) (f : Room → Room) :
    (s.setRoom r f).roomAt q = if q = r then f (s.roomAt r) else s.roomAt q := by
  by_cases h : q = r
  · subst h; simp
  · simp [h, setRoom_roomAt_other]

@[simp] theorem setRoom_Visitors (s : Server) (r : Nat) (f : Room → Room) :
    (s.setRoom r f).Visitors = s.Visitors := rfl

@[simp] theorem setRoom_Rooms (s : Server) (r : Nat) (f : Room → Room) :
    (s.setRoom r f).Rooms = s.Rooms := rfl

@[simp] theorem setRoom_Lobby (s : Server) (r : Nat) (f : Room → Room) :
    (s.setRoom r f).Lobby = s.Lobby := rfl

@[simp] theorem setRoom_visitorAt (s : Server) (r : Nat) (f : Room → Room) :
    (s.setRoom r f).visitorAt = s.visitorAt := rfl

@[simp] theorem setRoom_ChangeRoomRequests (s : Server) (r : Nat) (f : Room → Room) :
    (s.setRoom r f).ChangeRoomRequests = s.ChangeRoomRequests := rfl

@[simp] theorem setRoom_ChangeNameRequests (s : Server) (r : Nat) (f : Room → Room) :
    (s.setRoom r f).ChangeNameRequests = s.ChangeNameRequests := rfl

@[simp] theorem setRoom_numVisitors (s : Server) (r : Nat) (f : Room → Room) :
    (s.setRoom r f).numVisitors = s.numVisitors := rfl

@[simp] theorem setRoom_numRooms (s : Server) (r : Nat) (f : Room → Room) :
    (s.setRoom r f).numRooms = s.numRooms := rfl

@[simp] theorem setRoom_numElements (s : Server) (r : Nat) (f : Room → Room) :
    (s.setRoom r f).numElements = s.numElements := rfl

@[simp] theorem Outcome.state_done {σ : Type} (s : σ) : (Outcome.done s).state = s := rfl
@[simp] theorem Outcome.state_blocked {σ : Type} (s : σ) : (Outcome.blocked s).state = s := rfl
@[simp] theorem Outcome.state_fault {σ : Type} (s : σ) : (Outcome.fault s).state = s := rfl
@[simp] theorem Outcome.isDone_done {σ : Type} (s : σ) : (Outcome.done s).isDone = true := rfl
@[simp] theorem Outcome.isDone_blocked {σ : Type} (s : σ) : (Outcome.blocked s).isDone = false := rfl
@[simp] theorem Outcome.isDone_fault {σ : Type} (s : σ) : (Outcome.fault s).isDone = false := rfl
@[simp] theorem Outcome.next_done {σ : Type} (s : σ) (f : σ → Outcome σ) :
    (Outcome.done s).next f = f s := rfl
@[simp] theorem Outcome.next_blocked {σ : Type} (s : σ) (f : σ → Outcome σ) :
    (Outcome.blocked s).next f = .blocked s := rfl
@[simp] theorem Outcome.next_fault {σ : Type} (s : σ) (f : σ → Outcome σ) :
    (Outcome.fault s).next f = .fault s := rfl
@[simp] theorem Outcome.andThen_done {σ τ : Type} (s : σ) (f : σ → Outcome τ) (g : σ → τ) :
    (Outcome.done s).andThen f g = f s := rfl
@[simp] theorem Outcome.andThen_blocked {σ τ : Type} (s : σ) (f : σ → Outcome τ) (g : σ → τ) :
    (Outcome.blocked s).andThen f g = .blocked (g s) := rfl
@[simp] theorem Outcome.andThen_fault {σ τ : Type} (s : σ) (f : σ → Outcome τ) (g : σ → τ) :
    (Outcome.fault s).andThen f g = .fault (g s) := rfl
@[simp] theorem Outcome.map_done {σ τ : Type} (s : σ) (g : σ → τ) :
    (Outcome.done s).map g = .done (g s) := rfl
@[simp] theorem Outcome.map_blocked {σ τ : Type} (s : σ) (g : σ → τ) :
    (Outcome.blocked s).map g = .blocked (g s) := rfl
@[simp] theorem Outcome.map_fault {σ τ : Type} (s : σ) (g : σ → τ) :
    (Outcome.fault s).map g = .fault (g s) := rfl

theorem sendOutput_room (cfg : Config) (v : Nat) (m : Bytes) (s : Server)
    (h : (s.visitorAt v).OutputMessages.length < cfg.MaxVisitorBufferedMessages) :
    sendOutput cfg v m s
      = .done (s.setVisitor v fun x => { x with OutputMessages := x.OutputMessages ++ [m] }) := by
  simp [sendOutput, h]

theorem sendOutput_full (cfg : Config) (v : Nat) (m : Bytes) (s : Server)
    (h : ¬ (s.visitorAt v).OutputMessages.length < cfg.MaxVisitorBufferedMessages) :
    sendOutput cfg v m s = .blocked s := by
  simp [sendOutput, h]

/-! ## Name change -/

theorem changeName_taken (cfg : Config) (now : Bytes) (v : Nat) (s : Server)
    (h : (s.Visitors (cfg.ToLower (candidateName cfg (s.visitorAt v).NextName))).isSome = true) :
    changeName cfg now v s = .done s := by
  unfold changeName
  simp only [h]
  split_ifs <;> rfl

theorem changeName_free (cfg : Config) (now : Bytes) (v : Nat) (s : Server)
    (hmin : cfg.MinVisitorNameLength ≤ runeCount (s.visitorAt v).NextName)
    (hlo : cfg.MinVisitorNameLength ≤ (candidateName cfg (s.visitorAt v).NextName).length)
    (hhi : (candidateName cfg (s.visitorAt v).NextName).length ≤ cfg.MaxVisitorNameLength)
    (hfree : s.Visitors (cfg.ToLower (candidateName cfg (s.visitorAt v).NextName)) = none) :
    changeName cfg now v s
      = sendOutput cfg v
          (CreateMessage now (str "Server")
            (str "you changed your name to " ++ candidateName cfg (s.visitorAt v).NextName))
          { (({ s with Visitors := mapDelete s.Visitors (cfg.ToLower (s.visitorAt v).Name) }
                : Server).setVisitor v
                  fun x => { x with Name := candidateName cfg (s.visitorAt v).NextName }) with
            Visitors := mapSet (mapDelete s.Visitors (cfg.ToLower (s.visitorAt v).Name))
              (cfg.ToLower (candidateName cfg (s.visitorAt v).NextName)) v } := by
  have h1 : ¬ runeCount (s.visitorAt v).NextName < cfg.MinVisitorNameLength := by omega
  have h2 : ¬ ((candidateName cfg (s.visitorAt v).NextName).length < cfg.MinVisitorNameLength
      ∨ (candidateName cfg (s.visitorAt v).NextName).length > cfg.MaxVisitorNameLength) := by omega
  unfold changeName
  simp only [if_neg h1, if_neg h2, hfree]
  rfl

/-- C7 (amended): name change is idempotent under duplicate submission for a
name that passes every check of `changeName`, the count of runes included.
For a visitor
`v` registered under its lowercased name whose requested `NextName` passes the
validation of `changeName` (at least `MinVisitorNameLength` runes; cut to
`MaxVisitorNameLength` runes and stripped of braces its length is within the
bounds; its lowercased form is the key of no visitor), running `changeName`
twice in succession changes the name once: the second run changes nothing and
sends nothing, exactly one "you changed your name" notice is sent (it is in the
mailbox when the mailbox has room, and the send is pending otherwise), the
registry maps the lowercased new name to `v`, no longer has `v`'s old key, and
every other entry and every other visitor is unchanged. -/
theorem C7_changeName_idempotent (cfg : Config) (now1 now2 : Bytes) (v : Nat) (s : Server)
    (hreg : s.Visitors (cfg.ToLower (s.visitorAt v).Name) = some v)
    (hmin : cfg.MinVisitorNameLength ≤ runeCount (s.visitorAt v).NextName)
    (hlo : cfg.MinVisitorNameLength ≤ (candidateName cfg (s.visitorAt v).NextName).length)
    (hhi : (candidateName cfg (s.visitorAt v).NextName).length ≤ cfg.MaxVisitorNameLength)
    (hfree : s.Visitors (cfg.ToLower (candidateName cfg (s.visitorAt v).NextName)) = none) :
    changeName cfg now2 v (changeName cfg now1 v s).state = .done (changeName cfg now1 v s).state
    ∧ ((changeName cfg now1 v s).state.visitorAt v).Name = candidateName cfg (s.visitorAt v).NextName
    ∧ (changeName cfg now1 v s).state.Visitors
        (cfg.ToLower (candidateName cfg (s.visitorAt v).NextName)) = some v
    ∧ (changeName cfg now1 v s).state.Visitors (cfg.ToLower (s.visitorAt v).Name) = none
    ∧ (∀ k, k ≠ cfg.ToLower (candidateName cfg (s.visitorAt v).NextName) →
        k ≠ cfg.ToLower (s.visitorAt v).Name →
        (changeName cfg now1 v s).state.Visitors k = s.Visitors k)
    ∧ (∀ u, u ≠ v → (changeName cfg now1 v s).state.visitorAt u = s.visitorAt u)
    ∧ (if (s.visitorAt v).OutputMessages.length < cfg.MaxVisitorBufferedMessages then
        (changeName cfg now1 v s).isDone = true
        ∧ ((changeName cfg now1 v s).state.visitorAt v).OutputMessages
            = (s.visitorAt v).OutputMessages
              ++ [CreateMessage now1 (str "Server")
                    (str "you changed your name to " ++ candidateName cfg (s.visitorAt v).NextName)]
      else
        (changeName cfg now1 v s).isDone = false
        ∧ ((changeName cfg now1 v s).state.visitorAt v).OutputMessages
            = (s.visitorAt v).OutputMessages) := by
  have hne : cfg.ToLower (candidateName cfg (s.visitorAt v).NextName)
      ≠ cfg.ToLower (s.visitorAt v).Name := by
    intro h
    rw [h, hreg] at hfree
    exact Option.noConfusion hfree
  rw [changeName_free cfg now1 v s hmin hlo hhi hfree]
  by_cases hroom : (s.visitorAt v).OutputMessages.length < cfg.MaxVisitorBufferedMessages
  · rw [sendOutput_room _ _ _ _ (by simpa using hroom), if_pos hroom]
    refine ⟨?_, ?_, ?_, ?_, ?_, ?_, ?_⟩
    · apply changeName_taken
      simp [mapSet]
    · simp
    · simp [mapSet]
    · simp [mapSet, mapDelete, Function.update_noteq hne.symm]
    · intro k k1 k2
      simp [mapSet, mapDelete, Function.update_noteq k1, Function.update_noteq k2]
    · intro u hu
      simp [setVisitor_visitorAt_other _ _ _ _ hu]
    · simp
  · rw [sendOutput_full _ _ _ _ (by simpa using hroom), if_neg hroom]
    refine ⟨?_, ?_, ?_, ?_, ?_, ?_, ?_⟩
    · apply changeName_taken
      simp [mapSet]
    · simp
    · simp [mapSet]
    · simp [mapSet, mapDelete, Function.update_noteq hne.symm]
    · intro k k1 k2
      simp [mapSet, mapDelete, Function.update_noteq k1, Function.update_noteq k2]
    · intro u hu
      simp [setVisitor_visitorAt_other _ _ _ _ hu]
    · simp

/-- C7 witness: Bob, registered under `bob`, asks for the name `Al` written in
braces. -/
theorem C7_changeName_idempotent_witness :
    changeName sampleConfig noon 0 (changeName sampleConfig noon 0 bobAsksName).state
      = .done (changeName sampleConfig noon 0 bobAsksName).state
    ∧ ((changeName sampleConfig noon 0 bobAsksName).state.visitorAt 0).Name = str "Al"
    ∧ (changeName sampleConfig noon 0 bobAsksName).state.Visitors (str "al") = some 0
    ∧ (changeName sampleConfig noon 0 bobAsksName).state.Visitors (str "bob") = none := by
  have h := C7_changeName_idempotent sampleConfig noon noon 0 bobAsksName
    (by decide) (by decide) (by decide) (by decide) (by decide)
  have e1 : candidateName sampleConfig (bobAsksName.visitorAt 0).NextName = str "Al" := by decide
  have e2 : sampleConfig.ToLower (str "Al") = str "al" := by decide
  have e3 : sampleConfig.ToLower (bobAsksName.visitorAt 0).Name = str "bob" := by decide
  rw [e1, e2, e3] at h
  exact ⟨h.1, h.2.1, h.2.2.1, h.2.2.2.1⟩

/-! ## Frame facts: what the channel operations leave alone -/

theorem Core.ext_iff' (c d : Core) :
    c = d ↔ c.lists = d.lists ∧ c.queue = d.queue
      ∧ c.cur = d.cur ∧ c.elem = d.elem ∧ c.next = d.next ∧ c.gate = d.gate ∧ c.rc = d.rc
      ∧ c.closed = d.closed ∧ c.rooms = d.rooms ∧ c.nV = d.nV ∧ c.nR = d.nR
      ∧ c.nE = d.nE := by
  constructor
  · rintro rfl; simp
  · cases c; cases d; simp

@[simp] theorem setVisitor_queue (s : Server) (v : Nat) (f : Visitor → Visitor) :
    (s.setVisitor v f).queue = s.queue := by
  funext l; cases l <;> rfl

/-- A change of a visitor record that keeps its room fields, its gate,
`ReadClosed` and `Closed` keeps the membership part. -/
theorem core_setVisitor (s : Server) (v : Nat) (f : Visitor → Visitor)
    (h1 : (f (s.visitorAt v)).CurrentRoom = (s.visitorAt v).CurrentRoom)
    (h2 : (f (s.visitorAt v)).RoomElement = (s.visitorAt v).RoomElement)
    (h3 : (f (s.visitorAt v)).NextRoomID = (s.visitorAt v).NextRoomID)
    (h4 : (f (s.visitorAt v)).RoomChanged = (s.visitorAt v).RoomChanged)
    (h5 : (f (s.visitorAt v)).ReadClosed = (s.visitorAt v).ReadClosed)
    (h6 : (f (s.visitorAt v)).Closed = (s.visitorAt v).Closed) :
    core (s.setVisitor v f) = core s := by
  rw [Core.ext_iff']
  simp only [core, setVisitor_roomAt, setVisitor_queue, setVisitor_Rooms,
    setVisitor_numVisitors, setVisitor_numRooms, setVisitor_numElements,
    true_and, and_true]
  refine ⟨?_, ?_, ?_, ?_, ?_, ?_⟩ <;> funext u <;> rw [setVisitor_visitorAt] <;>
    by_cases hu : u = v <;> simp [hu, h1, h2, h3, h4, h5, h6]

theorem setRoom_queue (s : Server) (r : Nat) (f : Room → Room)
    (h2 : (f (s.roomAt r)).VisitorLeaveRequests = (s.roomAt r).VisitorLeaveRequests)
    (h3 : (f (s.roomAt r)).VisitorEnterRequests = (s.roomAt r).VisitorEnterRequests) :
    (s.setRoom r f).queue = s.queue := by
  funext l
  cases l with
  | crr => rfl
  | leave q =>
    show ((s.setRoom r f).roomAt q).VisitorLeaveRequests = _
    rw [setRoom_roomAt]
    by_cases hq : q = r <;> simp [hq, h2, Server.queue]
  | enter q =>
    show ((s.setRoom r f).roomAt q).VisitorEnterRequests = _
    rw [setRoom_roomAt]
    by_cases hq : q = r <;> simp [hq, h3, Server.queue]

/-- A change of a room record that keeps its member list and its two request
queues keeps the membership part. -/
theorem core_setRoom (s : Server) (r : Nat) (f : Room → Room)
    (h1 : (f (s.roomAt r)).Visitors = (s.roomAt r).Visitors)
    (h2 : (f (s.roomAt r)).VisitorLeaveRequests = (s.roomAt r).VisitorLeaveRequests)
    (h3 : (f (s.roomAt r)).VisitorEnterRequests = (s.roomAt r).VisitorEnterRequests) :
    core (s.setRoom r f) = core s := by
  rw [Core.ext_iff']
  simp only [core, setRoom_visitorAt, setRoom_queue s r f h2 h3, setRoom_Rooms,
    setRoom_numVisitors, setRoom_numRooms, setRoom_numElements,
    true_and, and_true]
  funext q
  rw [setRoom_roomAt]
  by_cases hq : q = r <;> simp [hq, h1]

@[simp] theorem core_sendOutput (cfg : Config) (v : Nat) (m : Bytes) (s : Server) :
    core (sendOutput cfg v m s).state = core s := by
  unfold sendOutput
  split
  · rw [Outcome.state_done]; apply core_setVisitor s v <;> rfl
  · rfl

@[simp] theorem core_sendMessage (cfg : Config) (r : Nat) (m : Bytes) (s : Server) :
    core (sendMessage cfg r m s).state = core s := by
  unfold sendMessage
  split
  · rw [Outcome.state_done]; apply core_setRoom s r <;> rfl
  · rfl

@[simp] theorem core_sendChangeNameRequest (cfg : Config) (v : Nat) (s : Server) :
    core (sendChangeNameRequest cfg v s).state = core s := by
  unfold sendChangeNameRequest
  split <;> rfl

@[simp] theorem core_closeConnection (v : Nat) (s : Server) :
    core (closeConnection v s) = core s := by
  apply core_setVisitor s v <;> rfl

@[simp] theorem core_closeWriteClosed (v : Nat) (s : Server) :
    core (closeWriteClosed v s).state = core s := by
  unfold closeWriteClosed
  split
  · rfl
  · rw [Outcome.state_done]; apply core_setVisitor s v <;> rfl

@[simp] theorem core_broadcast (cfg : Config) (m : Bytes) (es : List Element) (s : Server) :
    core (broadcast cfg m es s).state = core s := by
  induction es generalizing s with
  | nil => rfl
  | cons e es ih =>
    unfold broadcast
    cases h : sendOutput cfg e.Value m s with
    | done t =>
      have := core_sendOutput cfg e.Value m s
      rw [h] at this
      simp only [Outcome.state_done] at this
      simp [ih, this]
    | blocked t =>
      have := core_sendOutput cfg e.Value m s
      rw [h] at this
      simpa using this
    | fault t =>
      have := core_sendOutput cfg e.Value m s
      rw [h] at this
      simpa using this

/-! ## Member lists: what changes them -/

theorem SameLists.refl (s : Server) : SameLists s s := fun _ => rfl

theorem SameLists.trans {s t u : Server} (h1 : SameLists s t) (h2 : SameLists t u) :
    SameLists s u := fun r => (h2 r).trans (h1 r)

theorem SameLists.of_roomAt {s t : Server} (h : t.roomAt = s.roomAt) : SameLists s t := by
  intro r; rw [h]

theorem SameLists.of_core {s t : Server} (h : core t = core s) : SameLists s t := by
  intro r
  have := congrArg (fun c => c.lists r) h
  simpa [core] using this

theorem SameLists.next {s : Server} {o : Outcome Server} {f : Server → Outcome Server}
    (h1 : SameLists s o.state) (h2 : ∀ t, SameLists t (f t).state) :
    SameLists s (o.next f).state := by
  cases o with
  | done t => exact h1.trans (h2 t)
  | blocked t => exact h1
  | fault t => exact h1

theorem SameLists.andThen {σ : Type} {s : Server} {o : Outcome Server}
    {f : Server → Outcome (σ × Server)} {g : Server → σ × Server}
    (h1 : SameLists s o.state) (h2 : ∀ t, SameLists t (f t).state.2) (h3 : ∀ t, (g t).2 = t) :
    SameLists s (o.andThen f g).state.2 := by
  cases o with
  | done t => exact h1.trans (h2 t)
  | blocked t => simpa [h3] using h1
  | fault t => simpa [h3] using h1

theorem SameLists.map_snd {σ : Type} (o : Outcome (σ × Server)) :
    (o.map Prod.snd).state = o.state.2 := by
  cases o <;> rfl

theorem sameLists_setVisitor (s : Server) (v : Nat) (f : Visitor → Visitor) :
    SameLists s (s.setVisitor v f) := SameLists.of_roomAt rfl

theorem sameLists_setRoom (s : Server) (r : Nat) (f : Room → Room)
    (h : (f (s.roomAt r)).Visitors = (s.roomAt r).Visitors) : SameLists s (s.setRoom r f) := by
  intro q
  rw [setRoom_roomAt]
  by_cases hq : q = r <;> simp [hq, h]

theorem sameLists_sendOutput (cfg : Config) (v : Nat) (m : Bytes) (s : Server) :
    SameLists s (sendOutput cfg v m s).state := SameLists.of_core (by simp)

theorem sameLists_sendMessage (cfg : Config) (r : Nat) (m : Bytes) (s : Server) :
    SameLists s (sendMessage cfg r m s).state := SameLists.of_core (by simp)

theorem sameLists_sendChangeNameRequest (cfg : Config) (v : Nat) (s : Server) :
    SameLists s (sendChangeNameRequest cfg v s).state := SameLists.of_core (by simp)

theorem sameLists_sendChangeRoomRequest (cfg : Config) (v : Nat) (s : Server) :
    SameLists s (sendChangeRoomRequest cfg v s).state := by
  unfold sendChangeRoomRequest
  split <;> exact SameLists.refl s

theorem sameLists_sendLeaveRequest (cfg : Config) (r v : Nat) (s : Server) :
    SameLists s (sendLeaveRequest cfg r v s).state := by
  unfold sendLeaveRequest
  split
  · intro q
    rw [Outcome.state_done, setRoom_roomAt]
    by_cases hq : q = r <;> simp [hq]
  · exact SameLists.refl s

theorem sameLists_sendEnterRequest (cfg : Config) (r v : Nat) (s : Server) :
    SameLists s (sendEnterRequest cfg r v s).state := by
  unfold sendEnterRequest
  split
  · intro q
    rw [Outcome.state_done, setRoom_roomAt]
    by_cases hq : q = r <;> simp [hq]
  · exact SameLists.refl s

theorem sameLists_closeRoomChanged (v : Nat) (s : Server) :
    SameLists s (closeRoomChanged v s).state := by
  unfold closeRoomChanged
  split
  · exact SameLists.refl s
  · exact SameLists.of_roomAt rfl

theorem sameLists_closeReadClosed (v : Nat) (s : Server) :
    SameLists s (closeReadClosed v s).state := by
  unfold closeReadClosed
  split
  · exact SameLists.refl s
  · exact SameLists.of_roomAt rfl

theorem sameLists_closeWriteClosed (v : Nat) (s : Server) :
    SameLists s (closeWriteClosed v s).state := SameLists.of_core (by simp)

theorem sameLists_beginChangingRoom (cfg : Config) (v : Nat) (id : Bytes) (s : Server) :
    SameLists s (beginChangingRoom cfg v id s).state := by
  unfold beginChangingRoom
  exact ((sameLists_setVisitor s v _).trans (sameLists_setVisitor _ v _)).trans
    (sameLists_sendChangeRoomRequest cfg v _)

theorem sameLists_endChangingRoom (cfg : Config) (v : Nat) (s : Server) :
    SameLists s (endChangingRoom cfg v s).state := by
  unfold endChangingRoom
  exact (sameLists_setVisitor s v _).trans (sameLists_closeRoomChanged v _)

theorem sameLists_destroyVisitor (cfg : Config) (v : Nat) (s : Server) :
    SameLists s (destroyVisitor cfg v s) := SameLists.of_roomAt rfl

theorem sameLists_changeName (cfg : Config) (now : Bytes) (v : Nat) (s : Server) :
    SameLists s (changeName cfg now v s).state := by
  unfold changeName
  dsimp only
  split_ifs
  · exact SameLists.refl s
  · exact SameLists.refl s
  · exact SameLists.refl s
  · exact SameLists.trans (SameLists.of_roomAt rfl) (sameLists_sendOutput cfg v _ _)

theorem sameLists_readChat (cfg : Config) (now : Bytes) (v : Nat) (line : Bytes) (s : Server) :
    SameLists s (readChat cfg now v line s).state := by
  unfold readChat
  split
  · exact SameLists.refl s
  · split
    · exact sameLists_sendOutput cfg v _ s
    · exact sameLists_sendMessage cfg _ _ s

theorem sameLists_readCommand (cfg : Config) (now : Bytes) (v : Nat) (line : Bytes) (s : Server) :
    SameLists s (readCommand cfg now v line s).state := by
  unfold readCommand
  dsimp only
  repeat' split
  all_goals first
    | exact SameLists.refl s
    | exact sameLists_sendOutput cfg v _ s
    | exact sameLists_beginChangingRoom cfg v _ s
    | exact sameLists_readChat cfg now v line s
    | exact (sameLists_setVisitor s v _).trans (sameLists_sendChangeNameRequest cfg v _)
    | exact SameLists.next (sameLists_closeReadClosed v s) fun t => sameLists_readChat cfg now v line t

theorem sameLists_readLine (cfg : Config) (now : Bytes) (v : Nat) (line : Bytes) (rd : Reader)
    (s : Server) : SameLists s (readLine cfg now v line rd s).state.2 := by
  unfold readLine
  split
  · exact SameLists.refl s
  · apply SameLists.andThen
    · split
      · exact sameLists_sendOutput cfg v _ s
      · exact SameLists.refl s
    · intro t
      split <;> exact SameLists.refl t
    · intro t; rfl
  · split
    · exact SameLists.refl s
    · rw [← SameLists.map_snd]
      have := sameLists_readCommand cfg now v line s
      cases h : readCommand cfg now v line s <;> rw [h] at this <;> exact this

theorem sameLists_readIter (cfg : Config) (now : Bytes) (v : Nat) (st : Reader × Server) :
    SameLists st.2 (readIter cfg now v st).state.2 := by
  unfold readIter
  apply SameLists.andThen
  · split
    · exact sameLists_closeReadClosed v st.2
    · exact SameLists.refl st.2
  · intro t
    split
    · exact SameLists.refl t
    · split
      rename_i line err rd1 _
      apply SameLists.andThen
      · split
        · split
          · exact sameLists_closeReadClosed v t
          · exact SameLists.refl t
        · exact SameLists.refl t
      · intro u
        exact sameLists_readLine cfg now v line _ u
      · intro u; rfl
  · intro t; rfl

theorem sameLists_failWrite (v : Nat) (s : Server) : SameLists s (failWrite v s).state := by
  unfold failWrite
  exact SameLists.trans (SameLists.of_core (core_closeConnection v s)) (sameLists_closeWriteClosed v _)

theorem sameLists_map_pair {σ : Type} (w : σ) (s : Server) (o : Outcome Server)
    (h : SameLists s o.state) : SameLists s (o.map fun s2 => (w, s2)).state.2 := by
  cases o <;> exact h

theorem sameLists_writeIter (v : Nat) (pick : WriteCase) (st : Writer × Server) :
    SameLists st.2 (writeIter v pick st).state.2 := by
  unfold writeIter
  dsimp only
  repeat' split
  all_goals first
    | exact SameLists.refl st.2
    | exact sameLists_map_pair _ _ _ (sameLists_failWrite v st.2)
    | exact sameLists_map_pair _ _ _ ((sameLists_setVisitor st.2 v _).trans (sameLists_failWrite v _))

theorem sameLists_run (cfg : Config) (v : Nat) (s : Server) :
    SameLists s (Visitor.run cfg v s).state := by
  unfold Visitor.run
  repeat' split
  all_goals first
    | exact SameLists.refl s
    | exact (sameLists_setVisitor s v _).trans (sameLists_beginChangingRoom cfg v _ _)

theorem sameLists_newVisitor (cfg : Config) (name : Bytes) (s : Server) :
    SameLists s (newVisitor cfg name s).2.state := by
  unfold newVisitor
  exact SameLists.trans (SameLists.of_roomAt rfl) (sameLists_beginChangingRoom cfg _ _ _)

theorem sameLists_pendingConnectionCase (cfg : Config) (now name : Bytes) (s : Server) :
    SameLists s (pendingConnectionCase cfg now name s).state := by
  unfold pendingConnectionCase
  exact SameLists.next (sameLists_newVisitor cfg name s) fun t => sameLists_sendOutput cfg _ _ t

theorem sameLists_changeNameCase (cfg : Config) (now : Bytes) (s : Server) :
    SameLists s (changeNameCase cfg now s).state := by
  unfold changeNameCase
  split
  · exact SameLists.refl s
  · exact SameLists.trans (SameLists.of_roomAt rfl) (sameLists_changeName cfg now _ _)

theorem sameLists_messagesCase (cfg : Config) (r : Nat) (s : Server) :
    SameLists s (messagesCase cfg r s).state := by
  unfold messagesCase
  split
  · exact SameLists.refl s
  · exact SameLists.trans (SameLists.of_core (core_setRoom s r _ rfl rfl rfl))
      (SameLists.of_core (core_broadcast cfg _ _ _))

/-! ## Room capacity -/

theorem WithinCapacity.of_sameLists {cfg : Config} {s t : Server} (h : WithinCapacity cfg s)
    (hl : SameLists s t) : WithinCapacity cfg t := by
  intro r; rw [hl r]; exact h r

theorem withinCapacity_newRoom (cfg : Config) (id : Bytes) (s : Server)
    (h : WithinCapacity cfg s) : WithinCapacity cfg (newRoom cfg id s).2 := by
  intro r
  show ((Function.update s.roomAt s.numRooms _) r).Visitors.length ≤ _
  by_cases hr : r = s.numRooms
  · rw [hr, Function.update_same]; exact Nat.zero_le _
  · rw [Function.update_noteq hr]; exact h r

theorem withinCapacity_changeRoom (cfg : Config) (v : Nat) (s : Server)
    (h : WithinCapacity cfg s) : WithinCapacity cfg (changeRoom cfg v s).state := by
  unfold changeRoom
  repeat' split
  all_goals first
    | exact h.of_sameLists (sameLists_sendLeaveRequest cfg _ v s)
    | exact h.of_sameLists (sameLists_sendEnterRequest cfg _ v s)
    | exact h.of_sameLists (SameLists.next (sameLists_endChangingRoom cfg v s)
        fun t => sameLists_destroyVisitor cfg v t)
    | skip
  rename_i room s1 hn
  have h1 := withinCapacity_newRoom cfg (s.visitorAt v).NextRoomID s h
  rw [hn] at h1
  exact h1.of_sameLists (sameLists_sendEnterRequest cfg _ v s1)

theorem withinCapacity_changeRoomCase (cfg : Config) (s : Server)
    (h : WithinCapacity cfg s) : WithinCapacity cfg (changeRoomCase cfg s).state := by
  unfold changeRoomCase
  split
  · exact h
  · exact withinCapacity_changeRoom cfg _ _ (h.of_sameLists (SameLists.of_roomAt rfl))

theorem withinCapacity_leaveVisitor (cfg : Config) (r v : Nat) (s : Server)
    (h : WithinCapacity cfg s) : WithinCapacity cfg (leaveVisitor r v s) := by
  have hrem : ∀ e, WithinCapacity cfg (listRemove r e s) := by
    intro e q
    unfold listRemove
    rw [setRoom_roomAt]
    by_cases hq : q = r
    · simp only [hq, if_true]
      exact le_trans (List.length_filter_le _ _) (h r)
    · simp only [hq, if_false]; exact h q
  unfold leaveVisitor
  repeat' split
  all_goals first
    | exact h
    | exact hrem _

theorem withinCapacity_leaveCase (cfg : Config) (now : Bytes) (r : Nat) (s : Server)
    (h : WithinCapacity cfg s) : WithinCapacity cfg (leaveCase cfg now r s).state := by
  unfold leaveCase
  split
  · exact h
  · rename_i v rest _
    have h1 : WithinCapacity cfg (s.setRoom r fun x => { x with VisitorLeaveRequests := rest }) :=
      h.of_sameLists (sameLists_setRoom s r _ rfl)
    have h2 := withinCapacity_leaveVisitor cfg r v _ h1
    exact h2.of_sameLists
      (SameLists.next (sameLists_sendOutput cfg v _ _) fun t => sameLists_sendChangeRoomRequest cfg v t)

theorem withinCapacity_enterVisitor (cfg : Config) (r v : Nat) (s : Server)
    (h : WithinCapacity cfg s) (hr : (s.roomAt r).Visitors.length < cfg.MaxRoomCapacity) :
    WithinCapacity cfg (enterVisitor r v s) := by
  intro q
  unfold enterVisitor
  dsimp only
  rw [setVisitor_roomAt, setRoom_roomAt]
  by_cases hq : q = r
  · simp only [hq, if_true, setVisitor_roomAt, List.length_append, List.length_singleton]
    omega
  · simp only [hq, if_false, setVisitor_roomAt]; exact h q

theorem withinCapacity_enterCase (cfg : Config) (now : Bytes) (r : Nat) (s : Server)
    (h : WithinCapacity cfg s) : WithinCapacity cfg (enterCase cfg now r s).state := by
  unfold enterCase
  split
  · exact h
  · rename_i v rest _
    have h1 : WithinCapacity cfg (s.setRoom r fun x => { x with VisitorEnterRequests := rest }) :=
      h.of_sameLists (sameLists_setRoom s r _ rfl)
    dsimp only
    split
    · exact h1.of_sameLists
        (SameLists.next (sameLists_sendOutput cfg v _ _) fun t => sameLists_endChangingRoom cfg v t)
    · rename_i hlen
      have h2 := withinCapacity_enterVisitor cfg r v _ h1 (by omega)
      exact h2.of_sameLists
        (SameLists.next (sameLists_sendOutput cfg v _ _) fun t => sameLists_endChangingRoom cfg v t)

theorem withinCapacity_apply (cfg : Config) (e : Event) (s : Server)
    (h : WithinCapacity cfg s) : WithinCapacity cfg (e.apply cfg s).state := by
  cases e with
  | connect now name => exact h.of_sameLists (sameLists_pendingConnectionCase cfg now name s)
  | changeName now => exact h.of_sameLists (sameLists_changeNameCase cfg now s)
  | changeRoom => exact withinCapacity_changeRoomCase cfg s h
  | leave now r => exact withinCapacity_leaveCase cfg now r s h
  | enter now r => exact withinCapacity_enterCase cfg now r s h
  | messages r => exact h.of_sameLists (sameLists_messagesCase cfg r s)
  | read now v rd =>
    simp only [Event.apply]
    split
    · rw [SameLists.map_snd]
      exact h.of_sameLists (sameLists_readIter cfg now v (rd, s))
    · exact h
  | write v pick w =>
    simp only [Event.apply]
    split
    · rw [SameLists.map_snd]
      exact h.of_sameLists (sameLists_writeIter v pick (w, s))
    · exact h
  | run v =>
    simp only [Event.apply]
    split
    · exact h.of_sameLists (sameLists_run cfg v s)
    · exact h

theorem withinCapacity_runEvents (cfg : Config) (es : List Event) (s : Server)
    (h : WithinCapacity cfg s) : WithinCapacity cfg (runEvents cfg es s).state := by
  induction es generalizing s with
  | nil => exact h
  | cons e es ih =>
    unfold runEvents
    have h1 := withinCapacity_apply cfg e s h
    cases he : e.apply cfg s with
    | done t => rw [he] at h1; exact ih t h1
    | blocked t => rw [he] at h1; exact h1
    | fault t => rw [he] at h1; exact h1

theorem withinCapacity_init (cfg : Config) : WithinCapacity cfg (Server.init cfg) := by
  intro r
  show ((Function.update (fun _ => ({} : Room)) 0 _) r).Visitors.length ≤ _
  by_cases hr : r = 0
  · rw [hr, Function.update_same]; exact Nat.zero_le _
  · rw [Function.update_noteq hr]; exact Nat.zero_le _

/-- A room at or above capacity rejects an enter request, where the visitor's
gate is armed (the behaviour C5 describes, at the states where the code shows
it).  When room `r`
takes the enter request of a visitor `v` that is in no room, whose gate is
armed and whose mailbox has room for the notice, and `r` holds
`MaxRoomCapacity` members or more, the case runs to its end, leaves every
member list unchanged, leaves `v` in no room, adds exactly the "full" notice to
`v`'s mailbox and fires `v`'s gate.  And no run of whole turns, from the state
`Server.run` sets up or from any state within capacity, takes a room beyond
`MaxRoomCapacity` members, also where the run stops blocked or faulted. -/
theorem enterCase_full_armed (cfg : Config) (now : Bytes) (r v : Nat) (rest : List Nat) (s : Server)
    (hq : (s.roomAt r).VisitorEnterRequests = v :: rest)
    (hfull : cfg.MaxRoomCapacity ≤ (s.roomAt r).Visitors.length)
    (hcur : (s.visitorAt v).CurrentRoom = none) (helem : (s.visitorAt v).RoomElement = none)
    (hgate : (s.visitorAt v).RoomChanged = false)
    (hroom : (s.visitorAt v).OutputMessages.length < cfg.MaxVisitorBufferedMessages) :
    (enterCase cfg now r s).isDone = true
    ∧ (∀ q, ((enterCase cfg now r s).state.roomAt q).Visitors = (s.roomAt q).Visitors)
    ∧ ((enterCase cfg now r s).state.visitorAt v).CurrentRoom = none
    ∧ ((enterCase cfg now r s).state.visitorAt v).RoomElement = none
    ∧ ((enterCase cfg now r s).state.visitorAt v).OutputMessages
        = (s.visitorAt v).OutputMessages
          ++ [CreateMessage now (s.roomAt r).Name (str "Sorry, I am full. :(")]
    ∧ ((enterCase cfg now r s).state.visitorAt v).RoomChanged = true
    ∧ (∀ (es : List Event), WithinCapacity cfg (runEvents cfg es (Server.init cfg)).state)
    ∧ (∀ (es : List Event) (s0 : Server), WithinCapacity cfg s0 →
        WithinCapacity cfg (runEvents cfg es s0).state) := by
  have he : enterCase cfg now r s = .done
      ((((s.setRoom r fun x => { x with VisitorEnterRequests := rest }).setVisitor v
          fun x => { x with OutputMessages := x.OutputMessages
            ++ [CreateMessage now (s.roomAt r).Name (str "Sorry, I am full. :(")] }).setVisitor v
          fun x => { x with NextRoomID := cfg.VoidRoomID }).setVisitor v
          fun x => { x with RoomChanged := true }) := by
    unfold enterCase
    rw [hq]
    simp [sendOutput, endChangingRoom, closeRoomChanged, hfull, hroom, hgate]
  rw [he]
  refine ⟨rfl, ?_, ?_, ?_, ?_, ?_, ?_, ?_⟩
  · intro q
    simp only [Outcome.state_done, setVisitor_roomAt]
    exact sameLists_setRoom s r _ rfl q
  · simp [hcur]
  · simp [helem]
  · simp
  · simp
  · intro es
    exact withinCapacity_runEvents cfg es _ (withinCapacity_init cfg)
  · intro es s0 h0
    exact withinCapacity_runEvents cfg es s0 h0

/-- The lobby of `lobbyFull` holds two members, the capacity, and takes the
enter request of the third visitor, whose gate is armed. -/
theorem enterCase_full_armed_lobbyFull :
    (enterCase sampleConfig noon 0 lobbyFull).isDone = true
    ∧ (∀ q, ((enterCase sampleConfig noon 0 lobbyFull).state.roomAt q).Visitors
        = (lobbyFull.roomAt q).Visitors)
    ∧ members lobbyFull 0 = [0, 1]
    ∧ ((enterCase sampleConfig noon 0 lobbyFull).state.visitorAt 2).CurrentRoom = none
    ∧ ((enterCase sampleConfig noon 0 lobbyFull).state.visitorAt 2).RoomChanged = true := by
  have h := enterCase_full_armed sampleConfig noon 0 2 [] lobbyFull
    (by decide) (by decide) (by decide) (by decide) (by decide) (by decide)
  exact ⟨h.1, h.2.1, by decide, h.2.2.1, h.2.2.2.2.2.1⟩

/-! ## The reader: reading lines -/

theorem runeWidth_pos (s : Bytes) (h : s ≠ []) : 1 ≤ runeWidth s := by
  cases s with
  | nil => exact absurd rfl h
  | cons b0 rest =>
    simp only [runeWidth]
    repeat' split
    all_goals decide

theorem runeWidth_le (s : Bytes) : runeWidth s ≤ 4 := by
  cases s with
  | nil => simp [runeWidth]
  | cons b0 rest =>
    simp only [runeWidth]
    repeat' split
    all_goals decide

theorem length_le_runeCountAux (fuel : Nat) :
    ∀ s : Bytes, s.length ≤ fuel → s.length ≤ 4 * runeCountAux fuel s := by
  induction fuel with
  | zero => intro s h; omega
  | succ fuel ih =>
    intro s h
    unfold runeCountAux
    by_cases hs : s = []
    · simp [hs]
    · rw [if_neg hs]
      have h1 := runeWidth_pos s hs
      have h2 := runeWidth_le s
      have h3 : (s.drop (runeWidth s)).length = s.length - runeWidth s := List.length_drop _ _
      have h4 := ih (s.drop (runeWidth s)) (by omega)
      omega

/-- A string of `n` bytes has at least `n / 4` runes: no rune takes more than
four bytes. -/
theorem length_le_runeCount (s : Bytes) : s.length ≤ 4 * runeCount s :=
  length_le_runeCountAux s.length s (le_refl _)

theorem ReadString_line (rd : Reader) (text more : Bytes)
    (hin : rd.input = text ++ newline :: more) (hno : newline ∉ text)
    (hlen : text.length < rd.LimitInputN) :
    ReadString rd = (text ++ [newline], none,
      { rd with input := more, LimitInputN := rd.LimitInputN - (text.length + 1) }) := by
  have hw : rd.input.take rd.LimitInputN
      = text ++ newline :: more.take (rd.LimitInputN - text.length - 1) := by
    rw [hin, List.take_append_eq_append_take]
    have h1 : List.take rd.LimitInputN text = text := List.take_of_length_le (by omega)
    obtain ⟨k, hk⟩ : ∃ k, rd.LimitInputN - text.length = k + 1 :=
      ⟨rd.LimitInputN - text.length - 1, by omega⟩
    have hk2 : rd.LimitInputN - text.length - 1 = k := by omega
    rw [h1, hk2, hk, List.take_succ_cons]
  have hp : (rd.input.take rd.LimitInputN).takeWhile (fun b => b != newline) = text := by
    rw [hw, List.takeWhile_append_of_pos]
    · simp [List.takeWhile]
    · intro b hb
      simp only [bne_iff_ne, ne_eq]
      intro h; subst h; exact hno hb
  unfold ReadString
  simp only [hp]
  have hlt : text.length < (rd.input.take rd.LimitInputN).length := by
    rw [hw]; simp
  rw [if_pos hlt]
  have hd : rd.input.drop (text.length + 1) = more := by
    rw [hin]
    simp
  rw [hd]

theorem ReadString_chunk (rd : Reader) (hno : newline ∉ rd.input.take rd.LimitInputN)
    (hlen : rd.LimitInputN ≤ rd.input.length) :
    ReadString rd = (rd.input.take rd.LimitInputN, some .eof,
      { rd with input := rd.input.drop rd.LimitInputN, LimitInputN := 0 }) := by
  have hp : (rd.input.take rd.LimitInputN).takeWhile (fun b => b != newline)
      = rd.input.take rd.LimitInputN := by
    rw [List.takeWhile_eq_self_iff]
    intro b hb
    simp only [bne_iff_ne, ne_eq]
    intro h; subst h; exact hno hb
  unfold ReadString
  simp only [hp, lt_irrefl, if_false, if_pos hlen]

theorem ReadString_end (rd : Reader) (hno : newline ∉ rd.input)
    (hlen : rd.input.length < rd.LimitInputN) :
    ReadString rd = (rd.input, some rd.inputErr,
      { rd with input := [], LimitInputN := rd.LimitInputN - rd.input.length }) := by
  have ht : rd.input.take rd.LimitInputN = rd.input := List.take_of_length_le (by omega)
  have hp : (rd.input.take rd.LimitInputN).takeWhile (fun b => b != newline)
      = rd.input.take rd.LimitInputN := by
    rw [List.takeWhile_eq_self_iff]
    intro b hb
    simp only [bne_iff_ne, ne_eq]
    intro h; subst h; rw [ht] at hb; exact hno hb
  unfold ReadString
  simp only [hp, lt_irrefl, if_false]
  have : ¬ rd.LimitInputN ≤ rd.input.length := by omega
  rw [if_neg this]

/-- A turn of the reader whose read yields a whole line: with the gate fired
and neither `WriteClosed` nor `Closed` closed, the turn is the loop body from
`rn := []rune(line)` on, the budget of the limited reader being restored. -/
theorem readIter_line (cfg : Config) (now : Bytes) (v : Nat) (rd : Reader) (s : Server)
    (text more : Bytes)
    (hin : rd.input = text ++ newline :: more) (hno : newline ∉ text)
    (hlen : text.length < rd.LimitInputN)
    (hgate : (s.visitorAt v).RoomChanged = true)
    (hwc : (s.visitorAt v).WriteClosed = false) (hcl : (s.visitorAt v).Closed = false) :
    readIter cfg now v (rd, s)
      = readLine cfg now v (text ++ [newline]) { rd with input := more } s := by
  unfold readIter
  simp only [hwc, hcl, Bool.or_self, Bool.false_eq_true, if_false, Outcome.andThen_done, hgate,
    Bool.not_true, ReadString_line rd text more hin hno hlen]
  congr 1
  simp
  omega

/-- A turn of the reader whose read uses up the budget without a newline. -/
theorem readIter_chunk (cfg : Config) (now : Bytes) (v : Nat) (rd : Reader) (s : Server)
    (hno : newline ∉ rd.input.take rd.LimitInputN) (hlen : rd.LimitInputN ≤ rd.input.length)
    (hpos : 0 < rd.LimitInputN)
    (hgate : (s.visitorAt v).RoomChanged = true)
    (hwc : (s.visitorAt v).WriteClosed = false) (hcl : (s.visitorAt v).Closed = false) :
    readIter cfg now v (rd, s)
      = readLine cfg now v (rd.input.take rd.LimitInputN)
          { rd with input := rd.input.drop rd.LimitInputN } s := by
  have hne : rd.input.take rd.LimitInputN ≠ [] := by
    intro h
    have := congrArg List.length h
    rw [List.length_take, List.length_nil] at this
    omega
  unfold readIter
  simp only [hwc, hcl, Bool.or_self, Bool.false_eq_true, if_false, Outcome.andThen_done, hgate,
    Bool.not_true, ReadString_chunk rd hno hlen]
  simp [hne]
  congr 1
  simp
  exact hlen

/-! ## The reader: a line that is too long -/

theorem maxNumBytesPerMessage_eq (cfg : Config) :
    maxNumBytesPerMessage cfg = 4 * cfg.MaxMessageLength + 1 := by
  unfold maxNumBytesPerMessage
  rw [Nat.shiftLeft_eq]
  omega

theorem tooLongCond_of_window (cfg : Config) (line : Bytes)
    (h : maxNumBytesPerMessage cfg ≤ line.length) : tooLongCond cfg line = some true := by
  have h1 := length_le_runeCount line
  rw [maxNumBytesPerMessage_eq] at h
  unfold tooLongCond
  rw [if_pos (by omega)]

/-- The loop body on a line, while a message that is too long is being read:
nothing is sent, and the flag tells whether the line ended without newline. -/
theorem readLine_inLong (cfg : Config) (now : Bytes) (v : Nat) (line : Bytes) (b : Nat)
    (rd : Reader) (s : Server) (hl : rd.inReadingLongMessage = true)
    (hlast : line.getLast? = some b) :
    readLine cfg now v line rd s
      = .done ({ rd with inReadingLongMessage :=
          (tooLongCond cfg line == some true) && b != newline }, s) := by
  unfold readLine
  cases hc : tooLongCond cfg line with
  | none =>
    exfalso
    unfold tooLongCond at hc
    split_ifs at hc
    simp [hlast] at hc
  | some c =>
    cases c with
    | true => simp [hl, hlast]
    | false => simp [hl]

theorem readLine_inLong_andThen (cfg : Config) (now : Bytes) (v : Nat) (line : Bytes) (b : Nat)
    (rd : Reader) (s : Server) (hl : rd.inReadingLongMessage = true)
    (hlast : line.getLast? = some b) (f : Reader × Server → Outcome (Reader × Server)) :
    (readLine cfg now v line rd s).andThen f id
      = f ({ rd with inReadingLongMessage :=
          (tooLongCond cfg line == some true) && b != newline }, s) := by
  rw [readLine_inLong cfg now v line b rd s hl hlast]
  rfl

theorem getLast?_take_ne_newline (body : Bytes) (n : Nat) (hno : newline ∉ body) (b : Nat)
    (h : (body.take n).getLast? = some b) : (b != newline) = true := by
  have hb : b ∈ body.take n := List.mem_of_getLast?_eq_some h
  have hb2 : b ∈ body := List.mem_of_mem_take hb
  simp only [bne_iff_ne, ne_eq]
  intro h; subst h; exact hno hb2

theorem take_append_of_le (body rest : Bytes) (n : Nat) (h : n ≤ body.length) :
    (body ++ rest).take n = body.take n := by
  rw [List.take_append_eq_append_take]
  have : n - body.length = 0 := by omega
  simp [this]

theorem drop_append_of_le' (body rest : Bytes) (n : Nat) (h : n ≤ body.length) :
    (body ++ rest).drop n = body.drop n ++ rest := by
  rw [List.drop_append_eq_append_drop]
  have : n - body.length = 0 := by omega
  simp [this]

/-- The rest of a line that is too long: the turns that read it send nothing
and end with the flag cleared. -/
theorem readIters_rest (cfg : Config) (v : Nat) (s : Server)
    (hgate : (s.visitorAt v).RoomChanged = true)
    (hwc : (s.visitorAt v).WriteClosed = false) (hcl : (s.visitorAt v).Closed = false) :
    ∀ (q : Nat) (body more : Bytes) (nows : List Bytes) (rd : Reader),
      newline ∉ body → body.length / maxNumBytesPerMessage cfg = q → nows.length = q + 1 →
      rd.input = body ++ newline :: more → rd.LimitInputN = maxNumBytesPerMessage cfg →
      rd.inReadingLongMessage = true →
      readIters cfg v nows (rd, s)
        = .done ({ rd with input := more, inReadingLongMessage := false }, s) := by
  have hW : 0 < maxNumBytesPerMessage cfg := by rw [maxNumBytesPerMessage_eq]; omega
  intro q
  induction q with
  | zero =>
    intro body more nows rd hno hq hn hin hN hl
    have hlt : body.length < maxNumBytesPerMessage cfg := by
      rcases Nat.div_eq_zero_iff hW |>.mp hq with h
      exact h
    obtain ⟨now, rfl⟩ : ∃ now, nows = [now] := by
      match nows, hn with
      | [now], _ => exact ⟨now, rfl⟩
    unfold readIters
    rw [readIter_line cfg now v rd s body more hin hno (by omega) hgate hwc hcl]
    rw [readLine_inLong_andThen cfg now v _ newline { rd with input := more } s hl (by simp)]
    simp [readIters]
  | succ q ih =>
    intro body more nows rd hno hq hn hin hN hl
    have hge : maxNumBytesPerMessage cfg ≤ body.length := by
      by_contra hlt
      have : body.length / maxNumBytesPerMessage cfg = 0 := Nat.div_eq_of_lt (by omega)
      omega
    obtain ⟨now, nows1, rfl⟩ : ∃ now nows1, nows = now :: nows1 := by
      match nows, hn with
      | now :: nows1, _ => exact ⟨now, nows1, rfl⟩
    have htake : rd.input.take rd.LimitInputN = body.take (maxNumBytesPerMessage cfg) := by
      rw [hin, hN, take_append_of_le _ _ _ hge]
    have hdrop : rd.input.drop rd.LimitInputN
        = body.drop (maxNumBytesPerMessage cfg) ++ newline :: more := by
      rw [hin, hN, drop_append_of_le' _ _ _ hge]
    have hno1 : newline ∉ rd.input.take rd.LimitInputN := by
      rw [htake]; exact fun h => hno (List.mem_of_mem_take h)
    have hlen1 : rd.LimitInputN ≤ rd.input.length := by
      rw [hin, hN]; simp; omega
    unfold readIters
    rw [readIter_chunk cfg now v rd s hno1 hlen1 (by omega) hgate hwc hcl]
    have hne : (rd.input.take rd.LimitInputN) ≠ [] := by
      intro h
      have := congrArg List.length h
      rw [List.length_take, List.length_nil] at this
      omega
    obtain ⟨b, hb⟩ : ∃ b, (rd.input.take rd.LimitInputN).getLast? = some b := by
      cases hx : (rd.input.take rd.LimitInputN).getLast? with
      | none => exact absurd (List.getLast?_eq_none_iff.mp hx) hne
      | some b => exact ⟨b, rfl⟩
    rw [readLine_inLong_andThen cfg now v _ b
      { rd with input := rd.input.drop rd.LimitInputN } s hl hb]
    have hcond : tooLongCond cfg (rd.input.take rd.LimitInputN) = some true := by
      apply tooLongCond_of_window
      rw [List.length_take]; omega
    have hbn : (b != newline) = true := by
      rw [htake] at hb
      exact getLast?_take_ne_newline body _ hno b hb
    simp only [hcond, hbn, beq_self_eq_true, Bool.and_self]
    have hq1 : (body.drop (maxNumBytesPerMessage cfg)).length / maxNumBytesPerMessage cfg = q := by
      rw [List.length_drop]
      have := Nat.sub_mul_div body.length (maxNumBytesPerMessage cfg) 1 
      rw [Nat.mul_one] at this
      rw [this hge]
      omega
    have := ih (body.drop (maxNumBytesPerMessage cfg)) more nows1
      { rd with input := rd.input.drop rd.LimitInputN, inReadingLongMessage := true }
      (fun h => hno (List.mem_of_mem_drop h)) hq1 (by simpa using hn) hdrop hN rfl
    rw [this]

/-- A line with no newline within the reader's window of
`4*MaxMessageLength+1` bytes gives exactly one notice, where `WriteClosed` and
`Closed` are open (the behaviour C6 describes, at the states where the code
shows it).  The reader is at the
head of its loop outside a long message, with its budget at the window size;
the connection delivers `body`, of at least a window's length and without
newline, then the newline, then `more`; the visitor's gate is fired, neither
`WriteClosed` nor `Closed` is closed and the mailbox has room for one message.
Then the `body.length / window + 1` turns that consume the line (one for each
window-sized chunk, one for the rest up to the newline) run to their end and
change the server state by exactly one "your message is too long!" notice in
the visitor's mailbox: no chunk is taken as a command or forwarded to a room;
the reader is left as it was, at the start of `more`, outside a long message. -/
theorem readIters_too_long_once (cfg : Config) (v : Nat) (now : Bytes) (nows : List Bytes)
    (body more : Bytes) (rd : Reader) (s : Server)
    (hN : rd.LimitInputN = maxNumBytesPerMessage cfg)
    (hl : rd.inReadingLongMessage = false)
    (hin : rd.input = body ++ newline :: more) (hno : newline ∉ body)
    (hbody : maxNumBytesPerMessage cfg ≤ body.length)
    (hn : nows.length = body.length / maxNumBytesPerMessage cfg)
    (hgate : (s.visitorAt v).RoomChanged = true)
    (hwc : (s.visitorAt v).WriteClosed = false) (hcl : (s.visitorAt v).Closed = false)
    (hroom : (s.visitorAt v).OutputMessages.length < cfg.MaxVisitorBufferedMessages) :
    maxNumBytesPerMessage cfg = 4 * cfg.MaxMessageLength + 1
    ∧ readIters cfg v (now :: nows) (rd, s)
      = .done ({ rd with input := more },
          s.setVisitor v fun x => { x with OutputMessages := x.OutputMessages ++ [tooLongNotice now] }) := by
  refine ⟨maxNumBytesPerMessage_eq cfg, ?_⟩
  have hW : 0 < maxNumBytesPerMessage cfg := by rw [maxNumBytesPerMessage_eq]; omega
  have htake : rd.input.take rd.LimitInputN = body.take (maxNumBytesPerMessage cfg) := by
    rw [hin, hN, take_append_of_le _ _ _ hbody]
  have hdrop : rd.input.drop rd.LimitInputN
      = body.drop (maxNumBytesPerMessage cfg) ++ newline :: more := by
    rw [hin, hN, drop_append_of_le' _ _ _ hbody]
  have hno1 : newline ∉ rd.input.take rd.LimitInputN := by
    rw [htake]; exact fun h => hno (List.mem_of_mem_take h)
  have hlen1 : rd.LimitInputN ≤ rd.input.length := by
    rw [hin, hN]; simp; omega
  have hne : (rd.input.take rd.LimitInputN) ≠ [] := by
    intro h
    have := congrArg List.length h
    rw [List.length_take, List.length_nil] at this
    omega
  obtain ⟨b, hb⟩ : ∃ b, (rd.input.take rd.LimitInputN).getLast? = some b := by
    cases hx : (rd.input.take rd.LimitInputN).getLast? with
    | none => exact absurd (List.getLast?_eq_none_iff.mp hx) hne
    | some b => exact ⟨b, rfl⟩
  have hcond : tooLongCond cfg (rd.input.take rd.LimitInputN) = some true := by
    apply tooLongCond_of_window
    rw [List.length_take]; omega
  have hbn : (b != newline) = true := by
    rw [htake] at hb
    exact getLast?_take_ne_newline body _ hno b hb
  have hq1 : (body.drop (maxNumBytesPerMessage cfg)).length / maxNumBytesPerMessage cfg + 1
      = body.length / maxNumBytesPerMessage cfg := by
    rw [List.length_drop]
    have := Nat.sub_mul_div body.length (maxNumBytesPerMessage cfg) 1
    rw [Nat.mul_one] at this
    rw [this hbody]
    have : 1 ≤ body.length / maxNumBytesPerMessage cfg := (Nat.one_le_div_iff hW).mpr hbody
    omega
  have hfirst : readIter cfg now v (rd, s)
      = .done ({ rd with input := rd.input.drop rd.LimitInputN, inReadingLongMessage := true },
          s.setVisitor v fun x => { x with OutputMessages := x.OutputMessages ++ [tooLongNotice now] }) := by
    rw [readIter_chunk cfg now v rd s hno1 hlen1 (by omega) hgate hwc hcl]
    unfold readLine
    simp [hcond, hl, sendOutput_room cfg v _ s hroom, hb, hbn]
  unfold readIters
  rw [hfirst, Outcome.andThen_done]
  have hrest := readIters_rest cfg v
    (s.setVisitor v fun x => { x with OutputMessages := x.OutputMessages ++ [tooLongNotice now] })
    (by simpa using hgate) (by simpa using hwc) (by simpa using hcl)
    ((body.drop (maxNumBytesPerMessage cfg)).length / maxNumBytesPerMessage cfg)
    (body.drop (maxNumBytesPerMessage cfg)) more nows
    { rd with input := rd.input.drop rd.LimitInputN, inReadingLongMessage := true }
    (fun h => hno (List.mem_of_mem_drop h)) rfl (by omega) hdrop hN rfl
  rw [hrest]
  simp only [hl]

/-- Bob, in the lobby with his signals open, sends seventy bytes and then a
newline. -/
theorem readIters_too_long_once_bob :
    maxNumBytesPerMessage sampleConfig = 4 * sampleConfig.MaxMessageLength + 1
    ∧ readIters sampleConfig 0 [noon, noon] (longLineReader, bobInLobby)
      = .done ({ longLineReader with input := str "hi\n" },
          bobInLobby.setVisitor 0 fun x =>
            { x with OutputMessages := x.OutputMessages ++ [tooLongNotice noon] }) :=
  readIters_too_long_once sampleConfig 0 noon [noon] longBody (str "hi\n") longLineReader bobInLobby
    (by decide) (by decide) (by decide) (by decide) (by decide) (by decide) (by decide) (by decide)
    (by decide) (by decide)

/-! ## The reader: commands -/

theorem readChat_keeps (cfg : Config) (now : Bytes) (v : Nat) (line : Bytes) (s : Server) :
    (readChat cfg now v line s).state.ChangeRoomRequests = s.ChangeRoomRequests
    ∧ (readChat cfg now v line s).state.ChangeNameRequests = s.ChangeNameRequests
    ∧ ∀ u, ((readChat cfg now v line s).state.visitorAt u).ReadClosed = (s.visitorAt u).ReadClosed
        ∧ ((readChat cfg now v line s).state.visitorAt u).WriteClosed = (s.visitorAt u).WriteClosed
        ∧ ((readChat cfg now v line s).state.visitorAt u).Closed = (s.visitorAt u).Closed
        ∧ ((readChat cfg now v line s).state.visitorAt u).RoomChanged = (s.visitorAt u).RoomChanged
        ∧ ((readChat cfg now v line s).state.visitorAt u).NextName = (s.visitorAt u).NextName := by
  unfold readChat
  split
  · simp
  · split
    · unfold sendOutput
      split
      · refine ⟨rfl, rfl, fun u => ?_⟩
        rw [Outcome.state_done, setVisitor_visitorAt]
        by_cases hu : u = v <;> simp [hu]
      · simp
    · unfold sendMessage
      split
      · exact ⟨rfl, rfl, fun u => ⟨rfl, rfl, rfl, rfl, rfl⟩⟩
      · simp

/-- C10 (as stated, refuted): Ann is in the room `cave`; her reader takes
the line `/foo`, which is within the length limit, starts with `/` and with
none of `/exit`, `/room`, `/name`.  The line is not ignored: it is put into the
broadcast queue of `cave` as a chat line of Ann. -/
theorem C10_unknown_command_is_forwarded :
    tooLongCond sampleConfig (str "/foo\n") = some false
    ∧ HasPrefix (str "/foo\n") (str "/") = true
    ∧ HasPrefix (str "/foo\n") (str "/exit") = false
    ∧ HasPrefix (str "/foo\n") (str "/room") = false
    ∧ HasPrefix (str "/foo\n") (str "/name") = false
    ∧ (annInCave.visitorAt 0).CurrentRoom = some 1
    ∧ (annInCave.roomAt 1).Messages = []
    ∧ (readIter sampleConfig noon 0
        (Reader.start sampleConfig (str "/foo\n") .eof, annInCave)).isDone = true
    ∧ ((readIter sampleConfig noon 0
        (Reader.start sampleConfig (str "/foo\n") .eof, annInCave)).state.2.roomAt 1).Messages
      = [str "[12:00:00] Ann> /foo\n\n"] := by
  decide

/-- C10 (amended): a line within the length limit that starts with `/` and
with none of `/exit`, `/room`, `/name` is handled as chat content.  The
reader's turn on it is the last statement of the loop (`readChat`): a visitor
in no room gets nothing done; a visitor in the lobby gets the "please enter a
room" notice in its own mailbox; for a visitor in another room the line goes
into that room's broadcast queue under the visitor's name.  In every case no
room-change or name-change request is submitted, no signal is closed and the
gate is left as it is. -/
theorem C10_unknown_command_as_chat (cfg : Config) (now : Bytes) (v : Nat) (rd : Reader)
    (s : Server) (text more : Bytes)
    (hin : rd.input = text ++ newline :: more) (hno : newline ∉ text)
    (hlen : text.length < rd.LimitInputN)
    (hl : rd.inReadingLongMessage = false)
    (hwithin : tooLongCond cfg (text ++ [newline]) = some false)
    (hslash : HasPrefix (text ++ [newline]) (str "/") = true)
    (hexit : HasPrefix (text ++ [newline]) (str "/exit") = false)
    (hroom : HasPrefix (text ++ [newline]) (str "/room") = false)
    (hname : HasPrefix (text ++ [newline]) (str "/name") = false)
    (hgate : (s.visitorAt v).RoomChanged = true)
    (hwc : (s.visitorAt v).WriteClosed = false) (hcl : (s.visitorAt v).Closed = false) :
    readIter cfg now v (rd, s)
      = (readChat cfg now v (text ++ [newline]) s).map (fun s1 => ({ rd with input := more }, s1))
    ∧ ((s.visitorAt v).CurrentRoom = none →
        readIter cfg now v (rd, s) = .done ({ rd with input := more }, s))
    ∧ ((s.visitorAt v).CurrentRoom = some s.Lobby →
        (s.visitorAt v).OutputMessages.length < cfg.MaxVisitorBufferedMessages →
        readIter cfg now v (rd, s) = .done ({ rd with input := more },
          s.setVisitor v fun x => { x with OutputMessages := x.OutputMessages ++ [lobbyNotice now] }))
    ∧ (∀ r, (s.visitorAt v).CurrentRoom = some r → r ≠ s.Lobby →
        (s.roomAt r).Messages.length < cfg.MaxRoomBufferedMessages →
        readIter cfg now v (rd, s) = .done ({ rd with input := more },
          s.setRoom r fun x => { x with Messages := x.Messages
            ++ [CreateMessage now (s.visitorAt v).Name (text ++ [newline])] }))
    ∧ (readIter cfg now v (rd, s)).state.2.ChangeRoomRequests = s.ChangeRoomRequests
    ∧ (readIter cfg now v (rd, s)).state.2.ChangeNameRequests = s.ChangeNameRequests
    ∧ (∀ u, ((readIter cfg now v (rd, s)).state.2.visitorAt u).ReadClosed = (s.visitorAt u).ReadClosed
        ∧ ((readIter cfg now v (rd, s)).state.2.visitorAt u).WriteClosed = (s.visitorAt u).WriteClosed
        ∧ ((readIter cfg now v (rd, s)).state.2.visitorAt u).Closed = (s.visitorAt u).Closed
        ∧ ((readIter cfg now v (rd, s)).state.2.visitorAt u).RoomChanged
            = (s.visitorAt u).RoomChanged
        ∧ ((readIter cfg now v (rd, s)).state.2.visitorAt u).NextName = (s.visitorAt u).NextName) := by
  have h0 : readIter cfg now v (rd, s)
      = (readChat cfg now v (text ++ [newline]) s).map fun s1 => ({ rd with input := more }, s1) := by
    rw [readIter_line cfg now v rd s text more hin hno hlen hgate hwc hcl]
    unfold readLine
    simp only [hwithin, hl, Bool.false_eq_true, if_false]
    unfold readCommand
    simp only [hslash, hexit, hroom, hname, if_true, Bool.false_eq_true, if_false]
  have hst : (readIter cfg now v (rd, s)).state.2
      = (readChat cfg now v (text ++ [newline]) s).state := by
    rw [h0]; cases readChat cfg now v (text ++ [newline]) s <;> rfl
  refine ⟨h0, ?_, ?_, ?_, ?_⟩
  · intro hc
    rw [h0]; unfold readChat; simp [hc]
  · intro hc hm
    rw [h0]; unfold readChat; simp [hc, sendOutput_room cfg v _ s hm]
  · intro r hc hr hm
    rw [h0]; unfold readChat; simp [hc, hr, sendMessage, hm]
  · rw [hst]
    exact readChat_keeps cfg now v (text ++ [newline]) s

/-- C10 witness: Ann, in the room `cave`, sends the line `/foo`. -/
theorem C10_unknown_command_as_chat_witness :
    readIter sampleConfig noon 0 (Reader.start sampleConfig (str "/foo\n") .eof, annInCave)
      = .done ({ Reader.start sampleConfig (str "/foo\n") .eof with input := [] },
          annInCave.setRoom 1 fun x => { x with Messages := x.Messages
            ++ [CreateMessage noon (annInCave.visitorAt 0).Name (str "/foo" ++ [newline])] }) :=
  (C10_unknown_command_as_chat sampleConfig noon 0
    (Reader.start sampleConfig (str "/foo\n") .eof) annInCave (str "/foo") []
    (by decide) (by decide) (by decide) (by decide) (by decide) (by decide) (by decide)
    (by decide) (by decide) (by decide) (by decide) (by decide)).2.2.2.1 1
    (by decide) (by decide) (by decide)

/-! ## The close signals -/

/-- C9 (the code at the failing inputs).  Reader: Bob, in the lobby, sends
`/exit` and his connection ends.  The turn on `/exit` closes `ReadClosed` and
runs to its end without leaving the loop; the next turn reads the end of the
stream and closes `ReadClosed` again, which faults.  Writer: the first message
is written, the write of the second fails, which closes `WriteClosed`; the loop
goes on, the flush of the next turn fails as well and closes `WriteClosed`
again, which faults. -/
theorem C9_signals_closed_twice :
    (bobInLobby.visitorAt 0).ReadClosed = false
    ∧ (readIters sampleConfig 0 [noon] (exitReader, bobInLobby)).isDone = true
    ∧ ((readIters sampleConfig 0 [noon] (exitReader, bobInLobby)).state.2.visitorAt 0).ReadClosed
        = true
    ∧ (readIters sampleConfig 0 [noon, noon] (exitReader, bobInLobby)).isFault = true
    ∧ (bobEntered.visitorAt 0).WriteClosed = false
    ∧ (writeIters 0 [.message, .message] (brokenWriter, bobEntered)).isDone = true
    ∧ ((writeIters 0 [.message, .message] (brokenWriter, bobEntered)).state.2.visitorAt 0).WriteClosed
        = true
    ∧ (writeIters 0 [.message, .message, .message] (brokenWriter, bobEntered)).isFault = true := by
  decide

/-! ## Broadcast -/

theorem sendOutput_roomAt (cfg : Config) (v : Nat) (m : Bytes) (s : Server) :
    (sendOutput cfg v m s).state.roomAt = s.roomAt := by
  unfold sendOutput
  split <;> rfl

theorem takeWhile_congr_mem {α : Type} (p q : α → Bool) (l : List α)
    (h : ∀ x ∈ l, p x = q x) : l.takeWhile p = l.takeWhile q := by
  induction l with
  | nil => rfl
  | cons a l ih =>
    rw [List.takeWhile_cons, List.takeWhile_cons, h a (List.mem_cons_self _ _),
      ih fun x hx => h x (List.mem_cons_of_mem _ hx)]

/-- The fan-out loop over distinct members: it never faults; it runs to its
end exactly when no mailbox is full; the members before the first full mailbox
have the message appended, every other mailbox is as before; the rooms are
untouched. -/
theorem broadcast_spec (cfg : Config) (m : Bytes) :
    ∀ (es : List Element) (s : Server), (es.map Element.Value).Nodup →
      (broadcast cfg m es s).isFault = false
      ∧ ((broadcast cfg m es s).isDone = true ↔ ∀ w ∈ es.map Element.Value, hasRoom cfg s w = true)
      ∧ (∀ w, ((broadcast cfg m es s).state.visitorAt w).OutputMessages
          = if w ∈ (es.map Element.Value).takeWhile (hasRoom cfg s)
            then (s.visitorAt w).OutputMessages ++ [m] else (s.visitorAt w).OutputMessages)
      ∧ (broadcast cfg m es s).state.roomAt = s.roomAt := by
  intro es
  induction es with
  | nil =>
    intro s _
    simp [broadcast, Outcome.isFault]
  | cons e es ih =>
    intro s hnd
    rw [List.map_cons, List.nodup_cons] at hnd
    obtain ⟨hnotin, hnd'⟩ := hnd
    unfold broadcast
    by_cases hr : (s.visitorAt e.Value).OutputMessages.length < cfg.MaxVisitorBufferedMessages
    · rw [sendOutput_room cfg e.Value m s hr, Outcome.next_done]
      have hroom_e : hasRoom cfg s e.Value = true := by simp [hasRoom, hr]
      -- the other members' mailboxes are as before the send
      have hsame : ∀ w, w ≠ e.Value →
          hasRoom cfg (s.setVisitor e.Value fun x =>
            { x with OutputMessages := x.OutputMessages ++ [m] }) w = hasRoom cfg s w := by
        intro w hw
        simp [hasRoom, setVisitor_visitorAt_other _ _ _ _ hw]
      have htw : (es.map Element.Value).takeWhile (hasRoom cfg (s.setVisitor e.Value fun x =>
            { x with OutputMessages := x.OutputMessages ++ [m] }))
          = (es.map Element.Value).takeWhile (hasRoom cfg s) := by
        apply takeWhile_congr_mem
        intro w hw
        exact hsame w (fun h => hnotin (h ▸ hw))
      obtain ⟨i1, i2, i3, i4⟩ := ih (s.setVisitor e.Value fun x =>
            { x with OutputMessages := x.OutputMessages ++ [m] }) hnd'
      refine ⟨i1, ?_, ?_, ?_⟩
      · rw [i2]
        constructor
        · intro h w hw
          rcases List.mem_cons.mp hw with h1 | h1
          · rw [h1]; exact hroom_e
          · rw [← hsame w (fun h2 => hnotin (h2 ▸ h1))]; exact h w h1
        · intro h w hw
          rw [hsame w (fun h2 => hnotin (h2 ▸ hw))]
          exact h w (List.mem_cons_of_mem _ hw)
      · intro w
        rw [i3 w, htw, List.map_cons, List.takeWhile_cons, hroom_e]
        simp only [if_true, List.mem_cons]
        by_cases hw : w = e.Value
        · subst hw
          have : e.Value ∉ (es.map Element.Value).takeWhile (hasRoom cfg s) :=
            fun h => hnotin (List.takeWhile_subset _ h)
          simp [this]
        · simp [hw, setVisitor_visitorAt_other _ _ _ _ hw]
      · rw [i4]; rfl
    · rw [sendOutput_full cfg e.Value m s hr, Outcome.next_blocked]
      have hroom_e : hasRoom cfg s e.Value = false := by simp [hasRoom, hr]
      refine ⟨rfl, ?_, ?_, rfl⟩
      · simp [Outcome.isDone_blocked, hroom_e]
      · intro w
        simp [List.takeWhile_cons, hroom_e]

theorem messagesCase_spec (cfg : Config) (r : Nat) (s : Server) (message : Bytes)
    (rest : List Bytes) (hm : (s.roomAt r).Messages = message :: rest)
    (hnd : (members s r).Nodup) :
    (messagesCase cfg r s).isFault = false
    ∧ ((messagesCase cfg r s).isDone = true ↔ ∀ w ∈ members s r, hasRoom cfg s w = true)
    ∧ (∀ w, ((messagesCase cfg r s).state.visitorAt w).OutputMessages
        = if w ∈ servedMembers cfg s r
          then (s.visitorAt w).OutputMessages ++ [message] else (s.visitorAt w).OutputMessages)
    ∧ (∀ q, ((messagesCase cfg r s).state.roomAt q).Visitors = (s.roomAt q).Visitors)
    ∧ ((messagesCase cfg r s).state.roomAt r).Messages = rest := by
  have hl : ((s.setRoom r fun x => { x with Messages := rest }).roomAt r).Visitors
      = (s.roomAt r).Visitors := by simp
  have h := broadcast_spec cfg message (s.roomAt r).Visitors
    (s.setRoom r fun x => { x with Messages := rest }) hnd
  unfold messagesCase
  rw [hm]
  simp only [hl]
  obtain ⟨h1, h2, h3, h4⟩ := h
  refine ⟨h1, ?_, ?_, ?_, ?_⟩
  · rw [h2]; rfl
  · intro w; rw [h3 w]; rfl
  · intro q; rw [h4]; exact sameLists_setRoom s r _ rfl q
  · rw [h4]; simp

/-- C4 (as stated, refuted): the room `cave` has the members Ann and Bob, in
this order; Ann's mailbox holds `MaxVisitorBufferedMessages` lines, Bob's is
empty, and Bob's line `hi` is in the broadcast queue.  Handling the broadcast
does not run to its end: it is stuck on the send to Ann's mailbox, and Bob,
whose mailbox has room, has not got the message. -/
theorem C4_broadcast_stuck_on_full_mailbox :
    members annFull 1 = [0, 1]
    ∧ (annFull.visitorAt 0).OutputMessages.length = sampleConfig.MaxVisitorBufferedMessages
    ∧ (annFull.visitorAt 1).OutputMessages = []
    ∧ (annFull.roomAt 1).Messages = [str "[12:00:00] Bob> hi\n\n"]
    ∧ (messagesCase sampleConfig 1 annFull).isDone = false
    ∧ ((messagesCase sampleConfig 1 annFull).state.visitorAt 1).OutputMessages = [] := by
  decide

/-- C4 (amended): the broadcast step sends to the members' mailboxes in
membership order with a blocking send.  For a room whose members are distinct
visitors and whose broadcast queue has `message` at its head, the step never
faults; it runs to its end exactly when no member's mailbox holds
`MaxVisitorBufferedMessages` lines; the members before the first one with a
full mailbox have `message` appended to their mailbox, and that member and all
members after it, like every other visitor, have their mailbox unchanged: the
step is stuck on the send to the full mailbox, nothing is dropped and nothing
is skipped.  The member lists are unchanged and the message has left the
room's queue. -/
theorem C4_broadcast_blocks_on_full_mailbox (cfg : Config) (r : Nat) (s : Server)
    (message : Bytes) (rest : List Bytes) (hm : (s.roomAt r).Messages = message :: rest)
    (hnd : (members s r).Nodup) :
    (messagesCase cfg r s).isFault = false
    ∧ ((messagesCase cfg r s).isDone = true ↔
        ∀ w ∈ members s r,
          (s.visitorAt w).OutputMessages.length < cfg.MaxVisitorBufferedMessages)
    ∧ (∀ w, ((messagesCase cfg r s).state.visitorAt w).OutputMessages
        = if w ∈ servedMembers cfg s r
          then (s.visitorAt w).OutputMessages ++ [message] else (s.visitorAt w).OutputMessages)
    ∧ (∀ w, w ∈ servedMembers cfg s r ↔
        ∃ pre post, members s r = pre ++ post ∧ w ∈ pre
          ∧ ∀ u ∈ pre, (s.visitorAt u).OutputMessages.length < cfg.MaxVisitorBufferedMessages)
    ∧ (∀ q, ((messagesCase cfg r s).state.roomAt q).Visitors = (s.roomAt q).Visitors)
    ∧ ((messagesCase cfg r s).state.roomAt r).Messages = rest := by
  obtain ⟨h1, h2, h3, h4, h5⟩ := messagesCase_spec cfg r s message rest hm hnd
  refine ⟨h1, ?_, h3, ?_, h4, h5⟩
  · rw [h2]
    simp [hasRoom]
  · intro w
    constructor
    · intro hw
      refine ⟨servedMembers cfg s r, (members s r).dropWhile (hasRoom cfg s), ?_, hw, ?_⟩
      · exact (List.takeWhile_append_dropWhile _ _).symm
      · intro u hu
        have := List.mem_takeWhile_imp hu
        simpa [hasRoom] using this
    · rintro ⟨pre, post, hsplit, hw, hpre⟩
      unfold servedMembers
      rw [hsplit, List.takeWhile_append_of_pos]
      · exact List.mem_append_left _ hw
      · intro u hu
        simpa [hasRoom] using hpre u hu

/-- C4 witness: the room `cave` of `annFull`, where Ann's mailbox is full. -/
theorem C4_broadcast_blocks_on_full_mailbox_witness :
    (messagesCase sampleConfig 1 annFull).isFault = false
    ∧ ((messagesCase sampleConfig 1 annFull).isDone = true ↔
        ∀ w ∈ members annFull 1,
          (annFull.visitorAt w).OutputMessages.length < sampleConfig.MaxVisitorBufferedMessages)
    ∧ ((messagesCase sampleConfig 1 annFull).state.roomAt 1).Messages = [] :=
  have h := C4_broadcast_blocks_on_full_mailbox sampleConfig 1 annFull
    (str "[12:00:00] Bob> hi\n\n") [] (by decide) (by decide)
  ⟨h.1, h.2.1, h.2.2.2.2.2⟩

/-- C2 (as stated, refuted): Ann and Bob are the members of the room `cave`,
their mailboxes are empty.  Ann's reader takes the line `hello` and forwards
it; the room handles the broadcast.  Bob's mailbox gets the line under Ann's
name, and so does Ann's own mailbox: the sender receives its own broadcast
through the room. -/
theorem C2_sender_receives_own_broadcast :
    members caveDrained 1 = [0, 1]
    ∧ (caveDrained.visitorAt 0).OutputMessages = []
    ∧ (caveDrained.visitorAt 1).OutputMessages = []
    ∧ (readIter sampleConfig noon 0 (helloReader, caveDrained)).isDone = true
    ∧ (messagesCase sampleConfig 1
        (readIter sampleConfig noon 0 (helloReader, caveDrained)).state.2).isDone = true
    ∧ ((messagesCase sampleConfig 1
        (readIter sampleConfig noon 0 (helloReader, caveDrained)).state.2).state.visitorAt 1).OutputMessages
      = [str "[12:00:00] Ann> hello\n\n"]
    ∧ ((messagesCase sampleConfig 1
        (readIter sampleConfig noon 0 (helloReader, caveDrained)).state.2).state.visitorAt 0).OutputMessages
      = [str "[12:00:00] Ann> hello\n\n"] := by
  decide

/-- C2 (amended): a chat line reaches every member of the room, the sender
included.  Visitor `v` is in the room `r`, which is not the lobby; its reader
takes a line `text` with its newline that is within the length limit and does
not start with `/`; the room's broadcast queue is empty and has a capacity,
its members are distinct and their mailboxes have room.  Then the reader's
turn puts `CreateMessage(v.Name, line)`, which is the time in brackets, `v`'s
name, `> `, the line as read and a newline, into the room's queue, and the
room's handling of it runs to its end and appends that message to the mailbox
of every member, in particular to the mailbox of `v` itself when `v` is a
member, and to no other mailbox. -/
theorem C2_broadcast_reaches_every_member (cfg : Config) (now : Bytes) (v r : Nat) (rd : Reader)
    (s : Server) (text more : Bytes)
    (hin : rd.input = text ++ newline :: more) (hno : newline ∉ text)
    (hlen : text.length < rd.LimitInputN)
    (hl : rd.inReadingLongMessage = false)
    (hwithin : tooLongCond cfg (text ++ [newline]) = some false)
    (hchat : HasPrefix (text ++ [newline]) (str "/") = false)
    (hgate : (s.visitorAt v).RoomChanged = true)
    (hwc : (s.visitorAt v).WriteClosed = false) (hcl : (s.visitorAt v).Closed = false)
    (hcur : (s.visitorAt v).CurrentRoom = some r) (hr : r ≠ s.Lobby)
    (hq : (s.roomAt r).Messages = []) (hcap : 0 < cfg.MaxRoomBufferedMessages)
    (hnd : (members s r).Nodup)
    (hrooms : ∀ w ∈ members s r,
      (s.visitorAt w).OutputMessages.length < cfg.MaxVisitorBufferedMessages) :
    readIter cfg now v (rd, s)
      = .done ({ rd with input := more },
          s.setRoom r fun x => { x with Messages := x.Messages
            ++ [CreateMessage now (s.visitorAt v).Name (text ++ [newline])] })
    ∧ CreateMessage now (s.visitorAt v).Name (text ++ [newline])
        = str "[" ++ now ++ str "] " ++ (s.visitorAt v).Name ++ str "> " ++ (text ++ [newline])
          ++ [newline]
    ∧ (messagesCase cfg r (readIter cfg now v (rd, s)).state.2).isDone = true
    ∧ (∀ w, ((messagesCase cfg r (readIter cfg now v (rd, s)).state.2).state.visitorAt w).OutputMessages
        = if w ∈ members s r
          then (s.visitorAt w).OutputMessages
            ++ [CreateMessage now (s.visitorAt v).Name (text ++ [newline])]
          else (s.visitorAt w).OutputMessages)
    ∧ (v ∈ members s r →
        ((messagesCase cfg r (readIter cfg now v (rd, s)).state.2).state.visitorAt v).OutputMessages
          = (s.visitorAt v).OutputMessages
            ++ [CreateMessage now (s.visitorAt v).Name (text ++ [newline])]) := by
  have h0 : readIter cfg now v (rd, s)
      = .done ({ rd with input := more },
          s.setRoom r fun x => { x with Messages := x.Messages
            ++ [CreateMessage now (s.visitorAt v).Name (text ++ [newline])] }) := by
    rw [readIter_line cfg now v rd s text more hin hno hlen hgate hwc hcl]
    unfold readLine
    simp only [hwithin, hl, Bool.false_eq_true, if_false]
    unfold readCommand
    simp only [hchat, Bool.false_eq_true, if_false]
    unfold readChat
    simp [hcur, hr, sendMessage, hq, hcap]
  have hmem : ∀ q, members (s.setRoom r fun x => { x with Messages := x.Messages
            ++ [CreateMessage now (s.visitorAt v).Name (text ++ [newline])] }) q = members s q := by
    intro q
    unfold members
    rw [sameLists_setRoom s r _ rfl q]
  have hspec := messagesCase_spec cfg r
    (s.setRoom r fun x => { x with Messages := x.Messages
            ++ [CreateMessage now (s.visitorAt v).Name (text ++ [newline])] })
    (CreateMessage now (s.visitorAt v).Name (text ++ [newline])) []
    (by simp [hq]) (by rw [hmem]; exact hnd)
  obtain ⟨_, h2, h3, _, _⟩ := hspec
  have hserved : servedMembers cfg (s.setRoom r fun x => { x with Messages := x.Messages
            ++ [CreateMessage now (s.visitorAt v).Name (text ++ [newline])] }) r = members s r := by
    unfold servedMembers
    rw [hmem, List.takeWhile_eq_self_iff]
    intro w hw
    simpa [hasRoom] using hrooms w hw
  have hall : ∀ w, ((messagesCase cfg r (readIter cfg now v (rd, s)).state.2).state.visitorAt w).OutputMessages
        = if w ∈ members s r
          then (s.visitorAt w).OutputMessages
            ++ [CreateMessage now (s.visitorAt v).Name (text ++ [newline])]
          else (s.visitorAt w).OutputMessages := by
    intro w
    rw [h0, Outcome.state_done]
    simp only
    rw [h3 w, hserved]
    rfl
  refine ⟨h0, ?_, ?_, hall, ?_⟩
  · simp [CreateMessage, str]
    rfl
  · rw [h0, Outcome.state_done]
    simp only
    rw [h2, hmem]
    intro w hw
    simpa [hasRoom] using hrooms w hw
  · intro hv
    rw [hall v, if_pos hv]

/-- C2 witness: Ann says `hello` in the room `cave`, where Bob is too. -/
theorem C2_broadcast_reaches_every_member_witness :
    (messagesCase sampleConfig 1
        (readIter sampleConfig noon 0 (helloReader, caveDrained)).state.2).isDone = true
    ∧ (0 ∈ members caveDrained 1 →
        ((messagesCase sampleConfig 1
          (readIter sampleConfig noon 0 (helloReader, caveDrained)).state.2).state.visitorAt 0).OutputMessages
          = (caveDrained.visitorAt 0).OutputMessages
            ++ [CreateMessage noon (caveDrained.visitorAt 0).Name (str "hello" ++ [newline])]) :=
  have h := C2_broadcast_reaches_every_member sampleConfig noon 0 1 helloReader caveDrained
    (str "hello") [] (by decide) (by decide) (by decide) (by decide) (by decide) (by decide)
    (by decide) (by decide) (by decide) (by decide) (by decide) (by decide) (by decide)
    (by decide) (by decide)
  ⟨h.2.2.1, h.2.2.2.2⟩

/-! ## One room change, step by step -/

theorem beginChangingRoom_done (cfg : Config) (v : Nat) (id : Bytes) (s : Server)
    (h : s.ChangeRoomRequests.length < cfg.MaxBufferedChangeRoomRequests) :
    beginChangingRoom cfg v id s
      = .done { ((s.setVisitor v fun x => { x with RoomChanged := false }).setVisitor v
          fun x => { x with NextRoomID := id }) with
          ChangeRoomRequests := s.ChangeRoomRequests ++ [v] } := by
  unfold beginChangingRoom sendChangeRoomRequest
  simp [h]

theorem changeRoomCase_leave (cfg : Config) (v r : Nat) (rest : List Nat) (s : Server)
    (hq : s.ChangeRoomRequests = v :: rest)
    (hcur : (s.visitorAt v).CurrentRoom = some r)
    (hspace : (s.roomAt r).VisitorLeaveRequests.length < cfg.MaxRoomCapacity) :
    changeRoomCase cfg s
      = .done (({ s with ChangeRoomRequests := rest } : Server).setRoom r
          fun x => { x with VisitorLeaveRequests := x.VisitorLeaveRequests ++ [v] }) := by
  unfold changeRoomCase
  rw [hq]
  simp only
  unfold changeRoom
  simp only [hcur]
  unfold sendLeaveRequest
  simp [hspace]

theorem leaveCase_member (cfg : Config) (now : Bytes) (v r : Nat) (e : Element)
    (rest : List Nat) (s : Server)
    (hq : (s.roomAt r).VisitorLeaveRequests = v :: rest)
    (hcur : (s.visitorAt v).CurrentRoom = some r)
    (helem : (s.visitorAt v).RoomElement = some e) (hv : e.Value = v)
    (hroom : (s.visitorAt v).OutputMessages.length < cfg.MaxVisitorBufferedMessages)
    (hspace : s.ChangeRoomRequests.length < cfg.MaxBufferedChangeRoomRequests) :
    leaveCase cfg now r s
      = .done { (((s.setRoom r fun x => { x with VisitorLeaveRequests := rest }).setRoom r
            fun x => { x with Visitors := x.Visitors.filter fun y => y.id != e.id }).setVisitor v
            fun x => { x with
              RoomElement := none, CurrentRoom := none
              OutputMessages := x.OutputMessages
                ++ [CreateMessage now (s.roomAt r).Name (str "<= you leaved this room.")] }) with
          ChangeRoomRequests := s.ChangeRoomRequests ++ [v] } := by
  unfold leaveCase
  rw [hq]
  simp only
  unfold leaveVisitor listRemove
  simp only [setRoom_visitorAt, hcur, helem, hv, ne_eq, not_true_eq_false, if_false]
  unfold sendOutput
  simp only [setVisitor_visitorAt_same, setRoom_visitorAt, hroom, if_true, Outcome.next_done]
  unfold sendChangeRoomRequest
  simp only [setVisitor_ChangeRoomRequests, setRoom_ChangeRoomRequests, hspace, if_true]
  congr 1
  simp [Server.setVisitor, Server.setRoom]

theorem changeRoomCase_enter (cfg : Config) (v q : Nat) (rest : List Nat) (s : Server)
    (hq : s.ChangeRoomRequests = v :: rest)
    (hcur : (s.visitorAt v).CurrentRoom = none)
    (hnext : (s.visitorAt v).NextRoomID ≠ cfg.VoidRoomID)
    (hroom : s.Rooms (cfg.ToLower (s.visitorAt v).NextRoomID) = some q)
    (hspace : (s.roomAt q).VisitorEnterRequests.length < cfg.MaxRoomCapacity) :
    changeRoomCase cfg s
      = .done (({ s with ChangeRoomRequests := rest } : Server).setRoom q
          fun x => { x with VisitorEnterRequests := x.VisitorEnterRequests ++ [v] }) := by
  unfold changeRoomCase
  rw [hq]
  simp only
  unfold changeRoom
  simp only [hcur, hnext, if_false, hroom]
  unfold sendEnterRequest
  simp [hspace]

theorem changeRoomCase_enter_new (cfg : Config) (v : Nat) (rest : List Nat) (s : Server)
    (hq : s.ChangeRoomRequests = v :: rest)
    (hcur : (s.visitorAt v).CurrentRoom = none)
    (hnext : (s.visitorAt v).NextRoomID ≠ cfg.VoidRoomID)
    (hroom : s.Rooms (cfg.ToLower (s.visitorAt v).NextRoomID) = none)
    (hcap : 0 < cfg.MaxRoomCapacity) :
    changeRoomCase cfg s
      = .done ((newRoom cfg (s.visitorAt v).NextRoomID
            ({ s with ChangeRoomRequests := rest } : Server)).2.setRoom s.numRooms
          fun x => { x with VisitorEnterRequests := x.VisitorEnterRequests ++ [v] }) := by
  unfold changeRoomCase
  rw [hq]
  simp only
  unfold changeRoom
  simp only [hcur, hnext, if_false, hroom]
  unfold sendEnterRequest newRoom createNewRoom
  simp [hcap]

theorem enterCase_below (cfg : Config) (now : Bytes) (r v : Nat) (rest : List Nat) (s : Server)
    (hq : (s.roomAt r).VisitorEnterRequests = v :: rest)
    (hbelow : (s.roomAt r).Visitors.length < cfg.MaxRoomCapacity)
    (hgate : (s.visitorAt v).RoomChanged = false)
    (hroom : (s.visitorAt v).OutputMessages.length < cfg.MaxVisitorBufferedMessages) :
    enterCase cfg now r s
      = .done { ((s.setRoom r fun x => { x with
              VisitorEnterRequests := rest
              Visitors := x.Visitors ++ [{ id := s.numElements, Value := v }] }).setVisitor v
            fun x => { x with
              CurrentRoom := some r
              RoomElement := some { id := s.numElements, Value := v }
              OutputMessages := x.OutputMessages
                ++ [CreateMessage now (s.roomAt r).Name (str "<= you entered this room.")]
              NextRoomID := cfg.VoidRoomID
              RoomChanged := true }) with
          numElements := s.numElements + 1 } := by
  unfold enterCase
  rw [hq]
  simp only [setRoom_roomAt_same, ge_iff_le]
  rw [if_neg (by omega)]
  unfold enterVisitor sendOutput
  simp only [setVisitor_visitorAt_same, setRoom_visitorAt, setVisitor_roomAt, setRoom_roomAt_same,
    setVisitor_numElements, setRoom_numElements, hroom, if_true, Outcome.next_done]
  unfold endChangingRoom closeRoomChanged
  simp only [setVisitor_visitorAt_same, setRoom_visitorAt, hgate, Bool.false_eq_true, if_false]
  congr 1
  simp [Server.setVisitor, Server.setRoom]

theorem enterCase_full (cfg : Config) (now : Bytes) (r v : Nat) (rest : List Nat) (s : Server)
    (hq : (s.roomAt r).VisitorEnterRequests = v :: rest)
    (hfull : cfg.MaxRoomCapacity ≤ (s.roomAt r).Visitors.length)
    (hgate : (s.visitorAt v).RoomChanged = false)
    (hroom : (s.visitorAt v).OutputMessages.length < cfg.MaxVisitorBufferedMessages) :
    enterCase cfg now r s
      = .done ((s.setRoom r fun x => { x with VisitorEnterRequests := rest }).setVisitor v
          fun x => { x with
            OutputMessages := x.OutputMessages
              ++ [CreateMessage now (s.roomAt r).Name (str "Sorry, I am full. :(")]
            NextRoomID := cfg.VoidRoomID
            RoomChanged := true }) := by
  unfold enterCase
  rw [hq]
  simp [sendOutput, endChangingRoom, closeRoomChanged, hfull, hroom, hgate, Server.setVisitor,
    Server.setRoom]

theorem newRoom_roomAt (cfg : Config) (id : Bytes) (s : Server) (p : Nat) :
    (newRoom cfg id s).2.roomAt p
      = if p = s.numRooms then
          { ID := id, Name := if id = cfg.LobbyRoomID then id else str "Room#" ++ id }
        else s.roomAt p := by
  show (Function.update s.roomAt s.numRooms _) p = _
  by_cases hp : p = s.numRooms
  · rw [hp, Function.update_same, if_pos rfl]
  · rw [Function.update_noteq hp, if_neg hp]

theorem newRoom_fields (cfg : Config) (id : Bytes) (s : Server) :
    (newRoom cfg id s).1 = s.numRooms
    ∧ (newRoom cfg id s).2.visitorAt = s.visitorAt
    ∧ (newRoom cfg id s).2.Rooms = mapSet s.Rooms (cfg.ToLower id) s.numRooms
    ∧ (newRoom cfg id s).2.numRooms = s.numRooms + 1
    ∧ (newRoom cfg id s).2.ChangeRoomRequests = s.ChangeRoomRequests
    ∧ (newRoom cfg id s).2.numVisitors = s.numVisitors
    ∧ (newRoom cfg id s).2.numElements = s.numElements
    ∧ (newRoom cfg id s).2.Lobby = s.Lobby :=
  ⟨rfl, rfl, rfl, rfl, rfl, rfl, rfl, rfl⟩

/-- The first three turns of a room change: dispatch, leave, dispatch. -/
theorem roomChange_three (cfg : Config) (now1 : Bytes) (v R : Nat) (e : Element) (T : Bytes)
    (s0 : Server)
    (hcur : (s0.visitorAt v).CurrentRoom = some R)
    (helem : (s0.visitorAt v).RoomElement = some e) (hv : e.Value = v)
    (hmem : e ∈ (s0.roomAt R).Visitors)
    (hone : ∀ q x, x ∈ (s0.roomAt q).Visitors → x.Value = v → q = R ∧ x = e)
    (hT : T ≠ cfg.VoidRoomID)
    (hcrr : s0.ChangeRoomRequests = [])
    (hleave : (s0.roomAt R).VisitorLeaveRequests = [])
    (henter : ∀ q, s0.Rooms (cfg.ToLower T) = some q → (s0.roomAt q).VisitorEnterRequests = [])
    (hR : R < s0.numRooms)
    (hcap1 : 0 < cfg.MaxBufferedChangeRoomRequests) (hcap2 : 0 < cfg.MaxRoomCapacity)
    (hmail : (s0.visitorAt v).OutputMessages.length + 2 ≤ cfg.MaxVisitorBufferedMessages) :
    ∃ sB s1 s2 s3,
      beginChangingRoom cfg v T s0 = .done sB
      ∧ changeRoomCase cfg sB = .done s1
      ∧ leaveCase cfg now1 R s1 = .done s2
      ∧ changeRoomCase cfg s2 = .done s3
      ∧ ((sB.visitorAt v).RoomChanged = false ∧ (sB.visitorAt v).NextRoomID = T
        ∧ (sB.visitorAt v).CurrentRoom = some R ∧ e ∈ (sB.roomAt R).Visitors)
      ∧ ((s1.visitorAt v).RoomChanged = false ∧ (s1.visitorAt v).NextRoomID = T
        ∧ (s1.visitorAt v).CurrentRoom = some R ∧ e ∈ (s1.roomAt R).Visitors)
      ∧ ((s2.visitorAt v).RoomChanged = false ∧ (s2.visitorAt v).NextRoomID = T
        ∧ (s2.visitorAt v).CurrentRoom = none ∧ (s2.visitorAt v).RoomElement = none
        ∧ ∀ q, v ∉ members s2 q)
      ∧ ((s3.visitorAt v).RoomChanged = false ∧ (s3.visitorAt v).NextRoomID = T
        ∧ (s3.visitorAt v).CurrentRoom = none ∧ (s3.visitorAt v).RoomElement = none
        ∧ ∀ q, v ∉ members s3 q)
      ∧ s3.Rooms (cfg.ToLower T) = some (targetRoom cfg s0 T)
      ∧ (s3.roomAt (targetRoom cfg s0 T)).VisitorEnterRequests = [v]
      ∧ (s3.visitorAt v).OutputMessages
          = (s0.visitorAt v).OutputMessages
            ++ [CreateMessage now1 (s0.roomAt R).Name (str "<= you leaved this room.")] := by
  -- after beginChangingRoom
  obtain ⟨sB, hsB, hB⟩ : ∃ sB, sB = _ ∧ beginChangingRoom cfg v T s0 = .done sB :=
    ⟨_, rfl, beginChangingRoom_done cfg v T s0 (by rw [hcrr]; exact hcap1)⟩
  have b1 : (sB.visitorAt v).RoomChanged = false := by rw [hsB]; simp
  have b2 : (sB.visitorAt v).NextRoomID = T := by rw [hsB]; simp
  have b3 : (sB.visitorAt v).CurrentRoom = some R := by rw [hsB]; simp [hcur]
  have b4 : (sB.visitorAt v).RoomElement = some e := by rw [hsB]; simp [helem]
  have b5 : sB.roomAt = s0.roomAt := by rw [hsB]; rfl
  have b6 : sB.ChangeRoomRequests = [v] := by rw [hsB]; simp [hcrr]
  have b7 : (sB.visitorAt v).OutputMessages = (s0.visitorAt v).OutputMessages := by rw [hsB]; simp
  have b8 : sB.Rooms = s0.Rooms ∧ sB.numRooms = s0.numRooms := by rw [hsB]; exact ⟨rfl, rfl⟩
  clear hsB
  -- the dispatch takes the leave branch
  obtain ⟨s1, hs1, h1⟩ : ∃ s1, s1 = _ ∧ changeRoomCase cfg sB = .done s1 :=
    ⟨_, rfl, changeRoomCase_leave cfg v R [] sB b6 b3 (by rw [b5, hleave]; exact hcap2)⟩
  have c0 : s1.visitorAt = sB.visitorAt := by rw [hs1]; rfl
  have c1 : ∀ q, (s1.roomAt q).Visitors = (s0.roomAt q).Visitors := by
    intro q; rw [hs1, ← b5]; exact sameLists_setRoom _ R _ rfl q
  have c2 : (s1.roomAt R).VisitorLeaveRequests = [v] := by rw [hs1]; simp [b5, hleave]
  have c3 : ∀ q, (s1.roomAt q).VisitorEnterRequests = (s0.roomAt q).VisitorEnterRequests := by
    intro q; rw [hs1, setRoom_roomAt, ← b5]
    by_cases hq : q = R <;> simp [hq]
  have c4 : (s1.roomAt R).Name = (s0.roomAt R).Name := by rw [hs1]; simp [b5]
  have c5 : s1.ChangeRoomRequests = [] := by rw [hs1]; rfl
  have c6 : s1.Rooms = s0.Rooms ∧ s1.numRooms = s0.numRooms := by rw [hs1]; exact b8
  clear hs1
  -- the room lets the visitor leave
  obtain ⟨s2, hs2, h2⟩ : ∃ s2, s2 = _ ∧ leaveCase cfg now1 R s1 = .done s2 :=
    ⟨_, rfl, leaveCase_member cfg now1 v R e [] s1 c2 (by rw [c0]; exact b3) (by rw [c0]; exact b4)
      hv (by rw [c0, b7]; omega) (by rw [c5]; exact hcap1)⟩
  have d1 : (s2.visitorAt v).RoomChanged = false := by rw [hs2]; simp [c0, b1]
  have d2 : (s2.visitorAt v).NextRoomID = T := by rw [hs2]; simp [c0, b2]
  have d3 : (s2.visitorAt v).CurrentRoom = none := by rw [hs2]; simp
  have d4 : (s2.visitorAt v).RoomElement = none := by rw [hs2]; simp
  have d5 : (s2.visitorAt v).OutputMessages = (s0.visitorAt v).OutputMessages
      ++ [CreateMessage now1 (s0.roomAt R).Name (str "<= you leaved this room.")] := by
    rw [hs2]; simp [c0, b7, c4]
  have d6 : ∀ q, (s2.roomAt q).Visitors
      = if q = R then (s0.roomAt R).Visitors.filter (fun y => y.id != e.id)
        else (s0.roomAt q).Visitors := by
    intro q
    rw [hs2]
    simp only [setVisitor_roomAt, setRoom_roomAt]
    by_cases hq : q = R
    · subst hq; simp [c1]
    · simp [hq, c1]
  have d7 : ∀ q, (s2.roomAt q).VisitorEnterRequests = (s0.roomAt q).VisitorEnterRequests := by
    intro q
    rw [hs2]
    simp only [setVisitor_roomAt, setRoom_roomAt]
    by_cases hq : q = R
    · subst hq; simp [c3]
    · simp [hq, c3]
  have d8 : s2.ChangeRoomRequests = [v] := by rw [hs2]; simp [c5]
  have d9 : s2.Rooms = s0.Rooms ∧ s2.numRooms = s0.numRooms := by rw [hs2]; exact c6
  clear hs2
  have d10 : ∀ q, v ∉ members s2 q := by
    intro q hq
    unfold members at hq
    rw [d6 q] at hq
    obtain ⟨x, hx, hxv⟩ := List.mem_map.mp hq
    by_cases hqR : q = R
    · rw [if_pos hqR] at hx
      obtain ⟨hx1, hx2⟩ := List.mem_filter.mp hx
      have := (hone R x hx1 hxv).2
      rw [this] at hx2
      simp at hx2
    · rw [if_neg hqR] at hx
      exact hqR (hone q x hx hxv).1
  -- the dispatch resolves or makes the target room
  have hnext : (s2.visitorAt v).NextRoomID ≠ cfg.VoidRoomID := by rw [d2]; exact hT
  cases hroom : s0.Rooms (cfg.ToLower T) with
  | some q =>
    have htq : targetRoom cfg s0 T = q := by simp [targetRoom, hroom]
    obtain ⟨s3, hs3, h3⟩ : ∃ s3, s3 = _ ∧ changeRoomCase cfg s2 = .done s3 :=
      ⟨_, rfl, changeRoomCase_enter cfg v q [] s2 d8 d3 hnext (by rw [d2, d9.1]; exact hroom)
        (by rw [d7, henter q hroom]; exact hcap2)⟩
    have e0 : s3.visitorAt = s2.visitorAt := by rw [hs3]; rfl
    have e1 : ∀ p, (s3.roomAt p).Visitors = (s2.roomAt p).Visitors := by
      intro p; rw [hs3]; exact sameLists_setRoom _ q _ rfl p
    have e2 : (s3.roomAt q).VisitorEnterRequests = [v] := by
      rw [hs3]; simp [d7, henter q hroom]
    have e3 : s3.Rooms = s0.Rooms := by rw [hs3]; exact d9.1
    clear hs3
    refine ⟨sB, s1, s2, s3, hB, h1, h2, h3, ⟨b1, b2, b3, by rw [b5]; exact hmem⟩,
      ⟨by rw [c0]; exact b1, by rw [c0]; exact b2, by rw [c0]; exact b3, by rw [c1]; exact hmem⟩,
      ⟨d1, d2, d3, d4, d10⟩,
      ⟨by rw [e0]; exact d1, by rw [e0]; exact d2, by rw [e0]; exact d3, by rw [e0]; exact d4, ?_⟩,
      by rw [e3, htq]; exact hroom, by rw [htq]; exact e2, by rw [e0]; exact d5⟩
    intro p hp
    unfold members at hp
    rw [e1 p] at hp
    exact d10 p hp
  | none =>
    have htq : targetRoom cfg s0 T = s0.numRooms := by simp [targetRoom, hroom]
    obtain ⟨s3, hs3, h3⟩ : ∃ s3, s3 = _ ∧ changeRoomCase cfg s2 = .done s3 :=
      ⟨_, rfl, changeRoomCase_enter_new cfg v [] s2 d8 d3 hnext (by rw [d2, d9.1]; exact hroom)
        hcap2⟩
    have e0 : s3.visitorAt = s2.visitorAt := by rw [hs3]; rfl
    have hn : s2.numRooms = s0.numRooms := d9.2
    have e1 : ∀ p, (s3.roomAt p).Visitors
        = if p = s0.numRooms then [] else (s2.roomAt p).Visitors := by
      intro p
      rw [hs3, sameLists_setRoom _ _ _ rfl p, newRoom_roomAt, hn]
      by_cases hp : p = s0.numRooms
      · simp [hp]
      · simp [hp]
    have e2 : (s3.roomAt s0.numRooms).VisitorEnterRequests = [v] := by
      rw [hs3, hn, setRoom_roomAt_same, newRoom_roomAt]
      simp [hn]
    have e3 : s3.Rooms (cfg.ToLower T) = some s0.numRooms := by
      rw [hs3, setRoom_Rooms, (newRoom_fields cfg _ _).2.2.1, d2]
      simp [mapSet, hn]
    clear hs3
    refine ⟨sB, s1, s2, s3, hB, h1, h2, h3, ⟨b1, b2, b3, by rw [b5]; exact hmem⟩,
      ⟨by rw [c0]; exact b1, by rw [c0]; exact b2, by rw [c0]; exact b3, by rw [c1]; exact hmem⟩,
      ⟨d1, d2, d3, d4, d10⟩,
      ⟨by rw [e0]; exact d1, by rw [e0]; exact d2, by rw [e0]; exact d3, by rw [e0]; exact d4, ?_⟩,
      by rw [htq]; exact e3, by rw [htq]; exact e2, by rw [e0]; exact d5⟩
    intro p hp
    unfold members at hp
    rw [e1 p] at hp
    by_cases hpn : p = s0.numRooms
    · simp [hpn] at hp
    · rw [if_neg hpn] at hp
      exact d10 p hp

theorem Outcome.next_pure {σ : Type} (o : Outcome σ) : (o.next fun x => Outcome.done x) = o := by
  cases o <;> rfl

/-- C3 (amended): one room change fires the gate exactly once, in the enter
case.  Visitor `v` is a member of room `R` through its one element `e`, and
calls `beginChangingRoom(T)` with `T` not the void id, while the request
queues involved are empty and have a capacity and `v`'s mailbox has room for
two notices.  Then the four turns (dispatch, `R`'s leave case, dispatch, the
enter case of the room `T` resolves to, made by the second dispatch when it did
not exist) all run to their end.  The gate is armed after `beginChangingRoom`
and after each of the first three turns, during which the target id stays `T`,
and is fired after the fourth: it is closed once, by the enter case.  Before
the leave case `v` is a member of `R`; after it `v` is in no room; when the
gate fires `v` is a member of the target room, as its last member, if that room
was below capacity, and of no room otherwise.  The target room may be `R`
itself, which `v` then has left and entered again. -/
theorem C3_gate_fired_once_by_enter (cfg : Config) (now1 now2 : Bytes) (v R : Nat) (e : Element)
    (T : Bytes) (s0 : Server)
    (hcur : (s0.visitorAt v).CurrentRoom = some R)
    (helem : (s0.visitorAt v).RoomElement = some e) (hv : e.Value = v)
    (hmem : e ∈ (s0.roomAt R).Visitors)
    (hone : ∀ q x, x ∈ (s0.roomAt q).Visitors → x.Value = v → q = R ∧ x = e)
    (hT : T ≠ cfg.VoidRoomID)
    (hcrr : s0.ChangeRoomRequests = [])
    (hleave : (s0.roomAt R).VisitorLeaveRequests = [])
    (henter : ∀ q, s0.Rooms (cfg.ToLower T) = some q → (s0.roomAt q).VisitorEnterRequests = [])
    (hR : R < s0.numRooms)
    (hcap1 : 0 < cfg.MaxBufferedChangeRoomRequests) (hcap2 : 0 < cfg.MaxRoomCapacity)
    (hmail : (s0.visitorAt v).OutputMessages.length + 2 ≤ cfg.MaxVisitorBufferedMessages) :
    (beginChangingRoom cfg v T s0).isDone = true
    ∧ (∀ k, k ≤ 4 → (changeRun cfg now1 now2 v R T s0 k).isDone = true)
    ∧ (∀ k, k < 4 → ((changeRun cfg now1 now2 v R T s0 k).state.visitorAt v).RoomChanged = false
        ∧ ((changeRun cfg now1 now2 v R T s0 k).state.visitorAt v).NextRoomID = T)
    ∧ ((changeRun cfg now1 now2 v R T s0 4).state.visitorAt v).RoomChanged = true
    ∧ (∀ k, k ≤ 1 →
        ((changeRun cfg now1 now2 v R T s0 k).state.visitorAt v).CurrentRoom = some R
        ∧ v ∈ members (changeRun cfg now1 now2 v R T s0 k).state R)
    ∧ (∀ k, 2 ≤ k → k ≤ 3 →
        ((changeRun cfg now1 now2 v R T s0 k).state.visitorAt v).CurrentRoom = none
        ∧ ∀ q, v ∉ members (changeRun cfg now1 now2 v R T s0 k).state q)
    ∧ (changeRun cfg now1 now2 v R T s0 3).state.Rooms (cfg.ToLower T)
        = some (targetRoom cfg s0 T)
    ∧ (if ((changeRun cfg now1 now2 v R T s0 3).state.roomAt (targetRoom cfg s0 T)).Visitors.length
          < cfg.MaxRoomCapacity then
        ((changeRun cfg now1 now2 v R T s0 4).state.visitorAt v).CurrentRoom
          = some (targetRoom cfg s0 T)
        ∧ members (changeRun cfg now1 now2 v R T s0 4).state (targetRoom cfg s0 T)
          = members (changeRun cfg now1 now2 v R T s0 3).state (targetRoom cfg s0 T) ++ [v]
        ∧ ∀ q, q ≠ targetRoom cfg s0 T → v ∉ members (changeRun cfg now1 now2 v R T s0 4).state q
      else
        ((changeRun cfg now1 now2 v R T s0 4).state.visitorAt v).CurrentRoom = none
        ∧ ∀ q, v ∉ members (changeRun cfg now1 now2 v R T s0 4).state q) := by
  obtain ⟨sB, s1, s2, s3, hB, h1, h2, h3, ⟨b1, b2, b3, b4⟩, ⟨c1, c2, c3, c4⟩,
    ⟨d1, d2, d3, _, d5⟩, ⟨e1, e2, e3, _, e5⟩, f1, f2, f3⟩ :=
    roomChange_three cfg now1 v R e T s0 hcur helem hv hmem hone hT hcrr hleave henter hR
      hcap1 hcap2 hmail
  have hvm : ∀ s : Server, e ∈ (s.roomAt R).Visitors → v ∈ members s R := by
    intro s h
    exact List.mem_map.mpr ⟨e, h, hv⟩
  have r0 : changeRun cfg now1 now2 v R T s0 0 = .done sB := by
    simp [changeRun, roomChange, runEvents, hB]
  have r1 : changeRun cfg now1 now2 v R T s0 1 = .done s1 := by
    simp [changeRun, roomChange, runEvents, Event.apply, hB, h1]
  have r2 : changeRun cfg now1 now2 v R T s0 2 = .done s2 := by
    simp [changeRun, roomChange, runEvents, Event.apply, hB, h1, h2]
  have r3 : changeRun cfg now1 now2 v R T s0 3 = .done s3 := by
    simp [changeRun, roomChange, runEvents, Event.apply, hB, h1, h2, h3]
  have r4 : changeRun cfg now1 now2 v R T s0 4 = enterCase cfg now2 (targetRoom cfg s0 T) s3 := by
    simp [changeRun, roomChange, runEvents, Event.apply, hB, h1, h2, h3, Outcome.next_pure]
  have hroom3 : (s3.visitorAt v).OutputMessages.length < cfg.MaxVisitorBufferedMessages := by
    rw [f3]; simp; omega
  rw [r3, r4]
  simp only [Outcome.state_done]
  by_cases hbelow : (s3.roomAt (targetRoom cfg s0 T)).Visitors.length < cfg.MaxRoomCapacity
  · -- the target room takes the visitor in
    obtain ⟨s4, hs4, h4⟩ : ∃ s4, s4 = _ ∧ enterCase cfg now2 (targetRoom cfg s0 T) s3 = .done s4 :=
      ⟨_, rfl, enterCase_below cfg now2 (targetRoom cfg s0 T) v [] s3 f2 hbelow e1 hroom3⟩
    have g1 : (s4.visitorAt v).RoomChanged = true := by rw [hs4]; simp
    have g2 : (s4.visitorAt v).CurrentRoom = some (targetRoom cfg s0 T) := by rw [hs4]; simp
    have g3 : ∀ q, (s4.roomAt q).Visitors
        = if q = targetRoom cfg s0 T then (s3.roomAt q).Visitors ++ [⟨s3.numElements, v⟩]
          else (s3.roomAt q).Visitors := by
      intro q
      rw [hs4]
      simp only [setVisitor_roomAt, setRoom_roomAt]
      by_cases hq : q = targetRoom cfg s0 T
      · subst hq; simp
      · simp [hq]
    clear hs4
    rw [h4] at r4
    rw [h4, if_pos hbelow]
    simp only [Outcome.state_done]
    refine ⟨by rw [hB]; rfl, ?_, ?_, g1, ?_, ?_, f1, g2, ?_, ?_⟩
    · intro k hk
      interval_cases k
      · rw [r0]; rfl
      · rw [r1]; rfl
      · rw [r2]; rfl
      · rw [r3]; rfl
      · rw [r4]; rfl
    · intro k hk
      interval_cases k
      · rw [r0]; exact ⟨b1, b2⟩
      · rw [r1]; exact ⟨c1, c2⟩
      · rw [r2]; exact ⟨d1, d2⟩
      · rw [r3]; exact ⟨e1, e2⟩
    · intro k hk
      interval_cases k
      · rw [r0]; exact ⟨b3, hvm _ b4⟩
      · rw [r1]; exact ⟨c3, hvm _ c4⟩
    · intro k hk1 hk2
      interval_cases k
      · rw [r2]; exact ⟨d3, d5⟩
      · rw [r3]; exact ⟨e3, e5⟩
    · unfold members
      rw [g3, if_pos rfl]
      simp
    · intro q hq hmq
      unfold members at hmq
      rw [g3, if_neg hq] at hmq
      exact e5 q hmq
  · -- the target room is full
    obtain ⟨s4, hs4, h4⟩ : ∃ s4, s4 = _ ∧ enterCase cfg now2 (targetRoom cfg s0 T) s3 = .done s4 :=
      ⟨_, rfl, enterCase_full cfg now2 (targetRoom cfg s0 T) v [] s3 f2 (by omega) e1 hroom3⟩
    have g1 : (s4.visitorAt v).RoomChanged = true := by rw [hs4]; simp
    have g2 : (s4.visitorAt v).CurrentRoom = none := by rw [hs4]; simp [e3]
    have g3 : ∀ q, (s4.roomAt q).Visitors = (s3.roomAt q).Visitors := by
      intro q
      rw [hs4]
      simp only [setVisitor_roomAt]
      exact sameLists_setRoom _ _ _ rfl q
    clear hs4
    rw [h4] at r4
    rw [h4, if_neg hbelow]
    simp only [Outcome.state_done]
    refine ⟨by rw [hB]; rfl, ?_, ?_, g1, ?_, ?_, f1, g2, ?_⟩
    · intro k hk
      interval_cases k
      · rw [r0]; rfl
      · rw [r1]; rfl
      · rw [r2]; rfl
      · rw [r3]; rfl
      · rw [r4]; rfl
    · intro k hk
      interval_cases k
      · rw [r0]; exact ⟨b1, b2⟩
      · rw [r1]; exact ⟨c1, c2⟩
      · rw [r2]; exact ⟨d1, d2⟩
      · rw [r3]; exact ⟨e1, e2⟩
    · intro k hk
      interval_cases k
      · rw [r0]; exact ⟨b3, hvm _ b4⟩
      · rw [r1]; exact ⟨c3, hvm _ c4⟩
    · intro k hk1 hk2
      interval_cases k
      · rw [r2]; exact ⟨d3, d5⟩
      · rw [r3]; exact ⟨e3, e5⟩
    · intro q hmq
      unfold members at hmq
      rw [g3] at hmq
      exact e5 q hmq

/-! ## The invariant: membership -/

theorem Core.Members.of_eq {c d : Core} (h : c.Members) (h1 : d.lists = c.lists)
    (h2 : d.cur = c.cur) (h3 : d.elem = c.elem) (h4 : d.nE = c.nE) (h5 : d.nV = c.nV)
    (h6 : d.nR = c.nR) : d.Members := by
  constructor
  · rw [h1, h2, h3]; exact h.mem_cur
  · rw [h1, h2, h3]; exact h.cur_mem
  · rw [h2, h3]; exact h.cur_none
  · rw [h1]; exact h.nodup
  · rw [h1, h4]; exact h.ids_lt
  · rw [h1, h5]; exact h.vals_lt
  · rw [h1, h6]; exact h.lists_alloc

theorem Core.Members.after_pop {c : Core} (h : c.Members) (l : Loc) : (c.pop l).Members :=
  h.of_eq rfl rfl rfl rfl rfl rfl

theorem Core.Members.after_push {c : Core} (h : c.Members) (l : Loc) (v : Nat) : (c.push l v).Members :=
  h.of_eq rfl rfl rfl rfl rfl rfl

theorem Core.Members.after_arm {c : Core} (h : c.Members) (v : Nat) (id : Bytes) : (c.arm v id).Members :=
  h.of_eq rfl rfl rfl rfl rfl rfl

theorem Core.Members.after_fire {c : Core} (h : c.Members) (void : Bytes) (v : Nat) :
    (c.fire void v).Members :=
  h.of_eq rfl rfl rfl rfl rfl rfl

theorem Core.Members.after_setRc {c : Core} (h : c.Members) (v : Nat) : (c.setRc v).Members :=
  h.of_eq rfl rfl rfl rfl rfl rfl

theorem Core.Members.after_setClosed {c : Core} (h : c.Members) (v : Nat) : (c.setClosed v).Members :=
  h.of_eq rfl rfl rfl rfl rfl rfl

theorem Core.Members.after_enterV {c : Core} (h : c.Members) (r v : Nat) (hcur : c.cur v = none)
    (hv : v < c.nV) (hr : r < c.nR) : (c.enterV r v).Members := by
  have hnot : ∀ q x, x ∈ c.lists q → x.Value ≠ v := by
    intro q x hx hxv
    have := (h.mem_cur q x hx).1
    rw [hxv, hcur] at this
    exact Option.noConfusion this
  have hlist : ∀ q x, x ∈ (c.enterV r v).lists q →
      (x ∈ c.lists q) ∨ (q = r ∧ x = ⟨c.nE, v⟩) := by
    intro q x hx
    simp only [Core.enterV] at hx
    by_cases hq : q = r
    · subst hq
      rw [Function.update_same, List.mem_append, List.mem_singleton] at hx
      rcases hx with hx | hx
      · exact Or.inl hx
      · exact Or.inr ⟨rfl, hx⟩
    · rw [Function.update_noteq hq] at hx
      exact Or.inl hx
  constructor
  · intro q x hx
    rcases hlist q x hx with hx1 | ⟨hq, hxe⟩
    · have hne := hnot q x hx1
      simp only [Core.enterV, Function.update_noteq hne]
      exact h.mem_cur q x hx1
    · subst hq; rw [hxe]
      simp [Core.enterV]
  · intro u q hu
    simp only [Core.enterV] at hu ⊢
    by_cases huv : u = v
    · subst huv
      rw [Function.update_same] at hu
      have hq : q = r := (Option.some.inj hu).symm
      subst hq
      exact ⟨⟨c.nE, u⟩, by simp, by simp, rfl⟩
    · rw [Function.update_noteq huv] at hu
      obtain ⟨x, hx1, hx2, hx3⟩ := h.cur_mem u q hu
      refine ⟨x, by rw [Function.update_noteq huv]; exact hx1, ?_, hx3⟩
      by_cases hq : q = r
      · subst hq; rw [Function.update_same]; exact List.mem_append_left _ hx2
      · rw [Function.update_noteq hq]; exact hx2
  · intro u hu
    simp only [Core.enterV] at hu ⊢
    by_cases huv : u = v
    · subst huv; rw [Function.update_same] at hu; exact Option.noConfusion hu
    · rw [Function.update_noteq huv] at hu ⊢
      exact h.cur_none u hu
  · intro q
    simp only [Core.enterV]
    by_cases hq : q = r
    · subst hq
      rw [Function.update_same, List.map_append, List.nodup_append]
      refine ⟨h.nodup q, by simp, ?_⟩
      intro a ha hb
      simp only [List.map_cons, List.map_nil, List.mem_singleton] at hb
      obtain ⟨x, hx, hxa⟩ := List.mem_map.mp ha
      have := h.ids_lt q x hx
      omega
    · rw [Function.update_noteq hq]; exact h.nodup q
  · intro q x hx
    rcases hlist q x hx with hx1 | ⟨_, hxe⟩
    · have := h.ids_lt q x hx1
      simp only [Core.enterV]; omega
    · rw [hxe]; simp [Core.enterV]
  · intro q x hx
    rcases hlist q x hx with hx1 | ⟨_, hxe⟩
    · exact h.vals_lt q x hx1
    · rw [hxe]; exact hv
  · intro q hq
    simp only [Core.enterV] at hq ⊢
    have : q ≠ r := by omega
    rw [Function.update_noteq this]
    exact h.lists_alloc q hq

theorem Core.Members.after_leaveV {c : Core} (h : c.Members) (r v : Nat) : (c.leaveV r v).Members := by
  unfold Core.leaveV
  cases he : c.elem v with
  | none => exact h
  | some e =>
    cases hc : c.cur v with
    | none => exact h
    | some cur =>
      simp only
      by_cases hcr : cur ≠ r
      · rw [if_pos hcr]; exact h
      · rw [if_neg hcr]
        have hcr' : cur = r := by simpa using hcr
        subst hcr'
        obtain ⟨x, hx1, hx2, hx3⟩ := h.cur_mem v cur hc
        rw [he] at hx1
        have hxe : x = e := (Option.some.inj hx1).symm
        subst hxe
        rw [if_neg (by simp [hx3])]
        -- elements that stay
        have hstay : ∀ q y, y ∈ (Function.update c.lists cur
            ((c.lists cur).filter fun y => y.id != x.id)) q → y ∈ c.lists q ∧ y.Value ≠ v := by
          intro q y hy
          by_cases hq : q = cur
          · subst hq
            rw [Function.update_same] at hy
            obtain ⟨hy1, hy2⟩ := List.mem_filter.mp hy
            refine ⟨hy1, fun hyv => ?_⟩
            have := (h.mem_cur q y hy1).2
            rw [hyv, he] at this
            have hyx : x = y := Option.some.inj this
            subst hyx
            simp at hy2
          · rw [Function.update_noteq hq] at hy
            refine ⟨hy, fun hyv => ?_⟩
            have := (h.mem_cur q y hy).1
            rw [hyv, hc] at this
            exact hq (Option.some.inj this).symm
        constructor
        · intro q y hy
          obtain ⟨hy1, hy2⟩ := hstay q y hy
          simp only [Function.update_noteq hy2]
          exact h.mem_cur q y hy1
        · intro u q hu
          simp only at hu ⊢
          by_cases huv : u = v
          · subst huv; rw [Function.update_same] at hu; exact Option.noConfusion hu
          · rw [Function.update_noteq huv] at hu
            obtain ⟨y, hy1, hy2, hy3⟩ := h.cur_mem u q hu
            refine ⟨y, by rw [Function.update_noteq huv]; exact hy1, ?_, hy3⟩
            by_cases hq : q = cur
            · subst hq
              rw [Function.update_same]
              refine List.mem_filter.mpr ⟨hy2, ?_⟩
              simp only [bne_iff_ne, ne_eq]
              intro hid
              have hinj := List.inj_on_of_nodup_map (h.nodup q) hy2 hx2 hid
              rw [hinj, hx3] at hy3
              exact huv hy3.symm
            · rw [Function.update_noteq hq]; exact hy2
        · intro u hu
          simp only at hu ⊢
          by_cases huv : u = v
          · subst huv; rw [Function.update_same]
          · rw [Function.update_noteq huv] at hu ⊢
            exact h.cur_none u hu
        · intro q
          simp only
          by_cases hq : q = cur
          · subst hq
            rw [Function.update_same]
            exact (h.nodup q).sublist ((List.filter_sublist _).map _)
          · rw [Function.update_noteq hq]; exact h.nodup q
        · intro q y hy
          exact h.ids_lt q y (hstay q y hy).1
        · intro q y hy
          exact h.vals_lt q y (hstay q y hy).1
        · intro q hq
          simp only
          by_cases hqc : q = cur
          · subst hqc
            rw [Function.update_same, h.lists_alloc q hq]
            rfl
          · rw [Function.update_noteq hqc]; exact h.lists_alloc q hq

theorem Core.Members.after_newRoom {c : Core} (h : c.Members) (key : Bytes) :
    (c.newRoom key).Members := by
  have hl : (c.newRoom key).lists = c.lists := by
    simp only [Core.newRoom]
    funext q
    by_cases hq : q = c.nR
    · subst hq; rw [Function.update_same, h.lists_alloc _ (le_refl _)]
    · rw [Function.update_noteq hq]
  constructor
  · rw [hl]; exact h.mem_cur
  · rw [hl]; exact h.cur_mem
  · exact h.cur_none
  · rw [hl]; exact h.nodup
  · rw [hl]; exact h.ids_lt
  · rw [hl]; exact h.vals_lt
  · rw [hl]; intro q hq
    exact h.lists_alloc q (by simp only [Core.newRoom] at hq; omega)

theorem Core.Members.after_newVisitor {c : Core} (h : c.Members) (void : Bytes) :
    (c.newVisitor void).Members := by
  constructor
  · intro q x hx
    have hlt := h.vals_lt q x hx
    have hne : x.Value ≠ c.nV := by omega
    simp only [Core.newVisitor, Function.update_noteq hne]
    exact h.mem_cur q x hx
  · intro u q hu
    simp only [Core.newVisitor] at hu ⊢
    by_cases huv : u = c.nV
    · subst huv; rw [Function.update_same] at hu; exact Option.noConfusion hu
    · rw [Function.update_noteq huv] at hu ⊢
      exact h.cur_mem u q hu
  · intro u hu
    simp only [Core.newVisitor] at hu ⊢
    by_cases huv : u = c.nV
    · subst huv; rw [Function.update_same]
    · rw [Function.update_noteq huv] at hu ⊢
      exact h.cur_none u hu
  · exact h.nodup
  · exact h.ids_lt
  · intro q x hx
    have := h.vals_lt q x hx
    simp only [Core.newVisitor]; omega
  · exact h.lists_alloc

/-! ## The invariant: requests -/

theorem Core.mem_pop {c : Core} {l l' : Loc} {u : Nat} (h : u ∈ (c.pop l).queue l') :
    u ∈ c.queue l' := by
  simp only [Core.pop] at h
  by_cases hl : l' = l
  · subst hl
    rw [Function.update_same] at h
    exact List.mem_of_mem_tail h
  · rw [Function.update_noteq hl] at h; exact h

theorem Core.pop_sublist (c : Core) (l l' : Loc) : List.Sublist ((c.pop l).queue l') (c.queue l') := by
  simp only [Core.pop]
  by_cases hl : l' = l
  · subst hl
    rw [Function.update_same]
    exact List.tail_sublist _
  · rw [Function.update_noteq hl]

theorem Core.mem_push {c : Core} {l l' : Loc} {u v : Nat} :
    u ∈ (c.push l v).queue l' ↔ u ∈ c.queue l' ∨ (l' = l ∧ u = v) := by
  simp only [Core.push]
  by_cases hl : l' = l
  · subst hl
    rw [Function.update_same, List.mem_append, List.mem_singleton]
    simp
  · rw [Function.update_noteq hl]
    simp [hl]

theorem Core.Tokens.pop {c : Core} {void : Bytes} (h : c.Tokens void) (l : Loc) :
    (c.pop l).Tokens void := by
  constructor
  · intro l' u hu; exact h.q_lt l' u (Core.mem_pop hu)
  · intro r hr
    have := h.q_alloc r hr
    constructor
    · exact List.eq_nil_of_sublist_nil (this.1 ▸ c.pop_sublist l (.leave r))
    · exact List.eq_nil_of_sublist_nil (this.2 ▸ c.pop_sublist l (.enter r))
  · intro r; exact (h.enter_nodup r).sublist (c.pop_sublist l _)
  · intro u r r' h1 h2; exact h.enter_unique u r r' (Core.mem_pop h1) (Core.mem_pop h2)
  · intro u r h1; exact h.enter_cur u r (Core.mem_pop h1)
  · intro u hu l1 l2 h1 h2; exact h.open_unique u hu l1 l2 (Core.mem_pop h1) (Core.mem_pop h2)
  · intro u hu l'
    exact le_trans ((c.pop_sublist l l').count_le u) (h.open_count u hu l')
  · intro u hu hg l' hm; exact h.gate_open u hu hg l' (Core.mem_pop hm)
  · exact h.closed_next
  · exact h.rooms_lt

/-- After the receive of an open visitor's request the visitor is in no queue. -/
theorem Core.Tokens.pop_noToken {c : Core} {void : Bytes} (h : c.Tokens void) (l : Loc)
    (v : Nat) (rest : List Nat) (hq : c.queue l = v :: rest) (hopen : c.closed v = false) :
    (c.pop l).NoToken v := by
  intro l' hm
  have hin : v ∈ c.queue l := by rw [hq]; exact List.mem_cons_self _ _
  have hl : l' = l := h.open_unique v hopen l' l (Core.mem_pop hm) hin
  subst hl
  simp only [Core.pop, Function.update_same, hq, List.tail_cons] at hm
  have hc := h.open_count v hopen l'
  rw [hq, List.count_cons_self] at hc
  have : 0 < rest.count v := List.count_pos_iff.mpr hm
  omega

/-- After the receive of an enter request the visitor is in no enter queue. -/
theorem Core.Tokens.pop_noEnter {c : Core} {void : Bytes} (h : c.Tokens void) (r : Nat)
    (v : Nat) (rest : List Nat) (hq : c.queue (.enter r) = v :: rest) :
    (c.pop (.enter r)).NoEnter v := by
  intro r' hm
  have hin : v ∈ c.queue (.enter r) := by rw [hq]; exact List.mem_cons_self _ _
  have hr : r' = r := h.enter_unique v r' r (Core.mem_pop hm) hin
  subst hr
  simp only [Core.pop, Function.update_same, hq, List.tail_cons] at hm
  have hn := h.enter_nodup r'
  rw [hq, List.nodup_cons] at hn
  exact hn.1 hm

theorem Core.NoToken.noEnter {c : Core} {v : Nat} (h : c.NoToken v) : c.NoEnter v :=
  fun r => h (.enter r)

theorem Core.Tokens.push {c : Core} {void : Bytes} (h : c.Tokens void) (l : Loc) (v : Nat)
    (hv : v < c.nV)
    (hl : ∀ r, l = .leave r ∨ l = .enter r → r < c.nR)
    (hopen : c.closed v = false → c.NoToken v ∧ c.gate v = false)
    (henter : ∀ r, l = .enter r → c.NoEnter v ∧ c.cur v = none) :
    (c.push l v).Tokens void := by
  constructor
  · intro l' u hu
    rcases Core.mem_push.mp hu with h1 | ⟨_, h1⟩
    · exact h.q_lt l' u h1
    · rw [h1]; exact hv
  · intro r hr
    have hne1 : Loc.leave r ≠ l := fun he => absurd (hl r (Or.inl he.symm)) (by simp only [Core.push] at hr; omega)
    have hne2 : Loc.enter r ≠ l := fun he => absurd (hl r (Or.inr he.symm)) (by simp only [Core.push] at hr; omega)
    simp only [Core.push, Function.update_noteq hne1, Function.update_noteq hne2]
    exact h.q_alloc r hr
  · intro r
    simp only [Core.push]
    by_cases hr : Loc.enter r = l
    · rw [← hr, Function.update_same]
      rw [List.nodup_append]
      refine ⟨h.enter_nodup r, by simp, ?_⟩
      intro a ha hb
      rw [List.mem_singleton] at hb
      rw [hb] at ha
      exact (henter r hr.symm).1 r ha
    · rw [Function.update_noteq hr]; exact h.enter_nodup r
  · intro u r r' h1 h2
    rcases Core.mem_push.mp h1 with a1 | ⟨a1, a2⟩
    · rcases Core.mem_push.mp h2 with b1 | ⟨b1, b2⟩
      · exact h.enter_unique u r r' a1 b1
      · rw [b2] at a1
        exact absurd a1 ((henter r' b1.symm).1 r)
    · rcases Core.mem_push.mp h2 with b1 | ⟨b1, _⟩
      · rw [a2] at b1
        exact absurd b1 ((henter r a1.symm).1 r')
      · have := a1.trans b1.symm
        exact Loc.enter.inj this
  · intro u r h1
    rcases Core.mem_push.mp h1 with a1 | ⟨a1, a2⟩
    · exact h.enter_cur u r a1
    · rw [a2]; exact (henter r a1.symm).2
  · intro u hu l1 l2 h1 h2
    rcases Core.mem_push.mp h1 with a1 | ⟨a1, a2⟩
    · rcases Core.mem_push.mp h2 with b1 | ⟨b1, b2⟩
      · exact h.open_unique u hu l1 l2 a1 b1
      · rw [b2] at a1 hu
        exact absurd a1 ((hopen hu).1 l1)
    · rcases Core.mem_push.mp h2 with b1 | ⟨b1, _⟩
      · rw [a2] at b1 hu
        exact absurd b1 ((hopen hu).1 l2)
      · exact a1.trans b1.symm
  · intro u hu l'
    simp only [Core.push]
    by_cases hll : l' = l
    · subst hll
      rw [Function.update_same, List.count_append]
      by_cases huv : u = v
      · subst huv
        have : (c.queue l').count u = 0 := List.count_eq_zero_of_not_mem ((hopen hu).1 l')
        simp [this]
      · have := h.open_count u hu l'
        have h0 : List.count u [v] = 0 := List.count_eq_zero_of_not_mem (by simp [huv])
        omega
    · rw [Function.update_noteq hll]; exact h.open_count u hu l'
  · intro u hu hg l' hm
    rcases Core.mem_push.mp hm with a1 | ⟨_, a2⟩
    · exact h.gate_open u hu hg l' a1
    · rw [a2] at hu hg
      have := (hopen hu).2
      simp only [Core.push] at hg
      rw [this] at hg
      exact Bool.noConfusion hg
  · exact h.closed_next
  · exact h.rooms_lt

theorem Core.Tokens.arm {c : Core} {void : Bytes} (h : c.Tokens void) (v : Nat) (id : Bytes)
    (hopen : c.closed v = false) : (c.arm v id).Tokens void := by
  constructor
  · exact h.q_lt
  · exact h.q_alloc
  · exact h.enter_nodup
  · exact h.enter_unique
  · exact h.enter_cur
  · exact h.open_unique
  · exact h.open_count
  · intro u hu hg
    simp only [Core.arm] at hu hg
    by_cases huv : u = v
    · subst huv; rw [Function.update_same] at hg; exact Bool.noConfusion hg
    · rw [Function.update_noteq huv] at hg
      exact h.gate_open u hu hg
  · intro u hu
    simp only [Core.arm] at hu ⊢
    have huv : u ≠ v := by
      intro he; rw [he, hopen] at hu; exact Bool.noConfusion hu
    rw [Function.update_noteq huv]
    exact h.closed_next u hu
  · exact h.rooms_lt

theorem Core.Tokens.fire {c : Core} {void : Bytes} (h : c.Tokens void) (v : Nat)
    (hopen : c.closed v = false → c.NoToken v) : (c.fire void v).Tokens void := by
  constructor
  · exact h.q_lt
  · exact h.q_alloc
  · exact h.enter_nodup
  · exact h.enter_unique
  · exact h.enter_cur
  · exact h.open_unique
  · exact h.open_count
  · intro u hu hg
    simp only [Core.fire] at hu hg
    by_cases huv : u = v
    · subst huv; exact hopen hu
    · rw [Function.update_noteq huv] at hg
      exact h.gate_open u hu hg
  · intro u hu
    simp only [Core.fire] at hu ⊢
    by_cases huv : u = v
    · subst huv; rw [Function.update_same]; exact ⟨rfl, (h.closed_next u hu).2⟩
    · rw [Function.update_noteq huv]; exact h.closed_next u hu
  · exact h.rooms_lt

theorem Core.Tokens.setRc {c : Core} {void : Bytes} (h : c.Tokens void) (v : Nat) :
    (c.setRc v).Tokens void := by
  constructor
  · exact h.q_lt
  · exact h.q_alloc
  · exact h.enter_nodup
  · exact h.enter_unique
  · exact h.enter_cur
  · exact h.open_unique
  · exact h.open_count
  · exact h.gate_open
  · intro u hu
    simp only [Core.setRc] at hu ⊢
    refine ⟨(h.closed_next u hu).1, ?_⟩
    by_cases huv : u = v
    · subst huv; rw [Function.update_same]
    · rw [Function.update_noteq huv]; exact (h.closed_next u hu).2
  · exact h.rooms_lt

/-- The effect of `Visitor.run` past its waits: `Closed` is closed and the
gate armed for the void id. -/
theorem Core.Tokens.close {c : Core} {void : Bytes} (h : c.Tokens void) (v : Nat)
    (hrc : c.rc v = true) : ((c.setClosed v).arm v void).Tokens void := by
  have hcl : ∀ u, ((c.setClosed v).arm v void).closed u = false → u ≠ v ∧ c.closed u = false := by
    intro u hu
    simp only [Core.arm, Core.setClosed] at hu
    by_cases huv : u = v
    · subst huv; rw [Function.update_same] at hu; exact Bool.noConfusion hu
    · rw [Function.update_noteq huv] at hu; exact ⟨huv, hu⟩
  constructor
  · exact h.q_lt
  · exact h.q_alloc
  · exact h.enter_nodup
  · exact h.enter_unique
  · exact h.enter_cur
  · intro u hu; exact h.open_unique u (hcl u hu).2
  · intro u hu; exact h.open_count u (hcl u hu).2
  · intro u hu hg
    obtain ⟨huv, hu'⟩ := hcl u hu
    simp only [Core.arm, Core.setClosed, Function.update_noteq huv] at hg
    exact h.gate_open u hu' hg
  · intro u hu
    simp only [Core.arm, Core.setClosed] at hu ⊢
    by_cases huv : u = v
    · subst huv; rw [Function.update_same]; exact ⟨rfl, hrc⟩
    · rw [Function.update_noteq huv] at hu ⊢
      exact h.closed_next u hu
  · exact h.rooms_lt

theorem Core.Tokens.enterV {c : Core} {void : Bytes} (h : c.Tokens void) (r v : Nat)
    (hno : c.NoEnter v) : (c.enterV r v).Tokens void := by
  constructor
  · exact h.q_lt
  · exact h.q_alloc
  · exact h.enter_nodup
  · exact h.enter_unique
  · intro u q hu
    have huv : u ≠ v := fun he => hno q (he ▸ hu)
    simp only [Core.enterV, Function.update_noteq huv]
    exact h.enter_cur u q hu
  · exact h.open_unique
  · exact h.open_count
  · exact h.gate_open
  · exact h.closed_next
  · exact h.rooms_lt

theorem Core.leaveV_fields (c : Core) (r v : Nat) :
    (c.leaveV r v).queue = c.queue ∧ (c.leaveV r v).next = c.next
    ∧ (c.leaveV r v).gate = c.gate ∧ (c.leaveV r v).rc = c.rc
    ∧ (c.leaveV r v).closed = c.closed ∧ (c.leaveV r v).rooms = c.rooms
    ∧ (c.leaveV r v).nV = c.nV ∧ (c.leaveV r v).nR = c.nR
    ∧ ∀ u, (c.leaveV r v).cur u = none ∨ (c.leaveV r v).cur u = c.cur u := by
  unfold Core.leaveV
  split
  · split
    · exact ⟨rfl, rfl, rfl, rfl, rfl, rfl, rfl, rfl, fun u => Or.inr rfl⟩
    · split
      · exact ⟨rfl, rfl, rfl, rfl, rfl, rfl, rfl, rfl, fun u => Or.inr rfl⟩
      · refine ⟨rfl, rfl, rfl, rfl, rfl, rfl, rfl, rfl, fun u => ?_⟩
        by_cases huv : u = v
        · subst huv; left; simp
        · right; simp [Function.update_noteq huv]
  · exact ⟨rfl, rfl, rfl, rfl, rfl, rfl, rfl, rfl, fun u => Or.inr rfl⟩

theorem Core.Tokens.leaveV {c : Core} {void : Bytes} (h : c.Tokens void) (r v : Nat) :
    (c.leaveV r v).Tokens void := by
  obtain ⟨f1, f2, f3, f4, f5, f6, f7, f8, f9⟩ := c.leaveV_fields r v
  constructor
  · rw [f1, f7]; exact h.q_lt
  · rw [f1, f8]; exact h.q_alloc
  · rw [f1]; exact h.enter_nodup
  · rw [f1]; exact h.enter_unique
  · rw [f1]; intro u q hu
    rcases f9 u with h1 | h1
    · exact h1
    · rw [h1]; exact h.enter_cur u q hu
  · rw [f1, f5]; exact h.open_unique
  · rw [f1, f5]; exact h.open_count
  · unfold Core.NoToken; rw [f1, f5, f3]; exact h.gate_open
  · rw [f5, f2, f4]; exact h.closed_next
  · rw [f6, f8]; exact h.rooms_lt

theorem Core.Tokens.newRoom {c : Core} {void : Bytes} (h : c.Tokens void) (key : Bytes) :
    (c.newRoom key).Tokens void := by
  have hq : (c.newRoom key).queue = c.queue := by
    simp only [Core.newRoom]
    funext l
    have := h.q_alloc c.nR (le_refl _)
    by_cases h1 : l = .enter c.nR
    · subst h1; rw [Function.update_same, this.2]
    · rw [Function.update_noteq h1]
      by_cases h2 : l = .leave c.nR
      · subst h2; rw [Function.update_same, this.1]
      · rw [Function.update_noteq h2]
  constructor
  · rw [hq]; exact h.q_lt
  · rw [hq]; intro r hr
    exact h.q_alloc r (by simp only [Core.newRoom] at hr; omega)
  · rw [hq]; exact h.enter_nodup
  · rw [hq]; exact h.enter_unique
  · rw [hq]; exact h.enter_cur
  · rw [hq]; exact h.open_unique
  · rw [hq]; exact h.open_count
  · unfold Core.NoToken; rw [hq]; exact h.gate_open
  · exact h.closed_next
  · intro k q hk
    simp only [Core.newRoom] at hk ⊢
    by_cases hkk : k = key
    · subst hkk
      rw [Function.update_same] at hk
      have := Option.some.inj hk
      omega
    · rw [Function.update_noteq hkk] at hk
      have := h.rooms_lt k q hk
      omega

theorem Core.Tokens.newVisitor {c : Core} {void : Bytes} (h : c.Tokens void) :
    (c.newVisitor void).Tokens void := by
  have hne : ∀ l u, u ∈ c.queue l → u ≠ c.nV := by
    intro l u hu
    have := h.q_lt l u hu
    omega
  constructor
  · intro l u hu
    have := h.q_lt l u hu
    simp only [Core.newVisitor]; omega
  · exact h.q_alloc
  · exact h.enter_nodup
  · exact h.enter_unique
  · intro u q hu
    simp only [Core.newVisitor, Function.update_noteq (hne _ u hu)]
    exact h.enter_cur u q hu
  · intro u hu l1 l2 h1 h2
    simp only [Core.newVisitor, Function.update_noteq (hne _ u h1)] at hu
    exact h.open_unique u hu l1 l2 h1 h2
  · intro u hu l
    by_cases huv : u = c.nV
    · subst huv
      have : (c.queue l).count c.nV = 0 :=
        List.count_eq_zero_of_not_mem fun hm => hne l _ hm rfl
      show (c.queue l).count c.nV ≤ 1
      omega
    · simp only [Core.newVisitor, Function.update_noteq huv] at hu
      exact h.open_count u hu l
  · intro u hu hg l hm
    have huv := hne l u hm
    simp only [Core.newVisitor, Function.update_noteq huv] at hu hg
    exact h.gate_open u hu hg l hm
  · intro u hu
    simp only [Core.newVisitor] at hu ⊢
    by_cases huv : u = c.nV
    · subst huv; rw [Function.update_same] at hu; exact Bool.noConfusion hu
    · simp only [Function.update_noteq huv] at hu ⊢
      exact h.closed_next u hu
  · exact h.rooms_lt

/-! ## The code's effect on the membership part -/

theorem queue_withCrr (s : Server) (q : List Nat) :
    ({ s with ChangeRoomRequests := q } : Server).queue = Function.update s.queue .crr q := by
  funext l
  cases l with
  | crr => rw [Function.update_same]; rfl
  | leave r => rw [Function.update_noteq (by simp)]; rfl
  | enter r => rw [Function.update_noteq (by simp)]; rfl

theorem queue_setLeave (s : Server) (r : Nat) (q : List Nat) :
    (s.setRoom r fun x => { x with VisitorLeaveRequests := q }).queue
      = Function.update s.queue (.leave r) q := by
  funext l
  cases l with
  | crr => rw [Function.update_noteq (by simp)]; rfl
  | leave p =>
    show ((s.setRoom r _).roomAt p).VisitorLeaveRequests = _
    rw [setRoom_roomAt]
    by_cases hp : p = r
    · subst hp; simp
    · rw [if_neg hp, Function.update_noteq (by simp [hp])]; rfl
  | enter p =>
    show ((s.setRoom r _).roomAt p).VisitorEnterRequests = _
    rw [setRoom_roomAt, Function.update_noteq (by simp)]
    by_cases hp : p = r
    · subst hp; simp [Server.queue]
    · rw [if_neg hp]; rfl

theorem queue_setEnter (s : Server) (r : Nat) (q : List Nat) :
    (s.setRoom r fun x => { x with VisitorEnterRequests := q }).queue
      = Function.update s.queue (.enter r) q := by
  funext l
  cases l with
  | crr => rw [Function.update_noteq (by simp)]; rfl
  | leave p =>
    show ((s.setRoom r _).roomAt p).VisitorLeaveRequests = _
    rw [setRoom_roomAt, Function.update_noteq (by simp)]
    by_cases hp : p = r
    · subst hp; simp [Server.queue]
    · rw [if_neg hp]; rfl
  | enter p =>
    show ((s.setRoom r _).roomAt p).VisitorEnterRequests = _
    rw [setRoom_roomAt]
    by_cases hp : p = r
    · subst hp; simp
    · rw [if_neg hp, Function.update_noteq (by simp [hp])]; rfl

theorem lists_setRoom_same (s : Server) (r : Nat) (f : Room → Room)
    (h : (f (s.roomAt r)).Visitors = (s.roomAt r).Visitors) :
    (fun q => ((s.setRoom r f).roomAt q).Visitors) = fun q => (s.roomAt q).Visitors := by
  funext q
  exact sameLists_setRoom s r f h q

theorem core_withCrr (s : Server) (q : List Nat) :
    core ({ s with ChangeRoomRequests := q } : Server)
      = { core s with queue := Function.update (core s).queue .crr q } := by
  rw [Core.ext_iff']
  refine ⟨rfl, ?_, rfl, rfl, rfl, rfl, rfl, rfl, rfl, rfl, rfl, rfl⟩
  exact queue_withCrr s q

theorem core_setLeave (s : Server) (r : Nat) (q : List Nat) :
    core (s.setRoom r fun x => { x with VisitorLeaveRequests := q })
      = { core s with queue := Function.update (core s).queue (.leave r) q } := by
  rw [Core.ext_iff']
  refine ⟨?_, ?_, rfl, rfl, rfl, rfl, rfl, rfl, rfl, rfl, rfl, rfl⟩
  · exact lists_setRoom_same s r _ rfl
  · exact queue_setLeave s r q

theorem core_setEnter (s : Server) (r : Nat) (q : List Nat) :
    core (s.setRoom r fun x => { x with VisitorEnterRequests := q })
      = { core s with queue := Function.update (core s).queue (.enter r) q } := by
  rw [Core.ext_iff']
  refine ⟨?_, ?_, rfl, rfl, rfl, rfl, rfl, rfl, rfl, rfl, rfl, rfl⟩
  · exact lists_setRoom_same s r _ rfl
  · exact queue_setEnter s r q

theorem core_popCrr (s : Server) (v : Nat) (rest : List Nat)
    (h : s.ChangeRoomRequests = v :: rest) :
    core ({ s with ChangeRoomRequests := rest } : Server) = (core s).pop .crr := by
  rw [core_withCrr]
  have : (core s).queue .crr = v :: rest := h
  simp [Core.pop, this]

theorem core_popLeave (s : Server) (r v : Nat) (rest : List Nat)
    (h : (s.roomAt r).VisitorLeaveRequests = v :: rest) :
    core (s.setRoom r fun x => { x with VisitorLeaveRequests := rest })
      = (core s).pop (.leave r) := by
  rw [core_setLeave]
  have : (core s).queue (.leave r) = v :: rest := h
  simp [Core.pop, this]

theorem core_popEnter (s : Server) (r v : Nat) (rest : List Nat)
    (h : (s.roomAt r).VisitorEnterRequests = v :: rest) :
    core (s.setRoom r fun x => { x with VisitorEnterRequests := rest })
      = (core s).pop (.enter r) := by
  rw [core_setEnter]
  have : (core s).queue (.enter r) = v :: rest := h
  simp [Core.pop, this]

theorem sendChangeRoomRequest_core (cfg : Config) (v : Nat) (s t : Server)
    (h : sendChangeRoomRequest cfg v s = .done t) : core t = (core s).push .crr v := by
  unfold sendChangeRoomRequest at h
  split at h
  · cases h
    rw [core_withCrr]; rfl
  · cases h

theorem sendLeaveRequest_core (cfg : Config) (r v : Nat) (s t : Server)
    (h : sendLeaveRequest cfg r v s = .done t) : core t = (core s).push (.leave r) v := by
  unfold sendLeaveRequest at h
  split at h
  · cases h
    exact core_setLeave s r _
  · cases h

theorem sendEnterRequest_core (cfg : Config) (r v : Nat) (s t : Server)
    (h : sendEnterRequest cfg r v s = .done t) : core t = (core s).push (.enter r) v := by
  unfold sendEnterRequest at h
  split at h
  · cases h
    exact core_setEnter s r _
  · cases h

theorem sendOutput_core (cfg : Config) (v : Nat) (m : Bytes) (s t : Server)
    (h : sendOutput cfg v m s = .done t) : core t = core s := by
  have := core_sendOutput cfg v m s
  rw [h] at this
  exact this

theorem core_setVisitor_fields (s : Server) (v : Nat) (f : Visitor → Visitor) :
    core (s.setVisitor v f)
      = { core s with
          cur := Function.update (core s).cur v (f (s.visitorAt v)).CurrentRoom
          elem := Function.update (core s).elem v (f (s.visitorAt v)).RoomElement
          next := Function.update (core s).next v (f (s.visitorAt v)).NextRoomID
          gate := Function.update (core s).gate v (f (s.visitorAt v)).RoomChanged
          rc := Function.update (core s).rc v (f (s.visitorAt v)).ReadClosed
          closed := Function.update (core s).closed v (f (s.visitorAt v)).Closed } := by
  rw [Core.ext_iff']
  simp only [core, setVisitor_roomAt, setVisitor_queue, setVisitor_Rooms,
    setVisitor_numVisitors, setVisitor_numRooms, setVisitor_numElements,
    true_and, and_true]
  refine ⟨?_, ?_, ?_, ?_, ?_, ?_⟩ <;> funext u <;> rw [setVisitor_visitorAt] <;>
    by_cases hu : u = v
  all_goals first
    | (subst hu; simp)
    | simp [hu, Function.update_noteq hu]

theorem update_self_eq {α : Type} (f : Nat → α) (v : Nat) : Function.update f v (f v) = f :=
  Function.update_eq_self v f

theorem beginChangingRoom_core (cfg : Config) (v : Nat) (id : Bytes) (s t : Server)
    (h : beginChangingRoom cfg v id s = .done t) : core t = ((core s).arm v id).push .crr v := by
  unfold beginChangingRoom at h
  rw [sendChangeRoomRequest_core cfg v _ t h, core_setVisitor_fields, core_setVisitor_fields]
  congr 1
  rw [Core.ext_iff']
  simp [Core.arm, core, Function.update_eq_self]

theorem endChangingRoom_core (cfg : Config) (v : Nat) (s t : Server)
    (h : endChangingRoom cfg v s = .done t) :
    (s.visitorAt v).RoomChanged = false ∧ core t = (core s).fire cfg.VoidRoomID v := by
  unfold endChangingRoom closeRoomChanged at h
  split at h
  · cases h
  · rename_i hg
    cases h
    simp only [setVisitor_visitorAt_same] at hg
    refine ⟨by simpa using hg, ?_⟩
    rw [core_setVisitor_fields, core_setVisitor_fields]
    rw [Core.ext_iff']
    simp [Core.fire, core, Function.update_eq_self]

theorem closeReadClosed_core (v : Nat) (s t : Server) (h : closeReadClosed v s = .done t) :
    (s.visitorAt v).ReadClosed = false ∧ core t = (core s).setRc v := by
  unfold closeReadClosed at h
  split at h
  · cases h
  · rename_i hg
    cases h
    refine ⟨by simpa using hg, ?_⟩
    rw [core_setVisitor_fields, Core.ext_iff']
    simp [Core.setRc, core, Function.update_eq_self]

theorem core_enterVisitor (r v : Nat) (s : Server) :
    core (enterVisitor r v s) = (core s).enterV r v := by
  unfold enterVisitor
  rw [Core.ext_iff']
  simp only [core, Core.enterV, setVisitor_roomAt, setVisitor_queue, setVisitor_Rooms,
    setVisitor_numVisitors, setVisitor_numRooms, setRoom_visitorAt, setRoom_Rooms,
    setRoom_numVisitors, setRoom_numRooms, true_and, and_true]
  refine ⟨?_, ?_, ?_, ?_, ?_, ?_, ?_, ?_⟩
  · funext q
    rw [setRoom_roomAt]
    by_cases hq : q = r
    · subst hq; simp
    · simp [hq, Function.update_noteq hq]
  · have := setRoom_queue (s.setVisitor v fun x => { x with CurrentRoom := some r }) r
      (fun x => { x with Visitors := x.Visitors ++ [⟨s.numElements, v⟩] }) rfl rfl
    rw [setVisitor_queue] at this
    exact this
  all_goals funext u
  all_goals by_cases hu : u = v
  all_goals first
    | (subst hu; simp)
    | simp [hu, Function.update_noteq hu, setVisitor_visitorAt_other _ _ _ _ hu]

theorem core_listRemove (r : Nat) (e : Element) (s : Server) :
    core (listRemove r e s)
      = { core s with
          lists := Function.update (core s).lists r
            (((core s).lists r).filter fun y => y.id != e.id) } := by
  unfold listRemove
  rw [Core.ext_iff']
  refine ⟨?_, setRoom_queue _ r _ rfl rfl, rfl, rfl, rfl, rfl, rfl, rfl, rfl, rfl, rfl, rfl⟩
  funext q
  simp only [core]
  rw [setRoom_roomAt]
  by_cases hq : q = r
  · subst hq; simp
  · simp [hq, Function.update_noteq hq]

theorem core_leaveVisitor (r v : Nat) (s : Server) :
    core (leaveVisitor r v s) = (core s).leaveV r v := by
  unfold leaveVisitor Core.leaveV
  have h1 : (core s).elem v = (s.visitorAt v).RoomElement := rfl
  have h2 : (core s).cur v = (s.visitorAt v).CurrentRoom := rfl
  rw [h1, h2]
  cases he : (s.visitorAt v).RoomElement with
  | none => rfl
  | some e =>
    cases hc : (s.visitorAt v).CurrentRoom with
    | none => rfl
    | some cur =>
      simp only
      by_cases hcr : cur ≠ r
      · rw [if_pos hcr, if_pos hcr]
      · rw [if_neg hcr, if_neg hcr]
        by_cases hv : v ≠ e.Value
        · rw [if_pos hv, if_pos hv]
          exact core_listRemove r e s
        · rw [if_neg hv, if_neg hv]
          rw [core_setVisitor_fields, core_listRemove]
          rw [Core.ext_iff']
          simp [core, listRemove, Function.update_eq_self]

theorem core_newRoom (cfg : Config) (id : Bytes) (s : Server) :
    core (newRoom cfg id s).2 = (core s).newRoom (cfg.ToLower id) := by
  rw [Core.ext_iff']
  refine ⟨?_, ?_, rfl, rfl, rfl, rfl, rfl, rfl, rfl, rfl, rfl, rfl⟩
  · funext q
    simp only [core, Core.newRoom]
    rw [newRoom_roomAt]
    by_cases hq : q = s.numRooms
    · subst hq; simp
    · simp [hq, Function.update_noteq hq]
  · funext l
    simp only [core, Core.newRoom]
    cases l with
    | crr => simp [Function.update_noteq, Server.queue]; rfl
    | leave p =>
      show ((newRoom cfg id s).2.roomAt p).VisitorLeaveRequests = _
      rw [newRoom_roomAt, Function.update_noteq (by simp)]
      by_cases hp : p = s.numRooms
      · subst hp; simp
      · rw [if_neg hp, Function.update_noteq (by simp [hp])]; rfl
    | enter p =>
      show ((newRoom cfg id s).2.roomAt p).VisitorEnterRequests = _
      rw [newRoom_roomAt]
      by_cases hp : p = s.numRooms
      · subst hp; simp
      · rw [if_neg hp, Function.update_noteq (by simp [hp]), Function.update_noteq (by simp)]; rfl

theorem core_withVisitors (s : Server) (m : Bytes → Option Nat) :
    core ({ s with Visitors := m } : Server) = core s := rfl

theorem core_withChangeNameRequests (s : Server) (q : List Nat) :
    core ({ s with ChangeNameRequests := q } : Server) = core s := rfl

theorem core_newVisitorRecord (cfg : Config) (name : Bytes) (s : Server) :
    core ({ s with
        visitorAt := Function.update s.visitorAt s.numVisitors
          { ConnectionClosed := false, OutputMessages := [], Name := name, NextName := [],
            RoomElement := none, CurrentRoom := none, NextRoomID := cfg.VoidRoomID,
            RoomChanged := false, ReadClosed := false, WriteClosed := false, Closed := false }
        numVisitors := s.numVisitors + 1 } : Server)
      = (core s).newVisitor cfg.VoidRoomID := by
  rw [Core.ext_iff']
  refine ⟨rfl, ?_, ?_, ?_, ?_, ?_, ?_, ?_, rfl, rfl, rfl, rfl⟩
  · funext l; cases l <;> rfl
  all_goals funext u
  all_goals simp only [core, Core.newVisitor]
  all_goals by_cases hu : u = s.numVisitors
  all_goals first
    | (subst hu; simp)
    | simp [hu, Function.update_noteq hu]

theorem core_setClosed (v : Nat) (s : Server) :
    core (s.setVisitor v fun x => { x with Closed := true }) = (core s).setClosed v := by
  rw [core_setVisitor_fields, Core.ext_iff']
  simp [Core.setClosed, core, Function.update_eq_self]

/-! ## The invariant is kept by every turn -/

theorem Outcome.next_eq_done {σ : Type} {o : Outcome σ} {f : σ → Outcome σ} {t : σ}
    (h : o.next f = .done t) : ∃ s1, o = .done s1 ∧ f s1 = .done t := by
  cases o with
  | done s1 => exact ⟨s1, rfl, h⟩
  | blocked s1 => cases h
  | fault s1 => cases h

theorem Outcome.andThen_eq_done {σ τ : Type} {o : Outcome σ} {f : σ → Outcome τ} {g : σ → τ}
    {t : τ} (h : o.andThen f g = .done t) : ∃ s1, o = .done s1 ∧ f s1 = .done t := by
  cases o with
  | done s1 => exact ⟨s1, rfl, h⟩
  | blocked s1 => cases h
  | fault s1 => cases h

theorem Outcome.map_eq_done {σ τ : Type} {o : Outcome σ} {g : σ → τ} {t : τ}
    (h : o.map g = .done t) : ∃ s1, o = .done s1 ∧ g s1 = t := by
  cases o with
  | done s1 => exact ⟨s1, rfl, Outcome.done.inj h⟩
  | blocked s1 => cases h
  | fault s1 => cases h

theorem Inv.of_core_eq {cfg : Config} {s t : Server} (h : Inv cfg s) (hc : core t = core s) :
    Inv cfg t := by
  unfold Inv
  rw [hc]
  exact h

theorem Core.newRoom_queue {c : Core} {void : Bytes} (h : c.Tokens void) (key : Bytes) :
    (c.newRoom key).queue = c.queue := by
  simp only [Core.newRoom]
  funext l
  have := h.q_alloc c.nR (le_refl _)
  by_cases h1 : l = .enter c.nR
  · subst h1; rw [Function.update_same, this.2]
  · rw [Function.update_noteq h1]
    by_cases h2 : l = .leave c.nR
    · subst h2; rw [Function.update_same, this.1]
    · rw [Function.update_noteq h2]

/-- An open visitor with a request in a queue has its gate armed. -/
theorem Core.Tokens.gate_armed {c : Core} {void : Bytes} (h : c.Tokens void) (l : Loc) (v : Nat)
    (hin : v ∈ c.queue l) (hopen : c.closed v = false) : c.gate v = false := by
  cases hg : c.gate v with
  | false => rfl
  | true => exact absurd hin (h.gate_open v hopen hg l)

theorem inv_changeRoomCase (cfg : Config) (s t : Server) (h : Inv cfg s)
    (hd : changeRoomCase cfg s = .done t) : Inv cfg t := by
  obtain ⟨hM, hT⟩ := h
  unfold changeRoomCase at hd
  split at hd
  · cases hd
  · rename_i v rest hq
    have hqc : (core s).queue .crr = v :: rest := hq
    have hin : v ∈ (core s).queue .crr := by rw [hqc]; exact List.mem_cons_self _ _
    have hv : v < (core s).nV := hT.q_lt _ v hin
    have hc1 := core_popCrr s v rest hq
    have hM1 : (core ({ s with ChangeRoomRequests := rest } : Server)).Members := by
      rw [hc1]; exact hM.after_pop _
    have hT1 : (core ({ s with ChangeRoomRequests := rest } : Server)).Tokens cfg.VoidRoomID := by
      rw [hc1]; exact hT.pop _
    have hopen : (core s).closed v = false →
        ((core s).pop .crr).NoToken v ∧ ((core s).pop .crr).gate v = false := fun ho =>
      ⟨hT.pop_noToken .crr v rest hqc ho, hT.gate_armed .crr v hin ho⟩
    unfold changeRoom at hd
    split at hd
    · -- leave branch
      rename_i r hcur
      have hcur' : (core s).cur v = some r := hcur
      have hr : r < (core s).nR := by
        by_contra hge
        obtain ⟨x, _, hx, _⟩ := hM.cur_mem v r hcur'
        rw [hM.lists_alloc r (by omega)] at hx
        exact absurd hx (List.not_mem_nil _)
      unfold Inv
      rw [sendLeaveRequest_core cfg r v _ t hd, hc1]
      refine ⟨(hM.after_pop _).after_push _ _, (hT.pop _).push _ v hv ?_ hopen ?_⟩
      · intro r' hr'
        rcases hr' with h1 | h1
        · rw [Loc.leave.inj h1] at hr; exact hr
        · cases h1
      · intro r' h1; cases h1
    · rename_i hcur
      have hcur' : (core s).cur v = none := hcur
      split at hd
      · -- destroy branch
        obtain ⟨s2, h2, h3⟩ := Outcome.next_eq_done hd
        obtain ⟨_, hc2⟩ := endChangingRoom_core cfg v _ s2 h2
        have ht : core t = core s2 := by
          cases h3
          unfold destroyVisitor
          rw [core_closeConnection]
          rfl
        unfold Inv
        rw [ht, hc2, hc1]
        exact ⟨(hM.after_pop _).after_fire _ _, (hT.pop _).fire v fun ho => (hopen ho).1⟩
      · rename_i hnext
        have hnext' : (core s).next v ≠ cfg.VoidRoomID := hnext
        have ho : (core s).closed v = false := by
          cases hcl : (core s).closed v with
          | false => rfl
          | true => exact absurd (hT.closed_next v hcl).1 hnext'
        split at hd
        · -- the room exists
          rename_i room hroom
          have hroom' : (core s).rooms (cfg.ToLower (s.visitorAt v).NextRoomID) = some room := hroom
          unfold Inv
          rw [sendEnterRequest_core cfg room v _ t hd, hc1]
          refine ⟨(hM.after_pop _).after_push _ _, (hT.pop _).push _ v hv ?_ (fun _ => hopen ho) ?_⟩
          · intro r' hr'
            rcases hr' with h1 | h1
            · cases h1
            · rw [← Loc.enter.inj h1]; exact hT.rooms_lt _ _ hroom'
          · intro r' _
            exact ⟨(hopen ho).1.noEnter, hcur'⟩
        · -- the room is made
          rename_i hroom
          split at hd
          rename_i room s1 hnew
          have h1 : room = s.numRooms := by
            have := (newRoom_fields cfg (s.visitorAt v).NextRoomID
              ({ s with ChangeRoomRequests := rest } : Server)).1
            rw [hnew] at this
            exact this
          have h2 : core s1 = ((core s).pop .crr).newRoom (cfg.ToLower (s.visitorAt v).NextRoomID) := by
            have := core_newRoom cfg (s.visitorAt v).NextRoomID
              ({ s with ChangeRoomRequests := rest } : Server)
            rw [hnew, hc1] at this
            exact this
          have hT2 := (hT.pop .crr).newRoom (cfg.ToLower (s.visitorAt v).NextRoomID)
          have hq2 := Core.newRoom_queue (hT.pop .crr) (cfg.ToLower (s.visitorAt v).NextRoomID)
          unfold Inv
          rw [sendEnterRequest_core cfg room v _ t hd, h2]
          refine ⟨((hM.after_pop _).after_newRoom _).after_push _ _, hT2.push _ v hv ?_ ?_ ?_⟩
          · intro r' hr'
            rcases hr' with h3 | h3
            · cases h3
            · rw [← Loc.enter.inj h3, h1]
              show s.numRooms < s.numRooms + 1
              omega
          · intro _
            refine ⟨?_, (hopen ho).2⟩
            intro l
            rw [hq2]
            exact (hopen ho).1 l
          · intro r' _
            refine ⟨?_, hcur'⟩
            intro q
            rw [hq2]
            exact (hopen ho).1 (.enter q)

theorem inv_leaveCase (cfg : Config) (now : Bytes) (r : Nat) (s t : Server) (h : Inv cfg s)
    (hd : leaveCase cfg now r s = .done t) : Inv cfg t := by
  obtain ⟨hM, hT⟩ := h
  unfold leaveCase at hd
  split at hd
  · cases hd
  · rename_i v rest hq
    have hqc : (core s).queue (.leave r) = v :: rest := hq
    have hin : v ∈ (core s).queue (.leave r) := by rw [hqc]; exact List.mem_cons_self _ _
    have hv : v < (core s).nV := hT.q_lt _ v hin
    have hc1 := core_popLeave s r v rest hq
    simp only at hd
    obtain ⟨s3, h3, h4⟩ := Outcome.next_eq_done hd
    have hc3 : core s3 = ((core s).pop (.leave r)).leaveV r v := by
      rw [sendOutput_core cfg v _ _ s3 h3, core_leaveVisitor, hc1]
    obtain ⟨f1, _, f3, _, f5, _, _, _, _⟩ := ((core s).pop (.leave r)).leaveV_fields r v
    unfold Inv
    rw [sendChangeRoomRequest_core cfg v s3 t h4, hc3]
    refine ⟨((hM.after_pop _).after_leaveV r v).after_push _ _, ((hT.pop _).leaveV r v).push _ v ?_ ?_ ?_ ?_⟩
    · rw [(((core s).pop (.leave r)).leaveV_fields r v).2.2.2.2.2.2.1]; exact hv
    · intro r' hr'
      rcases hr' with h1 | h1 <;> cases h1
    · intro ho
      rw [f5] at ho
      refine ⟨?_, ?_⟩
      · intro l
        rw [f1]
        exact hT.pop_noToken (.leave r) v rest hqc ho l
      · rw [f3]
        exact hT.gate_armed (.leave r) v hin ho
    · intro r' h1; cases h1

theorem inv_enterCase (cfg : Config) (now : Bytes) (r : Nat) (s t : Server) (h : Inv cfg s)
    (hd : enterCase cfg now r s = .done t) : Inv cfg t := by
  obtain ⟨hM, hT⟩ := h
  unfold enterCase at hd
  split at hd
  · cases hd
  · rename_i v rest hq
    have hqc : (core s).queue (.enter r) = v :: rest := hq
    have hin : v ∈ (core s).queue (.enter r) := by rw [hqc]; exact List.mem_cons_self _ _
    have hv : v < (core s).nV := hT.q_lt _ v hin
    have hr : r < (core s).nR := by
      by_contra hge
      rw [(hT.q_alloc r (by omega)).2] at hin
      exact absurd hin (List.not_mem_nil _)
    have hcur : (core s).cur v = none := hT.enter_cur v r hin
    have hc1 := core_popEnter s r v rest hq
    have hno := hT.pop_noEnter r v rest hqc
    simp only at hd
    obtain ⟨s3, h3, h4⟩ := Outcome.next_eq_done hd
    obtain ⟨_, hc4⟩ := endChangingRoom_core cfg v s3 t h4
    split at h3
    · -- full
      have hc3 : core s3 = (core s).pop (.enter r) := by
        rw [sendOutput_core cfg v _ _ s3 h3, hc1]
      unfold Inv
      rw [hc4, hc3]
      exact ⟨(hM.after_pop _).after_fire _ _,
        (hT.pop _).fire v fun ho => hT.pop_noToken (.enter r) v rest hqc ho⟩
    · have hc3 : core s3 = ((core s).pop (.enter r)).enterV r v := by
        rw [sendOutput_core cfg v _ _ s3 h3, core_enterVisitor, hc1]
      unfold Inv
      rw [hc4, hc3]
      refine ⟨((hM.after_pop _).after_enterV r v hcur hv hr).after_fire _ _,
        ((hT.pop _).enterV r v hno).fire v fun ho => ?_⟩
      exact hT.pop_noToken (.enter r) v rest hqc ho

theorem inv_pendingConnectionCase (cfg : Config) (now name : Bytes) (s t : Server)
    (h : Inv cfg s) (hd : pendingConnectionCase cfg now name s = .done t) : Inv cfg t := by
  obtain ⟨hM, hT⟩ := h
  unfold pendingConnectionCase at hd
  simp only at hd
  obtain ⟨s1, h1, h2⟩ := Outcome.next_eq_done hd
  unfold newVisitor at h1
  simp only at h1
  have hc1 : core s1 = (((core s).newVisitor cfg.VoidRoomID).arm s.numVisitors
      cfg.LobbyRoomID).push .crr s.numVisitors := by
    rw [beginChangingRoom_core cfg s.numVisitors cfg.LobbyRoomID _ s1 h1]
    exact congrArg (fun c : Core => (c.arm s.numVisitors cfg.LobbyRoomID).push .crr s.numVisitors)
      (core_newVisitorRecord cfg name s)
  have hfresh : ((core s).newVisitor cfg.VoidRoomID).closed s.numVisitors = false := by
    exact Function.update_same _ _ _
  unfold Inv
  rw [sendOutput_core cfg _ _ s1 t h2, hc1]
  refine ⟨((hM.after_newVisitor _).after_arm _ _).after_push _ _,
    (hT.newVisitor.arm s.numVisitors cfg.LobbyRoomID hfresh).push _ _ ?_ ?_ ?_ ?_⟩
  · show s.numVisitors < s.numVisitors + 1
    omega
  · intro r' hr'
    rcases hr' with h3 | h3 <;> cases h3
  · intro _
    refine ⟨?_, ?_⟩
    · intro l hm
      have : s.numVisitors < (core s).nV := hT.q_lt l _ hm
      exact absurd this (lt_irrefl _)
    · simp [Core.arm]
  · intro r' h3; cases h3

theorem inv_run (cfg : Config) (v : Nat) (s t : Server) (h : Inv cfg s)
    (hv : v < s.numVisitors) (hd : Visitor.run cfg v s = .done t) : Inv cfg t := by
  obtain ⟨hM, hT⟩ := h
  unfold Visitor.run at hd
  split at hd
  · cases hd
  · split at hd
    · cases hd
    · rename_i hrc
      split at hd
      · cases hd
      · have hc := beginChangingRoom_core cfg v cfg.VoidRoomID _ t hd
        rw [core_setClosed] at hc
        have hrc' : (core s).rc v = true := by simpa using hrc
        unfold Inv
        rw [hc]
        refine ⟨((hM.after_setClosed v).after_arm _ _).after_push _ _, (hT.close v hrc').push _ v hv ?_ ?_ ?_⟩
        · intro r' hr'
          rcases hr' with h3 | h3 <;> cases h3
        · intro ho
          exfalso
          simp [Core.arm, Core.setClosed] at ho
        · intro r' h3; cases h3

theorem core_changeName (cfg : Config) (now : Bytes) (v : Nat) (s : Server) :
    core (changeName cfg now v s).state = core s := by
  unfold changeName
  dsimp only
  split_ifs
  · rfl
  · rfl
  · rfl
  · rw [core_sendOutput, core_withVisitors]
    exact core_setVisitor _ v _ rfl rfl rfl rfl rfl rfl

theorem inv_changeNameCase (cfg : Config) (now : Bytes) (s t : Server) (h : Inv cfg s)
    (hd : changeNameCase cfg now s = .done t) : Inv cfg t := by
  unfold changeNameCase at hd
  split at hd
  · cases hd
  · rename_i v rest _
    have := core_changeName cfg now v ({ s with ChangeNameRequests := rest } : Server)
    rw [hd] at this
    exact h.of_core_eq this

theorem inv_messagesCase (cfg : Config) (r : Nat) (s t : Server) (h : Inv cfg s)
    (hd : messagesCase cfg r s = .done t) : Inv cfg t := by
  unfold messagesCase at hd
  split at hd
  · cases hd
  · apply h.of_core_eq
    have h1 := congrArg (fun o : Outcome Server => core o.state) hd
    simp only [core_broadcast, Outcome.state_done] at h1
    rw [← h1]
    exact core_setRoom s r _ rfl rfl rfl

theorem core_writeIter (v : Nat) (pick : WriteCase) (st : Writer × Server) :
    core (writeIter v pick st).state.2 = core st.2 := by
  have hf : ∀ (w : Writer) (s : Server),
      core ((failWrite v s).map fun s2 => (w, s2)).state.2 = core s := by
    intro w s
    unfold failWrite
    have := core_closeWriteClosed v (closeConnection v s)
    rw [core_closeConnection] at this
    cases hc : closeWriteClosed v (closeConnection v s) <;> rw [hc] at this <;> exact this
  unfold writeIter
  dsimp only
  repeat' split
  all_goals first
    | rfl
    | exact hf _ _
    | (rw [hf]; exact core_setVisitor _ v _ rfl rfl rfl rfl rfl rfl)
    | exact core_setVisitor _ v _ rfl rfl rfl rfl rfl rfl

theorem ready_of_core {cfg : Config} {v : Nat} {s t : Server}
    (h : Inv cfg s ∧ v < s.numVisitors ∧ (s.visitorAt v).Closed = false
      ∧ (s.visitorAt v).RoomChanged = true)
    (hc : core t = core s) :
    Inv cfg t ∧ v < t.numVisitors ∧ (t.visitorAt v).Closed = false
      ∧ (t.visitorAt v).RoomChanged = true := by
  obtain ⟨h1, h2, h3, h4⟩ := h
  refine ⟨h1.of_core_eq hc, ?_, ?_, ?_⟩
  · show v < (core t).nV
    rw [hc]; exact h2
  · show (core t).closed v = false
    rw [hc]; exact h3
  · show (core t).gate v = true
    rw [hc]; exact h4

theorem ready_setRc {cfg : Config} {v : Nat} {s t : Server}
    (h : Inv cfg s ∧ v < s.numVisitors ∧ (s.visitorAt v).Closed = false
      ∧ (s.visitorAt v).RoomChanged = true)
    (hc : core t = (core s).setRc v) :
    Inv cfg t ∧ v < t.numVisitors ∧ (t.visitorAt v).Closed = false
      ∧ (t.visitorAt v).RoomChanged = true := by
  obtain ⟨⟨hM, hT⟩, h2, h3, h4⟩ := h
  refine ⟨?_, ?_, ?_, ?_⟩
  · unfold Inv
    rw [hc]
    exact ⟨hM.after_setRc v, hT.setRc v⟩
  · show v < (core t).nV
    rw [hc]; exact h2
  · show (core t).closed v = false
    rw [hc]; exact h3
  · show (core t).gate v = true
    rw [hc]; exact h4

theorem inv_beginChangingRoom {cfg : Config} {v : Nat} {s t : Server} (id : Bytes)
    (h : Inv cfg s ∧ v < s.numVisitors ∧ (s.visitorAt v).Closed = false
      ∧ (s.visitorAt v).RoomChanged = true)
    (hd : beginChangingRoom cfg v id s = .done t) : Inv cfg t := by
  obtain ⟨⟨hM, hT⟩, h2, h3, h4⟩ := h
  unfold Inv
  rw [beginChangingRoom_core cfg v id s t hd]
  refine ⟨(hM.after_arm v id).after_push _ _, (hT.arm v id h3).push .crr v h2 ?_ ?_ ?_⟩
  · intro r' hr'
    rcases hr' with h5 | h5 <;> cases h5
  · intro _
    refine ⟨hT.gate_open v h3 h4, ?_⟩
    simp [Core.arm]
  · intro r' h5; cases h5

theorem readChat_core (cfg : Config) (now : Bytes) (v : Nat) (line : Bytes) (s t : Server)
    (hd : readChat cfg now v line s = .done t) : core t = core s := by
  unfold readChat at hd
  split at hd
  · cases hd; rfl
  · split at hd
    · exact sendOutput_core cfg v _ s t hd
    · rename_i r _ _
      have := core_sendMessage cfg r (CreateMessage now (s.visitorAt v).Name line) s
      rw [hd] at this
      exact this

theorem inv_readCommand {cfg : Config} {v : Nat} {s t : Server} (now line : Bytes)
    (h : Inv cfg s ∧ v < s.numVisitors ∧ (s.visitorAt v).Closed = false
      ∧ (s.visitorAt v).RoomChanged = true)
    (hd : readCommand cfg now v line s = .done t) : Inv cfg t := by
  unfold readCommand at hd
  dsimp only at hd
  split_ifs at hd
  · obtain ⟨s1, h1, h2⟩ := Outcome.next_eq_done hd
    have hr := ready_setRc h (closeReadClosed_core v s s1 h1).2
    exact hr.1.of_core_eq (readChat_core cfg now v line s1 t h2)
  · split at hd
    · exact h.1.of_core_eq (sendOutput_core cfg v _ s t hd)
    · exact h.1.of_core_eq (sendOutput_core cfg v _ s t hd)
  · exact inv_beginChangingRoom _ h hd
  · exact h.1.of_core_eq (sendOutput_core cfg v _ s t hd)
  · have := core_sendChangeNameRequest cfg v
      (s.setVisitor v fun x => { x with NextName := cfg.TrimSpace (TrimPrefix line (str "/name")) })
    rw [hd, Outcome.state_done] at this
    apply h.1.of_core_eq
    rw [this]
    exact core_setVisitor s v _ rfl rfl rfl rfl rfl rfl
  · cases hd; exact h.1
  · exact h.1.of_core_eq (readChat_core cfg now v line s t hd)
  · exact h.1.of_core_eq (readChat_core cfg now v line s t hd)

theorem inv_readLine {cfg : Config} {v : Nat} {s : Server} (now line : Bytes) (rd : Reader)
    (st : Reader × Server)
    (h : Inv cfg s ∧ v < s.numVisitors ∧ (s.visitorAt v).Closed = false
      ∧ (s.visitorAt v).RoomChanged = true)
    (hd : readLine cfg now v line rd s = .done st) : Inv cfg st.2 := by
  unfold readLine at hd
  split at hd
  · cases hd
  · obtain ⟨s1, h1, h2⟩ := Outcome.andThen_eq_done hd
    have hc : core s1 = core s := by
      split at h1
      · exact sendOutput_core cfg v _ s s1 h1
      · cases h1; rfl
    split at h2
    · cases h2
    · cases h2
      exact h.1.of_core_eq hc
  · split at hd
    · cases hd; exact h.1
    · obtain ⟨s1, h1, h2⟩ := Outcome.map_eq_done hd
      rw [← h2]
      exact inv_readCommand now line h h1

theorem inv_readIter (cfg : Config) (now : Bytes) (v : Nat) (st st1 : Reader × Server)
    (h : Inv cfg st.2) (hv : v < st.2.numVisitors)
    (hd : readIter cfg now v st = .done st1) : Inv cfg st1.2 := by
  unfold readIter at hd
  obtain ⟨s1, h1, h2⟩ := Outcome.andThen_eq_done hd
  have hopen : (st.2.visitorAt v).Closed = false := by
    cases hcl : (st.2.visitorAt v).Closed with
    | false => rfl
    | true =>
      exfalso
      rw [hcl, Bool.or_true, if_pos rfl] at h1
      have h3 := (closeReadClosed_core v st.2 s1 h1).1
      have h4 := (h.2.closed_next v hcl).2
      have h5 : (st.2.visitorAt v).ReadClosed = true := h4
      rw [h3] at h5
      exact Bool.noConfusion h5
  split at h2
  · cases h2
  · rename_i hg
    have hg1 : (s1.visitorAt v).RoomChanged = true := by simpa using hg
    have hr1 : Inv cfg s1 ∧ v < s1.numVisitors ∧ (s1.visitorAt v).Closed = false
        ∧ (s1.visitorAt v).RoomChanged = true := by
      split at h1
      · have hc := (closeReadClosed_core v st.2 s1 h1).2
        obtain ⟨hM, hT⟩ := h
        refine ⟨?_, ?_, ?_, hg1⟩
        · unfold Inv
          rw [hc]
          exact ⟨hM.after_setRc v, hT.setRc v⟩
        · show v < (core s1).nV
          rw [hc]; exact hv
        · show (core s1).closed v = false
          rw [hc]; exact hopen
      · cases h1
        exact ⟨h, hv, hopen, hg1⟩
    dsimp only at h2
    obtain ⟨s2, h3, h4⟩ := Outcome.andThen_eq_done h2
    have hr2 : Inv cfg s2 ∧ v < s2.numVisitors ∧ (s2.visitorAt v).Closed = false
        ∧ (s2.visitorAt v).RoomChanged = true := by
      split at h3
      · split at h3
        · exact ready_setRc hr1 (closeReadClosed_core v s1 s2 h3).2
        · cases h3; exact hr1
      · cases h3; exact hr1
    exact inv_readLine now _ _ st1 hr2 h4

/-! ## The invariant holds along every run of whole turns -/

theorem inv_init (cfg : Config) : Inv cfg (Server.init cfg) := by
  have h0 : Inv cfg
      { Rooms := fun _ => none, Lobby := 0, Visitors := fun _ => none, ChangeRoomRequests := [],
        ChangeNameRequests := [], visitorAt := fun _ => {}, roomAt := fun _ => {},
        numVisitors := 0, numRooms := 0, numElements := 0 } := by
    constructor
    · constructor
      · intro r x hx; cases hx
      · intro v r hc; cases hc
      · intro v _; rfl
      · intro r; exact List.nodup_nil
      · intro r x hx; cases hx
      · intro r x hx; cases hx
      · intro r _; rfl
    · constructor
      · intro l v hv
        cases l <;> cases hv
      · intro r _; exact ⟨rfl, rfl⟩
      · intro r; exact List.nodup_nil
      · intro v r r' hv; cases hv
      · intro v r hv; cases hv
      · intro v _ l l' hv; cases l <;> cases hv
      · intro v _ l
        cases l <;> exact Nat.zero_le _
      · intro v _ _ l hv
        cases l <;> cases hv
      · intro v hv; cases hv
      · intro k q hk; cases hk
  obtain ⟨hM, hT⟩ := h0
  have hc : core (Server.init cfg)
      = (core { Rooms := fun _ => none, Lobby := 0, Visitors := fun _ => none,
                ChangeRoomRequests := [], ChangeNameRequests := [], visitorAt := fun _ => {},
                roomAt := fun _ => {}, numVisitors := 0, numRooms := 0,
                numElements := 0 }).newRoom (cfg.ToLower cfg.LobbyRoomID) := by
    rw [← core_newRoom]
    rfl
  unfold Inv
  rw [hc]
  exact ⟨hM.after_newRoom _, hT.newRoom _⟩

theorem inv_apply (cfg : Config) (e : Event) (s t : Server) (h : Inv cfg s)
    (hd : e.apply cfg s = .done t) : Inv cfg t := by
  cases e with
  | connect now name => exact inv_pendingConnectionCase cfg now name s t h hd
  | changeName now => exact inv_changeNameCase cfg now s t h hd
  | changeRoom => exact inv_changeRoomCase cfg s t h hd
  | leave now r => exact inv_leaveCase cfg now r s t h hd
  | enter now r => exact inv_enterCase cfg now r s t h hd
  | messages r => exact inv_messagesCase cfg r s t h hd
  | read now v rd =>
    simp only [Event.apply] at hd
    split at hd
    · rename_i hv
      obtain ⟨st1, h1, h2⟩ := Outcome.map_eq_done hd
      rw [← h2]
      exact inv_readIter cfg now v (rd, s) st1 h hv h1
    · cases hd
  | write v pick w =>
    simp only [Event.apply] at hd
    split at hd
    · obtain ⟨st1, h1, h2⟩ := Outcome.map_eq_done hd
      have := core_writeIter v pick (w, s)
      rw [h1, Outcome.state_done, h2] at this
      exact h.of_core_eq this
    · cases hd
  | run v =>
    simp only [Event.apply] at hd
    split at hd
    · rename_i hv
      exact inv_run cfg v s t h hv hd
    · cases hd

/-- The invariant holds at the end of every run of whole turns that starts in
a state of the invariant and runs to its end. -/
theorem inv_runEvents (cfg : Config) (es : List Event) (s : Server) (h : Inv cfg s)
    (hd : (runEvents cfg es s).isDone = true) : Inv cfg (runEvents cfg es s).state := by
  induction es generalizing s with
  | nil => exact h
  | cons e es ih =>
    simp only [runEvents] at hd ⊢
    cases he : e.apply cfg s with
    | done s1 =>
      rw [he] at hd
      exact ih s1 (inv_apply cfg e s s1 h he) hd
    | blocked s1 => rw [he] at hd; cases hd
    | fault s1 => rw [he] at hd; cases hd

theorem membershipConsistent_of_inv (cfg : Config) (s : Server) (h : Inv cfg s) :
    MembershipConsistent s := by
  obtain ⟨hM, _⟩ := h
  have hmem : ∀ v r, v ∈ members s r → (core s).cur v = some r := by
    intro v r hv
    obtain ⟨x, hx, hxv⟩ := List.mem_map.mp hv
    rw [← hxv]
    exact (hM.mem_cur r x hx).1
  refine ⟨?_, ?_, ?_, ?_⟩
  · intro v r1 r2 h1 h2
    have a := hmem v r1 h1
    rw [hmem v r2 h2] at a
    exact (Option.some.inj a).symm
  · intro r
    have hnd : ((core s).lists r).Nodup := List.Nodup.of_map _ (hM.nodup r)
    refine List.Nodup.map_on ?_ hnd
    intro x hx y hy hxy
    have a := (hM.mem_cur r x hx).2
    have b := (hM.mem_cur r y hy).2
    rw [hxy, b] at a
    exact (Option.some.inj a).symm
  · intro v r
    constructor
    · intro hc
      exact hM.cur_mem v r hc
    · rintro ⟨x, _, hx, hxv⟩
      rw [← hxv]
      exact (hM.mem_cur r x hx).1
  · intro v
    constructor
    · exact hM.cur_none v
    · intro he
      cases hc : (s.visitorAt v).CurrentRoom with
      | none => rfl
      | some r =>
        obtain ⟨x, hx, _⟩ := hM.cur_mem v r hc
        have hx1 : (s.visitorAt v).RoomElement = some x := hx
        rw [he] at hx1
        exact Option.noConfusion hx1

/-- In a state of the invariant, a visitor with a current room has one element
in the member lists: the one it points to, in that room. -/
theorem inv_one_element (cfg : Config) (s : Server) (h : Inv cfg s) (v R : Nat) (e : Element)
    (hcur : (s.visitorAt v).CurrentRoom = some R) (helem : (s.visitorAt v).RoomElement = some e) :
    ∀ q x, x ∈ (s.roomAt q).Visitors → x.Value = v → q = R ∧ x = e := by
  intro q x hx hxv
  obtain ⟨a, b⟩ := h.1.mem_cur q x hx
  rw [hxv] at a b
  have a1 : (s.visitorAt v).CurrentRoom = some q := a
  have b1 : (s.visitorAt v).RoomElement = some x := b
  rw [hcur] at a1
  rw [helem] at b1
  exact ⟨(Option.some.inj a1).symm, (Option.some.inj b1).symm⟩

theorem inv_annInCave : Inv sampleConfig annInCave :=
  inv_runEvents sampleConfig _ _ (inv_init sampleConfig) (by decide)

theorem inv_twoInCave : Inv sampleConfig twoInCave :=
  inv_runEvents sampleConfig _ _ inv_annInCave (by decide)

theorem inv_caveDrained : Inv sampleConfig caveDrained :=
  inv_runEvents sampleConfig _ _ inv_twoInCave (by decide)

/-- Membership is consistent at the end of every run of whole turns from the
state `Server.run` sets up: when no step of another actor falls inside a turn
of a reader, a visitor is a member of at most one room and at most once, and
`CurrentRoom` and `RoomElement` agree with the member lists. -/
theorem membershipConsistent_runEvents (cfg : Config) (es : List Event)
    (hd : (runEvents cfg es (Server.init cfg)).isDone = true) :
    MembershipConsistent (runEvents cfg es (Server.init cfg)).state :=
  membershipConsistent_of_inv cfg _ (inv_runEvents cfg es _ (inv_init cfg) hd)

/-! ## C3: the gate may fire in the room the visitor left -/

/-- C3 (as stated, refuted): Ann is a member of the room `cave` and calls
`beginChangingRoom` with the target id `cave`, which is not the void id and
resolves to the room she is in.  The four turns of the room change run to
their end; the gate stays armed through the first three and is fired by the
enter case of `cave`, and at that moment Ann is a member of `cave`, the room
she set out from: she has left it and entered it again. -/
theorem C3_gate_fired_as_member_of_R :
    (caveDrained.visitorAt 0).CurrentRoom = some 1
    ∧ 0 ∈ members caveDrained 1
    ∧ str "cave" ≠ sampleConfig.VoidRoomID
    ∧ targetRoom sampleConfig caveDrained (str "cave") = 1
    ∧ (changeRun sampleConfig noon noon 0 1 (str "cave") caveDrained 4).isDone = true
    ∧ ((changeRun sampleConfig noon noon 0 1 (str "cave") caveDrained 3).state.visitorAt 0).RoomChanged
        = false
    ∧ ((changeRun sampleConfig noon noon 0 1 (str "cave") caveDrained 4).state.visitorAt 0).RoomChanged
        = true
    ∧ 0 ∈ members (changeRun sampleConfig noon noon 0 1 (str "cave") caveDrained 4).state 1 :=
  by decide!

theorem C3_gate_fired_once_by_enter_witness :
    (changeRun sampleConfig noon noon 0 1 (str "lobby") caveDrained 4).isDone = true
    ∧ ((changeRun sampleConfig noon noon 0 1 (str "lobby") caveDrained 3).state.visitorAt 0).RoomChanged
        = false
    ∧ ((changeRun sampleConfig noon noon 0 1 (str "lobby") caveDrained 4).state.visitorAt 0).RoomChanged
        = true
    ∧ members (changeRun sampleConfig noon noon 0 1 (str "lobby") caveDrained 4).state 0 = [0] :=
  have h := C3_gate_fired_once_by_enter sampleConfig noon noon 0 1 ⟨1, 0⟩ (str "lobby") caveDrained
    (by decide) (by decide) rfl (by decide)
    (inv_one_element sampleConfig caveDrained inv_caveDrained 0 1 ⟨1, 0⟩
      (by decide) (by decide))
    (by decide) (by decide) (by decide) (by decide) (by decide) (by decide) (by decide)
    (by decide)
  ⟨h.2.1 4 (le_refl _), (h.2.2.1 3 (by decide)).1, h.2.2.2.1, by decide⟩

/-! ## The two parts of a reader's turn -/

/-- The two parts of a reader's turn, taken one right after the other, are the
whole turn. -/
theorem take_go_eq_turn (cfg : Config) (now : Bytes) (v : Nat) (rd : Reader) (σ : System)
    (hv : v < σ.server.numVisitors) (hn : σ.taken v = none) :
    (((Step.take v rd).apply cfg σ).next ((Step.go now v).apply cfg)).map System.server
      = ((Step.turn (.read now v rd)).apply cfg σ).map System.server := by
  simp only [Step.apply, Event.reader, Event.apply, hv, hn, Option.isNone_none, Option.isSome_none,
    and_self, if_true, Bool.false_eq_true, if_false]
  unfold takeLine readIter
  generalize (if ((σ.server.visitorAt v).WriteClosed || (σ.server.visitorAt v).Closed) = true then
    closeReadClosed v σ.server else Outcome.done σ.server) = o1
  cases o1 with
  | blocked s1 => rfl
  | fault s1 => rfl
  | done s1 =>
    simp only [Outcome.next, Outcome.andThen, id]
    by_cases hg : (s1.visitorAt v).RoomChanged = true
    · simp only [hg, Bool.not_true, Bool.false_eq_true, if_false]
      rcases hR : ReadString rd with ⟨line, err, rd1⟩
      simp only
      generalize (match err with
        | some e => if e ≠ ReadErr.eof ∨ line = [] then closeReadClosed v s1 else Outcome.done s1
        | none => Outcome.done s1) = o2
      cases o2 with
      | blocked s2 => rfl
      | fault s2 => rfl
      | done s2 =>
        simp only [Outcome.andThen, Step.apply, goOn, Function.update_same]
        cases readLine cfg now v line
          { rd1 with LimitInputN := line.length + rd1.LimitInputN } s2 <;> rfl
    · simp only [hg, Bool.not_false, if_true]
      rfl

/-! ## C1: a visitor entered twice -/

/-- C1 (the code at the failing schedule).  Ann is in the lobby; her reader
has taken `/exit`, which closes `ReadClosed` and does not end the loop, and in
its next turn passes the `select` and the gate and takes the line `/room den`.
Before the reader looks at that line, her writer closes `WriteClosed` and
`Visitor.run` goes on: it closes `Closed` and calls `beginChangingRoom` with
the void id.  The reader then calls `beginChangingRoom` with `den`: Ann has two
requests in `ChangeRoomRequests`, and the target is `den` for both.  All the
steps of `raceSteps` run to their end; after them Ann is the one member of
`den`, her gate has fired, and her second enter request is at the head of the
queue of `den`.  The enter case of `den` then calls `enterVisitor`, which only
logs that Ann has entered a room already, pushes her again, and is stuck on
the send of the notice to her full mailbox: the member list of `den` holds two
elements of Ann, of which `RoomElement` is the second, and membership is not
consistent. -/
theorem C1_member_twice_after_race :
    (runSteps roomyConfig raceSteps (System.init roomyConfig)).isDone = true
    ∧ (readIter roomyConfig noon 0
          (Reader.start roomyConfig (str "/exit\n/room den\n") .eof,
            (runSteps roomyConfig (raceSteps.take 3) (System.init roomyConfig)).state.server)).state.1.input
        = str "/room den\n"
    ∧ (readIter roomyConfig noon 0
          (Reader.start roomyConfig (str "/exit\n/room den\n") .eof,
            (runSteps roomyConfig (raceSteps.take 3) (System.init roomyConfig)).state.server)).state.1.LimitInputN
        = maxNumBytesPerMessage roomyConfig
    ∧ ((runSteps roomyConfig (raceSteps.take 4) (System.init roomyConfig)).state.server.visitorAt 0).ReadClosed
        = true
    ∧ ((runSteps roomyConfig (raceSteps.take 4) (System.init roomyConfig)).state.server.visitorAt 0).WriteClosed
        = false
    ∧ ((runSteps roomyConfig (raceSteps.take 4) (System.init roomyConfig)).state.server.visitorAt 0).Closed
        = false
    ∧ ((runSteps roomyConfig (raceSteps.take 4) (System.init roomyConfig)).state.server.visitorAt 0).RoomChanged
        = true
    ∧ ((runSteps roomyConfig (raceSteps.take 5) (System.init roomyConfig)).state.taken 0).map Prod.fst
        = some (str "/room den\n")
    ∧ ((runSteps roomyConfig (raceSteps.take 7) (System.init roomyConfig)).state.server.visitorAt 0).Closed
        = true
    ∧ (runSteps roomyConfig (raceSteps.take 7) (System.init roomyConfig)).state.server.ChangeRoomRequests
        = [0]
    ∧ (runSteps roomyConfig (raceSteps.take 8) (System.init roomyConfig)).state.server.ChangeRoomRequests
        = [0, 0]
    ∧ ((runSteps roomyConfig (raceSteps.take 8) (System.init roomyConfig)).state.server.visitorAt 0).NextRoomID
        = str "den"
    ∧ members raceState.server 1 = [0]
    ∧ (raceState.server.visitorAt 0).RoomChanged = true
    ∧ (raceState.server.roomAt 1).VisitorEnterRequests = [0]
    ∧ (enterCase roomyConfig noon 1 raceState.server).isBlocked = true
    ∧ ((enterCase roomyConfig noon 1 raceState.server).state.roomAt 1).Visitors = [⟨1, 0⟩, ⟨2, 0⟩]
    ∧ members (enterCase roomyConfig noon 1 raceState.server).state 1 = [0, 0]
    ∧ ((enterCase roomyConfig noon 1 raceState.server).state.visitorAt 0).CurrentRoom = some 1
    ∧ ((enterCase roomyConfig noon 1 raceState.server).state.visitorAt 0).RoomElement = some ⟨2, 0⟩
    ∧ ¬ MembershipConsistent (enterCase roomyConfig noon 1 raceState.server).state :=
  ⟨by decide!, by decide!, by decide!, by decide!, by decide!, by decide!, by decide!, by decide!,
    by decide!, by decide!, by decide!, by decide!, by decide!, by decide!, by decide!, by decide!,
    by decide!, by decide!, by decide!, by decide!,
    fun h => absurd (h.2.1 1) (by decide!)⟩

/-! ## C5: an enter request whose gate has fired -/

/-- C5 (the code at the failing input).  All the turns of `cidEvents` run to
their end.  After them the lobby holds Ann and Bob, which is
`MaxRoomCapacity`; Cid is in no room, his enter request is at the head of the
lobby's queue and his mailbox has room; his gate has fired already, in the
destroy branch of the Directory, which took the request `Visitor.run` made
while the request of `/room lobby` was under way.  The enter case of the lobby
sends the "full" notice, leaves the member lists alone and leaves Cid in no
room, and then faults in `endChangingRoom`: it closes `RoomChanged`, which is
closed. -/
theorem C5_enter_faults_on_fired_gate :
    (runEvents roomyConfig cidEvents (Server.init roomyConfig)).isDone = true
    ∧ (readIter roomyConfig noon 1
          (Reader.start roomyConfig (str "/exit\n/room lobby\n") .eof,
            (runEvents roomyConfig (cidEvents.take 6) (Server.init roomyConfig)).state)).state.1.input
        = str "/room lobby\n"
    ∧ (readIter roomyConfig noon 1
          (Reader.start roomyConfig (str "/exit\n/room lobby\n") .eof,
            (runEvents roomyConfig (cidEvents.take 6) (Server.init roomyConfig)).state)).state.1.LimitInputN
        = maxNumBytesPerMessage roomyConfig
    ∧ ((runEvents roomyConfig (cidEvents.take 7) (Server.init roomyConfig)).state.visitorAt 1).WriteClosed
        = false
    ∧ ((runEvents roomyConfig (cidEvents.take 7) (Server.init roomyConfig)).state.visitorAt 1).RoomChanged
        = true
    ∧ members cidAtFullLobby 0 = [0, 2]
    ∧ roomyConfig.MaxRoomCapacity = 2
    ∧ (cidAtFullLobby.roomAt 0).VisitorEnterRequests = [1]
    ∧ (cidAtFullLobby.visitorAt 1).CurrentRoom = none
    ∧ (cidAtFullLobby.visitorAt 1).RoomElement = none
    ∧ (cidAtFullLobby.visitorAt 1).OutputMessages.length = 4
    ∧ roomyConfig.MaxVisitorBufferedMessages = 6
    ∧ (cidAtFullLobby.visitorAt 1).RoomChanged = true
    ∧ (enterCase roomyConfig noon 0 cidAtFullLobby).isFault = true
    ∧ members (enterCase roomyConfig noon 0 cidAtFullLobby).state 0 = [0, 2]
    ∧ ((enterCase roomyConfig noon 0 cidAtFullLobby).state.visitorAt 1).CurrentRoom = none
    ∧ ((enterCase roomyConfig noon 0 cidAtFullLobby).state.visitorAt 1).OutputMessages
        = (cidAtFullLobby.visitorAt 1).OutputMessages
          ++ [str "[12:00:00] lobby> Sorry, I am full. :(\n"] := by
  decide!

/-! ## C6: the reader faults inside a long line -/

/-- C6 (the code at the failing input).  Bob is in the lobby; his connection
delivers the line `/exit`, then seventy bytes `a` and a newline, then the line
`hi`.  The reader takes `/exit`, which closes `ReadClosed` and does not end
the loop, and then the first window of the long line, for which it sends the
notice "your message is too long!": the mailbox has got the notice of the
lobby for `/exit` and that one notice, five bytes `a`, the newline and the line
`hi` are still to come, and `inReadingLongMessage` is set.  The writer, in its
first `select`, takes the case of `ReadClosed` and closes `WriteClosed`.  The
next turn of the reader faults in its `select`: it closes `ReadClosed`, which
is closed.  The rest of the long line and the line `hi` are never read. -/
theorem C6_reader_faults_inside_long_line :
    (runEvents roomyConfig [.connect noon (str "Bob"), .changeRoom, .enter noon 0]
        (Server.init roomyConfig)).isDone = true
    ∧ exitLongTurns.isDone = true
    ∧ (exitLongTurns.state.2.visitorAt 0).OutputMessages
        = (bobAtEase.visitorAt 0).OutputMessages
          ++ [lobbyNotice noon, str "[12:00:00] Server> your message is too long!\n"]
    ∧ exitLongTurns.state.1.input = List.replicate 5 97 ++ newline :: str "hi\n"
    ∧ exitLongTurns.state.1.inReadingLongMessage = true
    ∧ (exitLongTurns.state.2.visitorAt 0).ReadClosed = true
    ∧ (exitLongTurns.state.2.visitorAt 0).WriteClosed = false
    ∧ (exitLongTurns.state.2.visitorAt 0).Closed = false
    ∧ exitLongWrite.isDone = true
    ∧ (exitLongWrite.state.2.visitorAt 0).WriteClosed = true
    ∧ (readIter roomyConfig noon 0 (exitLongTurns.state.1, exitLongWrite.state.2)).isFault = true
    ∧ (readIter roomyConfig noon 0 (exitLongTurns.state.1, exitLongWrite.state.2)).state.1.input
        = List.replicate 5 97 ++ newline :: str "hi\n"
    ∧ ((readIter roomyConfig noon 0 (exitLongTurns.state.1, exitLongWrite.state.2)).state.2.visitorAt 0).OutputMessages
        = (exitLongTurns.state.2.visitorAt 0).OutputMessages := by
  decide!

/-! ## C7: a name of fewer runes than bytes -/

/-- C7 (as stated, refuted): Bob, in the lobby, sends the line `/name é`.  The
name is two bytes and one rune.  The reader, which counts bytes, finds it
within the bounds, sets `NextName` and queues the request.  The name has no
braces, so stripped of braces it still is within the bounds, and its lowercased
form is the key of no visitor.  `changeName` returns at its first check, which
counts runes and finds one where `MinVisitorNameLength` is two: run once or
twice it changes no name, sends no notice and leaves the registry as it
was. -/
theorem C7_short_rune_name_not_changed :
    (readIter sampleConfig noon 0
        (Reader.start sampleConfig (str "/name " ++ eAcute ++ [newline]) .eof, bobInLobby)).isDone = true
    ∧ (bobAsksAccent.visitorAt 0).NextName = eAcute
    ∧ bobAsksAccent.ChangeNameRequests = [0]
    ∧ candidateName sampleConfig eAcute = eAcute
    ∧ sampleConfig.MinVisitorNameLength ≤ (candidateName sampleConfig eAcute).length
    ∧ (candidateName sampleConfig eAcute).length ≤ sampleConfig.MaxVisitorNameLength
    ∧ bobAsksAccent.Visitors (sampleConfig.ToLower (candidateName sampleConfig eAcute)) = none
    ∧ bobAsksAccent.Visitors (str "bob") = some 0
    ∧ runeCount eAcute = 1
    ∧ (changeName sampleConfig noon 0 bobAsksAccent).isDone = true
    ∧ ((changeName sampleConfig noon 0 bobAsksAccent).state.visitorAt 0).Name = str "Bob"
    ∧ ((changeName sampleConfig noon 0 bobAsksAccent).state.visitorAt 0).OutputMessages
        = (bobAsksAccent.visitorAt 0).OutputMessages
    ∧ (changeName sampleConfig noon 0 bobAsksAccent).state.Visitors (sampleConfig.ToLower eAcute) = none
    ∧ (changeName sampleConfig noon 0 bobAsksAccent).state.Visitors (str "bob") = some 0
    ∧ ((changeName sampleConfig noon 0
          (changeName sampleConfig noon 0 bobAsksAccent).state).state.visitorAt 0).Name = str "Bob"
    ∧ ((changeName sampleConfig noon 0
          (changeName sampleConfig noon 0 bobAsksAccent).state).state.visitorAt 0).OutputMessages
        = (bobAsksAccent.visitorAt 0).OutputMessages
    ∧ (changeName sampleConfig noon 0
          (changeName sampleConfig noon 0 bobAsksAccent).state).state.Visitors
        (sampleConfig.ToLower eAcute) = none := by
  decide!

/-- The notice for a line that is too long, as text. -/
theorem tooLongNotice_text (now : Bytes) :
    tooLongNotice now = str "[" ++ now ++ str "] Server> your message is too long!\n" := by
  simp [tooLongNotice, CreateMessage, str]

end WsChat
